import Mathlib

/-
Verification of the tone-factory generation engine (music-theory utilities,
rhythm synthesis, and the seven algorithmic phrase generators) against its
natural-language specification.

Embedding conventions:
* JavaScript numbers are modelled as exact rationals (ℚ); integer indices as
  Nat/Int with JS remainder (`Int.tmod`) and `Math.floor` (`Int.fdiv`/`Int.floor`)
  where the sign matters.
* `Math.random()` is modelled as an explicit stream `rng : Nat → ℚ` together
  with a cursor `k : Nat`; each call reads `rng k` and advances the cursor.
  Every stateful function takes the stream and cursor and returns its result
  paired with the new cursor, in exactly the call order of the source.
* The `tonal` library functions used by the engine (`Note.midi`,
  `Note.fromMidi`) are modelled from the library's published semantics:
  `Note.midi` tokenizes a letter ([a-gA-G]), a homogeneous run of accidentals
  (#/b/x), an optional octave (-?digits) and trailing whitespace, and yields
  the height `semi + alt + 12*(oct+1)` when it lies in 0..127, otherwise null;
  `Note.fromMidi` returns FLATS[midi % 12] ++ (floor(midi/12) - 1).
* Note ids (Date.now()-based strings) are impure and irrelevant to every claim;
  the embedded Note omits the id field but keeps all other fields.
-/

set_option maxHeartbeats 1600000

namespace ToneFactory

/-! ## Pitch conversion (tonal model + src/lib/theory/scales.ts) -/

/-- Semitone value of a note letter (tonal: SEMI[(charCodeAt(0) + 3) % 7] after
upper-casing, SEMI = [0,2,4,5,7,9,11]); none for characters outside a-g/A-G. -/
def letterSemis (c : Char) : Option Int :=
  if c = 'C' ∨ c = 'c' then some 0
  else if c = 'D' ∨ c = 'd' then some 2
  else if c = 'E' ∨ c = 'e' then some 4
  else if c = 'F' ∨ c = 'f' then some 5
  else if c = 'G' ∨ c = 'g' then some 7
  else if c = 'A' ∨ c = 'a' then some 9
  else if c = 'B' ∨ c = 'b' then some 11
  else none

/-- Length of the leading run of the character c, and the remainder. -/
def takeRun (c : Char) : List Char → Nat × List Char
  | [] => (0, [])
  | d :: rest =>
    if d = c then
      let p := takeRun c rest
      (p.1 + 1, p.2)
    else (0, d :: rest)

/-- Accidental token of tonal's note regex `(#{1,}|b{1,}|x{1,}|)`: a maximal
homogeneous run of '#', 'b' or 'x'; '#' counts +1, 'b' counts -1, 'x' counts +2. -/
def parseAlt : List Char → Int × List Char
  | [] => (0, [])
  | c :: rest =>
    if c = '#' then
      let p := takeRun '#' rest
      ((p.1 : Int) + 1, p.2)
    else if c = 'b' then
      let p := takeRun 'b' rest
      (-((p.1 : Int) + 1), p.2)
    else if c = 'x' then
      let p := takeRun 'x' rest
      (2 * ((p.1 : Int) + 1), p.2)
    else (0, c :: rest)

/-- Leading digit run and the remainder. -/
def takeDigits : List Char → List Char × List Char
  | [] => ([], [])
  | c :: rest =>
    if c.isDigit then
      let p := takeDigits rest
      (c :: p.1, p.2)
    else ([], c :: rest)

/-- Decimal value of a digit list. -/
def digitsVal (l : List Char) : Nat :=
  l.foldl (fun acc c => acc * 10 + (c.toNat - 48)) 0

/-- Octave token of tonal's note regex `(-?\d*)`: `none` when the token is
empty (no octave), `some none` when it is a bare minus sign (JS coerces the
token "-" to NaN, making the note's midi null), `some (some o)` otherwise. -/
def parseOct : List Char → Option (Option Int) × List Char
  | [] => (none, [])
  | c :: rest =>
    if c = '-' then
      let p := takeDigits rest
      if p.1 = [] then (some none, p.2)
      else (some (some (-(digitsVal p.1 : Int))), p.2)
    else if c.isDigit then
      let p := takeDigits (c :: rest)
      (some (some (digitsVal p.1 : Int)), p.2)
    else (none, c :: rest)

/-- tonal's Note.midi: parse letter, accidentals, octave, optional trailing
whitespace; any other trailing text makes the name invalid.  The midi value is
the height `semi + alt + 12*(oct+1)` when an octave is present and the height
lies in 0..127; otherwise null (`none`). -/
def tonalMidiTail (semi : Int) (rest : List Char) : Option Int :=
  let pa := parseAlt rest
  let po := parseOct pa.2
  let tail := po.2.dropWhile (fun ch => ch.isWhitespace)
  if tail ≠ [] then none
  else
    match po.1 with
    | some (some oct) =>
      let height := semi + pa.1 + 12 * (oct + 1)
      if 0 ≤ height ∧ height ≤ 127 then some height else none
    | _ => none

/-- tonal's Note.midi on the character list of a name: a letter is mandatory,
then accidentals, octave and trailing whitespace as in tonalMidiTail. -/
def tonalMidiChars : List Char → Option Int
  | [] => none
  | c :: rest =>
    match letterSemis c with
    | none => none
    | some semi => tonalMidiTail semi rest

/-- tonal's Note.midi on a string. -/
def tonalMidi (s : String) : Option Int :=
  tonalMidiChars s.data

/-- tonal's flat pitch-class spellings, indexed by midi % 12. -/
def FLATS : List String :=
  ["C", "Db", "D", "Eb", "E", "F", "Gb", "G", "Ab", "A", "Bb", "B"]

/-- tonal's midiToNoteName (as used by Note.fromMidi): FLATS[midi % 12] followed
by floor(midi / 12) - 1.  JS `%` truncates toward zero, so a negative midi
indexes out of range and yields the string "undefined" as pitch class. -/
def midiToNoteName (midi : Int) : String :=
  let r := Int.tmod midi 12
  let pc := if 0 ≤ r then FLATS.getD r.toNat "undefined" else "undefined"
  pc ++ toString (Int.fdiv midi 12 - 1)

/-- noteToMidi from scales.ts: `TonalNote.midi(note) ?? 60` (default middle C). -/
def noteToMidi (note : String) : Int :=
  (tonalMidi note).getD 60

/-- midiToNote from scales.ts: `TonalNote.fromMidi(midi) ?? 'C4'`.  tonal's
fromMidi always returns a string for a non-NaN number, so the 'C4' fallback is
unreachable in the embedded (NaN-free) domain. -/
def midiToNote (midi : Int) : String :=
  midiToNoteName midi

/-- getRootMidi from scales.ts: noteToMidi of the template string key+octave. -/
def getRootMidi (key : String) (octave : Int) : Int :=
  noteToMidi (key ++ toString octave)

/-! ## Theory tables (src/lib/theory/types.ts, scales.ts) -/

/-- ScaleDefinition from types.ts. -/
structure ScaleDefinition where
  name : String
  intervals : List Int
  chordTones : List Nat
deriving Repr, DecidableEq

/-- SCALE_DEFINITIONS from scales.ts, as an association list keyed by scale id. -/
def SCALE_DEFINITIONS : List (String × ScaleDefinition) :=
  [("major", ⟨"Major", [0, 2, 4, 5, 7, 9, 11], [1, 3, 5, 7]⟩),
   ("minor", ⟨"Natural Minor", [0, 2, 3, 5, 7, 8, 10], [1, 3, 5, 7]⟩),
   ("pentatonic-major", ⟨"Major Pentatonic", [0, 2, 4, 7, 9], [1, 3, 5]⟩),
   ("pentatonic-minor", ⟨"Minor Pentatonic", [0, 3, 5, 7, 10], [1, 3, 5]⟩),
   ("blues", ⟨"Blues", [0, 3, 5, 6, 7, 10], [1, 4, 5]⟩),
   ("dorian", ⟨"Dorian", [0, 2, 3, 5, 7, 9, 10], [1, 3, 5, 7]⟩),
   ("mixolydian", ⟨"Mixolydian", [0, 2, 4, 5, 7, 9, 10], [1, 3, 5, 7]⟩),
   ("phrygian", ⟨"Phrygian", [0, 1, 3, 5, 7, 8, 10], [1, 3, 5, 7]⟩),
   ("lydian", ⟨"Lydian", [0, 2, 4, 6, 7, 9, 11], [1, 3, 5, 7]⟩)]

/-- Record lookup `defs[scaleName]` on an association list of scale definitions. -/
def lookupScaleIn (defs : List (String × ScaleDefinition)) (scaleName : String) :
    Option ScaleDefinition :=
  (defs.find? (fun p => p.1 = scaleName)).map (fun p => p.2)

/-- The 12 keys from types.ts. -/
def KEYS : List String :=
  ["C", "C#", "D", "D#", "E", "F", "F#", "G", ("G#" : String), "A", "A#", "B"]

/-- The integer range [lo, hi] exactly as a JS `for (o = lo; o <= hi; o++)`
loop visits it (empty when lo > hi). -/
def intRange (lo hi : Int) : List Int :=
  (List.range (hi + 1 - lo).toNat).map (fun (i : Nat) => lo + (i : Int))

/-- getScaleNotes from scales.ts, generalized over the definitions table. -/
def getScaleNotesIn (defs : List (String × ScaleDefinition)) (key scaleName : String)
    (octaveRange : Int × Int) : List String :=
  match lookupScaleIn defs scaleName with
  | none => []
  | some d =>
    (intRange octaveRange.1 octaveRange.2).flatMap (fun octave =>
      let rootMidi := getRootMidi key octave
      d.intervals.filterMap (fun interval =>
        let midi := rootMidi + interval
        if 0 ≤ midi ∧ midi ≤ 127 then some (midiToNote midi) else none))

/-- getScaleNotes from scales.ts (on the engine's SCALE_DEFINITIONS). -/
def getScaleNotes (key scaleName : String) (octaveRange : Int × Int) : List String :=
  getScaleNotesIn SCALE_DEFINITIONS key scaleName octaveRange

/-- getScaleDegree from scales.ts, generalized over the definitions table:
interval is `((noteMidi - keyMidi) % 12 + 12) % 12` with JS `%` (truncating),
then the first matching index in the interval list, 1-indexed. -/
def getScaleDegreeIn (defs : List (String × ScaleDefinition)) (note key scaleName : String) :
    Option Nat :=
  match lookupScaleIn defs scaleName with
  | none => none
  | some d =>
    let noteMidi := noteToMidi note
    let keyMidi := noteToMidi (key ++ "0")
    let interval := Int.tmod (Int.tmod (noteMidi - keyMidi) 12 + 12) 12
    match d.intervals.findIdx? (fun x => x = interval) with
    | some degreeIndex => some (degreeIndex + 1)
    | none => none

/-- getScaleDegree from scales.ts. -/
def getScaleDegree (note key scaleName : String) : Option Nat :=
  getScaleDegreeIn SCALE_DEFINITIONS note key scaleName

/-- isChordTone from scales.ts, generalized over the definitions table.  (The
JS guard `if (!degree) return false` fires exactly on null: a found degree is
always ≥ 1, never the falsy 0.) -/
def isChordToneIn (defs : List (String × ScaleDefinition)) (note key scaleName : String) :
    Bool :=
  match getScaleDegreeIn defs note key scaleName with
  | none => false
  | some degree =>
    match lookupScaleIn defs scaleName with
    | none => false
    | some d => d.chordTones.contains degree

/-- isChordTone from scales.ts. -/
def isChordTone (note key scaleName : String) : Bool :=
  isChordToneIn SCALE_DEFINITIONS note key scaleName

/-- JS Array.indexOf: index of the first equal element, or -1. -/
def jsIndexOf (l : List String) (x : String) : Int :=
  match l.findIdx? (fun y => y = x) with
  | some i => (i : Int)
  | none => -1

/-- The absolute MIDI distance used by the closest-note scans. -/
def cdist (targetMidi : Int) (note : String) : Nat :=
  (noteToMidi note - targetMidi).natAbs

/-- One step of the closest-index scan inside getNeighboringNotes (`none`
encodes the initial Infinity distance; improvement is strict). -/
def idxStep (noteMidi : Int) (acc : Nat × Option Nat) (p : Nat × String) : Nat × Option Nat :=
  match acc.2 with
  | none => (p.1, some (cdist noteMidi p.2))
  | some d => if cdist noteMidi p.2 < d then (p.1, some (cdist noteMidi p.2)) else acc

/-- The closest-index scan inside getNeighboringNotes: first index minimizing
|noteToMidi(scaleNotes[i]) - noteMidi|, starting from index 0. -/
def closestIndexLoop (scaleNotes : List String) (noteMidi : Int) : Nat :=
  (scaleNotes.enum.foldl (idxStep noteMidi) (0, none)).1

/-- Result record of getNeighboringNotes. -/
structure Neighbors where
  below : Option String
  above : Option String
deriving Repr, DecidableEq

/-- getNeighboringNotes from scales.ts. -/
def getNeighboringNotes (note key scaleName : String) (octaveRange : Int × Int) :
    Neighbors :=
  let scaleNotes := getScaleNotes key scaleName octaveRange
  let index := jsIndexOf scaleNotes note
  if index = -1 then
    let noteMidi := noteToMidi note
    let closestIndex := closestIndexLoop scaleNotes noteMidi
    { below := if closestIndex > 0 then some (scaleNotes.getD (closestIndex - 1) "") else none
      above := if closestIndex < scaleNotes.length - 1 then
                 some (scaleNotes.getD (closestIndex + 1) "")
               else none }
  else
    { below := if index > 0 then some (scaleNotes.getD (index - 1).toNat "") else none
      above := if index < (scaleNotes.length : Int) - 1 then
                 some (scaleNotes.getD (index + 1).toNat "")
               else none }

/-- One step of findClosestScaleNote's scan. -/
def closStep (targetMidi : Int) (acc : String × Option Nat) (note : String) :
    String × Option Nat :=
  match acc.2 with
  | none => (note, some (cdist targetMidi note))
  | some d => if cdist targetMidi note < d then (note, some (cdist targetMidi note)) else acc

/-- findClosestScaleNote, the identical private helper of MotifGenerator
(motif.ts) and CallResponseGenerator (call-response.ts): the scan keeps the
first note strictly improving the distance, starting from scaleNotes[0]. -/
def findClosestScaleNote (scaleNotes : List String) (targetMidi : Int) : String :=
  (scaleNotes.foldl (closStep targetMidi) (scaleNotes.headD "", none)).1

/-! ## Rhythm synthesis (src/lib/theory/rhythm.ts) -/

/-- RhythmPattern from types.ts. -/
structure RhythmPattern where
  name : String
  feel : String
  durations : List ℚ
deriving Repr, DecidableEq

/-- RHYTHM_PATTERNS from rhythm.ts. -/
def RHYTHM_PATTERNS : List (String × RhythmPattern) :=
  [("straight-eighths",
    ⟨"Straight Eighths", "straight", [0.5, 0.5, 0.5, 0.5, 0.5, 0.5, 0.5, 0.5]⟩),
   ("straight-quarters", ⟨"Straight Quarters", "straight", [1, 1, 1, 1]⟩),
   ("straight-sixteenths",
    ⟨"Straight Sixteenths", "straight",
     [0.25, 0.25, 0.25, 0.25, 0.25, 0.25, 0.25, 0.25,
      0.25, 0.25, 0.25, 0.25, 0.25, 0.25, 0.25, 0.25]⟩),
   ("swing-eighths",
    ⟨"Swing Eighths", "swing", [0.67, 0.33, 0.67, 0.33, 0.67, 0.33, 0.67, 0.33]⟩),
   ("syncopated-1",
    ⟨"Syncopated 1", "syncopated", [0.75, 0.25, 0.5, 0.5, 0.75, 0.25, 0.5, 0.5]⟩),
   ("syncopated-2",
    ⟨"Syncopated 2", "syncopated", [0.5, 0.25, 0.25, 0.5, 0.5, 0.5, 0.25, 0.25]⟩),
   ("mixed-1", ⟨"Mixed 1", "straight", [1, 0.5, 0.5, 0.5, 0.5, 1]⟩)]

/-- Record lookup `RHYTHM_PATTERNS[name]`.  Every lookup in the engine uses a
key present in the table; the fallback pattern stands for JS undefined. -/
def lookupPattern (name : String) : RhythmPattern :=
  ((RHYTHM_PATTERNS.find? (fun p => p.1 = name)).map (fun p => p.2)).getD ⟨"", "straight", []⟩

/-- The multiplier set of generateRhythmDurations' variation step. -/
def rhythmAdjustments : List ℚ := [0.5, 0.75, 1, 1.5, 2]

/-- The while-loop of generateRhythmDurations (rhythm.ts), fuel-indexed.
Each iteration reads the cyclic pattern entry, with probability `variation`
multiplies it by a random adjustment (the draw for the probability check is
only made when variation > 0, matching the JS short-circuit), clips the step
at totalBeats, pushes it and advances.  The fuel passed by
generateRhythmDurations is provably enough for the loop to finish on every
positive-duration pattern. -/
def rhythmLoop (rng : Nat → ℚ) (pattern : RhythmPattern) (totalBeats variation : ℚ) :
    Nat → ℚ → Nat → Nat → List ℚ × Nat
  | 0, _, _, k => ([], k)
  | fuel + 1, currentBeat, patternIndex, k =>
    if currentBeat < totalBeats then
      let d0 := pattern.durations.getD (patternIndex % pattern.durations.length) 0
      let p1 : ℚ × Nat :=
        if variation > 0 then
          if rng k < variation then
            let idx := (Int.floor (rng (k + 1) * (rhythmAdjustments.length : ℚ))).toNat
            (d0 * rhythmAdjustments.getD idx 1, k + 2)
          else (d0, k + 1)
        else (d0, k)
      let duration := if currentBeat + p1.1 > totalBeats then totalBeats - currentBeat else p1.1
      let rest := rhythmLoop rng pattern totalBeats variation fuel (currentBeat + duration)
        (patternIndex + 1) p1.2
      (duration :: rest.1, rest.2)
    else ([], k)

/-- Minimum of a pattern's duration list (0 for the empty pattern). -/
def patternMinDur (p : RhythmPattern) : ℚ :=
  match p.durations with
  | [] => 0
  | d :: ds => ds.foldl min d

/-- Fuel sufficient for rhythmLoop: every non-final step advances by at least
half the minimum pattern duration, and a clipped step is final. -/
def rhythmFuel (totalBeats : ℚ) (p : RhythmPattern) : Nat :=
  (Int.ceil (2 * totalBeats / patternMinDur p)).toNat + 2

/-- generateRhythmDurations from rhythm.ts. -/
def generateRhythmDurations (rng : Nat → ℚ) (totalBeats : ℚ) (pattern : RhythmPattern)
    (variation : ℚ) (k : Nat) : List ℚ × Nat :=
  rhythmLoop rng pattern totalBeats variation (rhythmFuel totalBeats pattern) 0 0 k

/-- beatsToSeconds from rhythm.ts: (beats / tempo) * 60. -/
def beatsToSeconds (beats tempo : ℚ) : ℚ :=
  beats / tempo * 60

/-! ## Data model and shared generator services (types.ts, generators/base.ts) -/

/-- Note from types.ts.  The id field (an impure Date.now()-based string) is
omitted; no claim concerns it. -/
structure Note where
  pitch : String
  midi : Int
  time : ℚ
  duration : ℚ
  velocity : ℚ
deriving Repr, DecidableEq

/-- GeneratorConfig from types.ts. -/
structure GeneratorConfig where
  key : String
  scale : String
  tempo : ℚ
  lengthBars : ℚ
  octaveRange : Int × Int
  rhythmFeel : String
deriving Repr, DecidableEq

/-- Sequence from types.ts. -/
structure Sequence where
  notes : List Note
  key : String
  scale : String
  tempo : ℚ
  lengthBars : ℚ
  algorithm : String
deriving Repr, DecidableEq

/-- GeneratorResult from generators/base.ts. -/
structure GeneratorResult where
  notes : List Note
  algorithm : String
deriving Repr, DecidableEq

/-- BaseGenerator's per-instance scale-note cache:
getScaleNotes(config.key, config.scale, config.octaveRange). -/
def scaleNotesOf (cfg : GeneratorConfig) : List String :=
  getScaleNotes cfg.key cfg.scale cfg.octaveRange

/-- BaseGenerator.getScaleNoteAt: index clamped to [0, length-1]. -/
def getScaleNoteAt (scaleNotes : List String) (index : Int) : String :=
  let clampedIndex := max 0 (min index ((scaleNotes.length : Int) - 1))
  scaleNotes.getD clampedIndex.toNat ""

/-- BaseGenerator.findNoteIndex: Array.indexOf. -/
def findNoteIndex (scaleNotes : List String) (note : String) : Int :=
  jsIndexOf scaleNotes note

/-- BaseGenerator.createNote: beat-domain time and duration converted to
seconds through the config tempo. -/
def createNote (cfg : GeneratorConfig) (pitch : String) (timeBeats durationBeats velocity : ℚ) :
    Note :=
  { pitch := pitch
    midi := noteToMidi pitch
    time := beatsToSeconds timeBeats cfg.tempo
    duration := beatsToSeconds durationBeats cfg.tempo
    velocity := velocity }

/-- BaseGenerator.applyVelocity; r is the Math.random() draw.  JS
`beatPosition % 1 === 0` holds exactly for integral beat positions. -/
def applyVelocity (cfg : GeneratorConfig) (note : Note) (beatPosition : ℚ) (r : ℚ) : Note :=
  let isChord := isChordTone note.pitch cfg.key cfg.scale
  let baseVelocity : ℚ := if isChord then 0.8 else 0.65
  let accentBoost : ℚ := if beatPosition.isInt then 0.1 else 0
  let randomVariation := r * 0.1 - 0.05
  { note with velocity := min 1 (max 0.3 (baseVelocity + accentBoost + randomVariation)) }

/-- JS `list[Math.floor(r * list.length)]`, with an explicit fallback for the
empty list (where JS yields undefined). -/
def randPick {α : Type} (l : List α) (fallback : α) (r : ℚ) : α :=
  l.getD (Int.floor (r * (l.length : ℚ))).toNat fallback

/-! ## Scale-run generator (generators/scale-runs.ts) -/

/-- ScaleRunGenerator.getPatternForFeel. -/
def scaleRunPatternForFeel (rng : Nat → ℚ) (cfg : GeneratorConfig) (k : Nat) : String × Nat :=
  if cfg.rhythmFeel = "swing" then ("swing-eighths", k)
  else if cfg.rhythmFeel = "syncopated" then
    (if rng k < 0.5 then "syncopated-1" else "syncopated-2", k + 1)
  else
    (if rng k < 0.7 then "straight-eighths" else "straight-sixteenths", k + 1)

/-- ScaleRunGenerator.getStartingIndex: middle third of the scale. -/
def scaleRunStartingIndex (rng : Nat → ℚ) (scaleNotes : List String) (k : Nat) : Int × Nat :=
  let third := scaleNotes.length / 3
  ((third : Int) + Int.floor (rng k * (third : ℚ)), k + 1)

/-- ScaleRunGenerator.getInitialDirection for the default direction 'mixed'. -/
def scaleRunInitialDirection (rng : Nat → ℚ) (k : Nat) : Int × Nat :=
  (if rng k < 0.5 then 1 else -1, k + 1)

/-- The per-duration loop of ScaleRunGenerator.generate; runConfig is
{direction: 'mixed', runLength: 4, restProbability: 0.1}. -/
def scaleRunLoop (rng : Nat → ℚ) (cfg : GeneratorConfig) (scaleNotes : List String) :
    List ℚ → ℚ → Int → Int → Nat → Nat → List Note × Nat
  | [], _, _, _, _, k => ([], k)
  | duration :: durations, currentBeat, currentIndex, currentDirection, notesInRun, k =>
    if rng k < 0.1 then
      scaleRunLoop rng cfg scaleNotes durations (currentBeat + duration) currentIndex
        currentDirection 0 (k + 1)
    else
      let pitch := getScaleNoteAt scaleNotes currentIndex
      let note := createNote cfg pitch currentBeat (duration * 0.9) 0.7
      let note := applyVelocity cfg note currentBeat (rng (k + 1))
      let currentIndex1 := currentIndex + currentDirection
      let notesInRun1 := notesInRun + 1
      let dirRun : Int × Nat :=
        if notesInRun1 ≥ 4 then (-currentDirection, 0) else (currentDirection, notesInRun1)
      let idxDir : Int × Int :=
        if currentIndex1 ≥ (scaleNotes.length : Int) - 1 then
          ((scaleNotes.length : Int) - 1, -1)
        else if currentIndex1 ≤ 0 then (0, 1)
        else (currentIndex1, dirRun.1)
      let rest := scaleRunLoop rng cfg scaleNotes durations (currentBeat + duration)
        idxDir.1 idxDir.2 dirRun.2 (k + 2)
      (note :: rest.1, rest.2)

/-- ScaleRunGenerator.generate. -/
def scaleRunGenerate (rng : Nat → ℚ) (cfg : GeneratorConfig) (k : Nat) :
    GeneratorResult × Nat :=
  let scaleNotes := scaleNotesOf cfg
  let totalBeats := cfg.lengthBars * 4
  let pf := scaleRunPatternForFeel rng cfg k
  let dr := generateRhythmDurations rng totalBeats (lookupPattern pf.1) 0.2 pf.2
  let si := scaleRunStartingIndex rng scaleNotes dr.2
  let di := scaleRunInitialDirection rng si.2
  let body := scaleRunLoop rng cfg scaleNotes dr.1 0 si.1 di.1 0 di.2
  ({ notes := body.1, algorithm := "scale-run" }, body.2)

/-! ## Arpeggio generator (generators/arpeggios.ts) -/

/-- ArpeggioGenerator.getPatternForFeel. -/
def arpeggioPatternForFeel (rng : Nat → ℚ) (cfg : GeneratorConfig) (k : Nat) : String × Nat :=
  if cfg.rhythmFeel = "swing" then ("swing-eighths", k)
  else if cfg.rhythmFeel = "syncopated" then ("syncopated-1", k)
  else (if rng k < 0.5 then "straight-eighths" else "straight-quarters", k + 1)

/-- ArpeggioGenerator.getPassingTone: one scale step above or below the
target, only if that neighbour is not itself a chord tone.  The direction draw
happens only after the target is found in the scale, as in the source. -/
def getPassingTone (rng : Nat → ℚ) (cfg : GeneratorConfig) (scaleNotes : List String)
    (targetPitch : String) (k : Nat) : Option String × Nat :=
  let targetMidi := noteToMidi targetPitch
  match scaleNotes.findIdx? (fun n => noteToMidi n = targetMidi) with
  | none => (none, k)
  | some targetIndex =>
    let direction : Int := if rng k < 0.5 then -1 else 1
    let passingIndex := (targetIndex : Int) + direction
    if 0 ≤ passingIndex ∧ passingIndex < (scaleNotes.length : Int) then
      let passingNote := scaleNotes.getD passingIndex.toNat ""
      if isChordTone passingNote cfg.key cfg.scale then (none, k + 1)
      else (some passingNote, k + 1)
    else (none, k + 1)

/-- The per-duration loop of ArpeggioGenerator.generate; arpConfig is
{includePassingTones: true, passingToneFrequency: 0.25, arpeggioPattern: [0,1,2,1]}.
The passing-tone probability draw is made every iteration (includePassingTones
is true); baseIndex uses JS `%`, which can be negative, and is then clamped. -/
def arpeggioLoop (rng : Nat → ℚ) (cfg : GeneratorConfig) (scaleNotes chordTones : List String) :
    List ℚ → ℚ → Nat → Int → Nat → List Note × Nat
  | [], _, _, _, k => ([], k)
  | duration :: durations, currentBeat, patternIndex, currentOctaveOffset, k =>
    let chordToneIndex := ([0, 1, 2, 1] : List Int).getD (patternIndex % 4) 0
    let baseIndex := Int.tmod (chordToneIndex + currentOctaveOffset) (chordTones.length : Int)
    let pitch := chordTones.getD (max 0 (min baseIndex ((chordTones.length : Int) - 1))).toNat ""
    let pt : Option String × Nat :=
      if rng k < 0.25 ∧ duration ≥ 0.5 then getPassingTone rng cfg scaleNotes pitch (k + 1)
      else (none, k + 1)
    match pt.1 with
    | some passingPitch =>
      let passingDuration := duration * 0.4
      let passingNote := createNote cfg passingPitch currentBeat (passingDuration * 0.9) 0.7
      let passingNote := applyVelocity cfg passingNote currentBeat (rng pt.2)
      let passingNote := { passingNote with velocity := passingNote.velocity * 0.7 }
      let beat1 := currentBeat + passingDuration
      let mainNote := createNote cfg pitch beat1 ((duration - passingDuration) * 0.9) 0.7
      let mainNote := applyVelocity cfg mainNote beat1 (rng (pt.2 + 1))
      let rest := arpeggioLoop rng cfg scaleNotes chordTones durations
        (beat1 + (duration - passingDuration)) (patternIndex + 1) currentOctaveOffset (pt.2 + 2)
      (passingNote :: mainNote :: rest.1, rest.2)
    | none =>
      let note := createNote cfg pitch currentBeat (duration * 0.9) 0.7
      let note := applyVelocity cfg note currentBeat (rng pt.2)
      let patternIndex1 := patternIndex + 1
      let oo : Int × Nat :=
        if patternIndex1 % 4 = 0 then
          if rng (pt.2 + 1) < 0.3 then
            let step : Int := if rng (pt.2 + 2) < 0.5 then 1 else -1
            let shifted := Int.tmod (currentOctaveOffset + step) 3
            (max (-1) (min 1 shifted), pt.2 + 3)
          else (currentOctaveOffset, pt.2 + 2)
        else (currentOctaveOffset, pt.2 + 1)
      let rest := arpeggioLoop rng cfg scaleNotes chordTones durations
        (currentBeat + duration) patternIndex1 oo.1 oo.2
      (note :: rest.1, rest.2)

/-- ArpeggioGenerator.generate. -/
def arpeggioGenerate (rng : Nat → ℚ) (cfg : GeneratorConfig) (k : Nat) :
    GeneratorResult × Nat :=
  let scaleNotes := scaleNotesOf cfg
  let chordTones := scaleNotes.filter (fun note => isChordTone note cfg.key cfg.scale)
  let totalBeats := cfg.lengthBars * 4
  let pf := arpeggioPatternForFeel rng cfg k
  let dr := generateRhythmDurations rng totalBeats (lookupPattern pf.1) 0.15 pf.2
  let body := arpeggioLoop rng cfg scaleNotes chordTones dr.1 0 0 0 dr.2
  ({ notes := body.1, algorithm := "arpeggio" }, body.2)

/-! ## Motif generator (generators/motif.ts) -/

/-- MotifGenerator.getPatternForFeel (no randomness). -/
def motifPatternForFeel (cfg : GeneratorConfig) : String :=
  if cfg.rhythmFeel = "swing" then "swing-eighths"
  else if cfg.rhythmFeel = "syncopated" then "syncopated-2"
  else "mixed-1"

/-- MotifGenerator.getMotifMovement: a random element of the movement table. -/
def getMotifMovement (rng : Nat → ℚ) (k : Nat) : Int × Nat :=
  (randPick ([-2, -1, -1, 0, 1, 1, 2, 3] : List Int) 0 (rng k), k + 1)

/-- The note loop of MotifGenerator.generateInitialMotif. -/
def motifInitialLoop (rng : Nat → ℚ) (cfg : GeneratorConfig) (scaleNotes : List String) :
    List ℚ → ℚ → Int → Nat → List Note × Nat
  | [], _, _, k => ([], k)
  | duration :: durations, currentBeat, currentIndex, k =>
    let pitch := getScaleNoteAt scaleNotes currentIndex
    let note := createNote cfg pitch currentBeat (duration * 0.85) 0.7
    let note := applyVelocity cfg note currentBeat (rng k)
    let mv := getMotifMovement rng (k + 1)
    let currentIndex1 := max 0 (min ((scaleNotes.length : Int) - 1) (currentIndex + mv.1))
    let rest := motifInitialLoop rng cfg scaleNotes durations (currentBeat + duration)
      currentIndex1 mv.2
    (note :: rest.1, rest.2)

/-- MotifGenerator.generateInitialMotif: rhythm for motifLength = 4 beats,
sliced to the first 4 durations, starting at the middle of the scale
(findStartingIndex). -/
def generateInitialMotif (rng : Nat → ℚ) (cfg : GeneratorConfig) (scaleNotes : List String)
    (k : Nat) : List Note × Nat :=
  let dr := generateRhythmDurations rng 4 (lookupPattern (motifPatternForFeel cfg)) 0.1 k
  motifInitialLoop rng cfg scaleNotes (dr.1.take 4) 0 ((scaleNotes.length / 2 : Nat) : Int) dr.2

/-- MotifGenerator.transpose, threading the running currentTime (the spacing
`note.duration / 0.85 * 0.85` is kept literally from the source). -/
def motifTransposeAux (scaleNotes : List String) (scaleSteps : Int) :
    List Note → ℚ → List Note
  | [], _ => []
  | note :: rest, currentTime =>
    let currentIndex := jsIndexOf scaleNotes note.pitch
    let newIndex := max 0 (min ((scaleNotes.length : Int) - 1) (currentIndex + scaleSteps))
    let newPitch := scaleNotes.getD newIndex.toNat ""
    let newNote : Note :=
      { pitch := newPitch, midi := noteToMidi newPitch, time := currentTime,
        duration := note.duration, velocity := note.velocity }
    newNote :: motifTransposeAux scaleNotes scaleSteps rest
      (currentTime + note.duration / 0.85 * 0.85)

/-- MotifGenerator.transpose. -/
def motifTranspose (cfg : GeneratorConfig) (scaleNotes : List String) (motif : List Note)
    (scaleSteps : Int) (startBeat : ℚ) : List Note :=
  motifTransposeAux scaleNotes scaleSteps motif (beatsToSeconds startBeat cfg.tempo)

/-- Body of MotifGenerator.invert for a fixed pivot. -/
def motifInvertAux (scaleNotes : List String) (pivotMidi : Int) : List Note → ℚ → List Note
  | [], _ => []
  | note :: rest, currentTime =>
    let originalMidi := noteToMidi note.pitch
    let invertedMidi := pivotMidi - (originalMidi - pivotMidi)
    let invertedPitch := findClosestScaleNote scaleNotes invertedMidi
    let newNote : Note :=
      { pitch := invertedPitch, midi := noteToMidi invertedPitch, time := currentTime,
        duration := note.duration, velocity := note.velocity }
    newNote :: motifInvertAux scaleNotes pivotMidi rest (currentTime + note.duration / 0.85 * 0.85)

/-- MotifGenerator.invert: melodic inversion around the motif's first pitch,
snapped to the closest scale note. -/
def motifInvert (cfg : GeneratorConfig) (scaleNotes : List String) (motif : List Note)
    (startBeat : ℚ) : List Note :=
  match motif with
  | [] => []
  | m0 :: _ =>
    motifInvertAux scaleNotes (noteToMidi m0.pitch) motif (beatsToSeconds startBeat cfg.tempo)

/-- Retiming map shared by retrograde (durations kept). -/
def motifRetrogradeAux : List Note → ℚ → List Note
  | [], _ => []
  | note :: rest, currentTime =>
    { note with time := currentTime } ::
      motifRetrogradeAux rest (currentTime + note.duration / 0.85 * 0.85)

/-- MotifGenerator.retrograde. -/
def motifRetrograde (cfg : GeneratorConfig) (motif : List Note) (startBeat : ℚ) : List Note :=
  motifRetrogradeAux motif.reverse (beatsToSeconds startBeat cfg.tempo)

/-- MotifGenerator.augment (present in the source switch, never cycled by the
default technique list). -/
def motifAugmentAux : List Note → ℚ → List Note
  | [], _ => []
  | note :: rest, currentTime =>
    let newDuration := note.duration * 1.5
    { note with time := currentTime, duration := newDuration } ::
      motifAugmentAux rest (currentTime + newDuration / 0.85 * 0.85)

/-- MotifGenerator.augment. -/
def motifAugment (cfg : GeneratorConfig) (motif : List Note) (startBeat : ℚ) : List Note :=
  motifAugmentAux motif (beatsToSeconds startBeat cfg.tempo)

/-- MotifGenerator.diminish (present in the source switch, never cycled). -/
def motifDiminishAux : List Note → ℚ → List Note
  | [], _ => []
  | note :: rest, currentTime =>
    let newDuration := note.duration * 0.75
    { note with time := currentTime, duration := newDuration } ::
      motifDiminishAux rest (currentTime + newDuration / 0.85 * 0.85)

/-- MotifGenerator.diminish. -/
def motifDiminish (cfg : GeneratorConfig) (motif : List Note) (startBeat : ℚ) : List Note :=
  motifDiminishAux motif (beatsToSeconds startBeat cfg.tempo)

/-- MotifGenerator.applyTechnique. -/
def applyTechnique (cfg : GeneratorConfig) (scaleNotes : List String) (motif : List Note)
    (technique : String) (startBeat : ℚ) : List Note :=
  if technique = "transpose-up" then motifTranspose cfg scaleNotes motif 2 startBeat
  else if technique = "transpose-down" then motifTranspose cfg scaleNotes motif (-2) startBeat
  else if technique = "invert" then motifInvert cfg scaleNotes motif startBeat
  else if technique = "retrograde" then motifRetrograde cfg motif startBeat
  else if technique = "augment" then motifAugment cfg motif startBeat
  else if technique = "diminish" then motifDiminish cfg motif startBeat
  else motifTranspose cfg scaleNotes motif 0 startBeat

/-- The technique cycle of motifConfig. -/
def motifTechniques : List String :=
  ["transpose-up", "transpose-down", "invert", "retrograde"]

/-- The development while-loop of MotifGenerator.generate (fuel-indexed; it
consumes no randomness).  Each round appends one developed variation and
advances by the variation's beat length. -/
def motifLoop (cfg : GeneratorConfig) (scaleNotes : List String) (motif : List Note)
    (motifBeats totalBeats : ℚ) : Nat → ℚ → Nat → List Note
  | 0, _, _ => []
  | fuel + 1, currentBeat, techniqueIndex =>
    if currentBeat < totalBeats - motifBeats then
      let technique := motifTechniques.getD (techniqueIndex % motifTechniques.length) ""
      let variation := applyTechnique cfg scaleNotes motif technique currentBeat
      let variationBeats :=
        (variation.map (fun n => n.duration)).sum / beatsToSeconds 1 cfg.tempo
      variation ++ motifLoop cfg scaleNotes motif motifBeats totalBeats fuel
        (currentBeat + variationBeats) (techniqueIndex + 1)
    else []

/-- Fuel sufficient for motifLoop: every technique in the cycle preserves the
motif's durations, so each round advances by motifBeats. -/
def motifFuel (totalBeats motifBeats : ℚ) : Nat :=
  if motifBeats ≤ 0 then 1 else (Int.ceil (totalBeats / motifBeats)).toNat + 2

/-- MotifGenerator.generate (motifConfig = {motifLength: 4, techniques:
[transpose-up, transpose-down, invert, retrograde]}). -/
def motifGenerate (rng : Nat → ℚ) (cfg : GeneratorConfig) (k : Nat) : GeneratorResult × Nat :=
  let scaleNotes := scaleNotesOf cfg
  let totalBeats := cfg.lengthBars * 4
  let im := generateInitialMotif rng cfg scaleNotes k
  let motif := im.1
  let motifDuration := (motif.map (fun n => n.duration)).sum
  let motifBeats := motifDuration / beatsToSeconds 1 cfg.tempo
  let allNotes := motif ++ motifLoop cfg scaleNotes motif motifBeats totalBeats
    (motifFuel totalBeats motifBeats) motifBeats 0
  ({ notes := allNotes, algorithm := "motif" }, im.2)

/-! ## Sequence generator (generators/sequence.ts) -/

/-- An abstract pattern step (PatternInterval from sequence.ts). -/
structure PatternInterval where
  scaleDegreeOffset : Int
  durationBeats : ℚ
  velocity : ℚ
deriving Repr, DecidableEq

/-- The randomly chosen seqConfig fields of SequenceGenerator's constructor,
in draw order: patternLength (3-4), patternShape, sequenceDirection,
transpositionInterval; repetitions = floor(totalBeats / (patternLength*0.5)). -/
structure SeqChoice where
  patternLength : Nat
  patternShape : String
  sequenceDirection : String
  transpositionInterval : Int
  repetitions : Int
deriving Repr, DecidableEq

/-- SequenceGenerator's constructor draws. -/
def seqChoose (rng : Nat → ℚ) (cfg : GeneratorConfig) (k : Nat) : SeqChoice × Nat :=
  let patternLength := 3 + (Int.floor (rng k * 2)).toNat
  let patternShape :=
    randPick (["ascending", "descending", "turn", "mordent", "arch"] : List String) "" (rng (k + 1))
  let sequenceDirection :=
    randPick (["ascending", "descending", "arch"] : List String) "" (rng (k + 2))
  let transpositionInterval := randPick ([1, 2, 3] : List Int) 0 (rng (k + 3))
  let patternBeats := (patternLength : ℚ) * 0.5
  let repetitions := Int.floor (cfg.lengthBars * 4 / patternBeats)
  (⟨patternLength, patternShape, sequenceDirection, transpositionInterval, repetitions⟩, k + 4)

/-- JS `offsets[i] || 0` (undefined and 0 both collapse to 0). -/
def jsOffsetAt (l : List Int) (i : Nat) : Int :=
  l.getD i 0

/-- JS Math.max over a non-empty int list. -/
def listMaxI : List Int → Int
  | [] => 0
  | h :: t => t.foldl max h

/-- SequenceGenerator.generatePattern (pure given the constructor's choices);
includes the swing post-processing of the durations. -/
def seqGeneratePattern (cfg : GeneratorConfig) (c : SeqChoice) : List PatternInterval :=
  let baseDuration : ℚ := if cfg.rhythmFeel = "swing" then 0.5 else 0.5
  let length := c.patternLength
  let base : List PatternInterval :=
    if c.patternShape = "ascending" then
      (List.range length).map (fun i =>
        ⟨(i : Int), baseDuration, 0.7 + (if i = 0 then 0.1 else 0)⟩)
    else if c.patternShape = "descending" then
      (List.range length).map (fun i =>
        ⟨-(i : Int), baseDuration, 0.7 + (if i = 0 then 0.1 else 0)⟩)
    else if c.patternShape = "turn" then
      let turnOffsets : List Int := if length = 3 then [0, 1, -1] else [0, 1, -1, 0]
      (List.range length).map (fun i =>
        ⟨jsOffsetAt turnOffsets i, baseDuration, 0.7 + (if i = 0 then 0.1 else 0)⟩)
    else if c.patternShape = "mordent" then
      let mordentOffsets : List Int := if length = 3 then [0, 1, 0] else [0, 1, 0, -1]
      (List.range length).map (fun i =>
        ⟨jsOffsetAt mordentOffsets i,
         if i = 0 then baseDuration * 1.5 else baseDuration * 0.75,
         0.7 + (if i = 0 then 0.1 else -0.1)⟩)
    else if c.patternShape = "arch" then
      let archOffsets : List Int := if length = 3 then [0, 1, 0] else [0, 1, 2, 1]
      (List.range length).map (fun i =>
        ⟨jsOffsetAt archOffsets i, baseDuration,
         0.7 + (if archOffsets.getD i 99 = listMaxI archOffsets then 0.1 else 0)⟩)
    else []
  if cfg.rhythmFeel = "swing" then
    base.enum.map (fun p =>
      if p.1 % 2 = 0 then { p.2 with durationBeats := p.2.durationBeats * 1.33 }
      else { p.2 with durationBeats := p.2.durationBeats * 0.67 })
  else base

/-- SequenceGenerator.calculateTransposition (the direction argument is unused
in the source as well). -/
def seqCalcTransposition (c : SeqChoice) (rep : Nat) (_direction : Int) (archPeak : Int) : Int :=
  let interval := c.transpositionInterval
  if c.sequenceDirection = "ascending" then (rep : Int) * interval
  else if c.sequenceDirection = "descending" then -(rep : Int) * interval
  else if c.sequenceDirection = "arch" then
    if (rep : Int) ≤ archPeak then (rep : Int) * interval
    else archPeak * interval - ((rep : Int) - archPeak) * interval
  else (rep : Int) * interval

/-- SequenceGenerator.instantiatePattern.  The two JS while-loops wrapping the
index modulo the scale length are Int.emod for a non-empty scale (they would
not terminate on an empty one); the subsequent clamp is kept from the source. -/
def instantiatePattern (rng : Nat → ℚ) (cfg : GeneratorConfig) (scaleNotes : List String)
    (startScaleIndex : Int) : List PatternInterval → ℚ → Nat → List Note × Nat
  | [], _, k => ([], k)
  | p :: rest, currentBeat, k =>
    let scaleIndex := startScaleIndex + p.scaleDegreeOffset
    let wrapped :=
      if scaleNotes.length = 0 then scaleIndex
      else Int.emod scaleIndex (scaleNotes.length : Int)
    let scaleIndex2 := max 0 (min ((scaleNotes.length : Int) - 1) wrapped)
    let pitch := scaleNotes.getD scaleIndex2.toNat ""
    let note := createNote cfg pitch currentBeat (p.durationBeats * 0.9) 0.7
    let note := { note with velocity := p.velocity }
    let note := applyVelocity cfg note currentBeat (rng k)
    let rest1 := instantiatePattern rng cfg scaleNotes startScaleIndex rest
      (currentBeat + p.durationBeats) (k + 1)
    (note :: rest1.1, rest1.2)

/-- The repetition loop of SequenceGenerator.generate. -/
def seqRepsLoop (rng : Nat → ℚ) (cfg : GeneratorConfig) (scaleNotes : List String)
    (pattern : List PatternInterval) (c : SeqChoice) (patternDuration : ℚ)
    (startIndex : Int) (archPeak : Int) (repetitions : Nat) :
    Nat → Nat → ℚ → Int → Nat → List Note × Nat
  | 0, _, _, _, k => ([], k)
  | remaining + 1, rep, currentBeat, currentDirection, k =>
    let transposition := seqCalcTransposition c rep currentDirection archPeak
    let rn := instantiatePattern rng cfg scaleNotes (startIndex + transposition) pattern
      currentBeat k
    let currentDirection1 :=
      if c.sequenceDirection = "arch" ∧ (rep : Int) = archPeak then -1 else currentDirection
    let rest := seqRepsLoop rng cfg scaleNotes pattern c patternDuration startIndex archPeak
      repetitions remaining (rep + 1) (currentBeat + patternDuration) currentDirection1 rn.2
    (rn.1 ++ rest.1, rest.2)

/-- SequenceGenerator.generate. -/
def sequenceGenerate (rng : Nat → ℚ) (cfg : GeneratorConfig) (k : Nat) :
    GeneratorResult × Nat :=
  let scaleNotes := scaleNotesOf cfg
  let totalBeats := cfg.lengthBars * 4
  let sc := seqChoose rng cfg k
  let c := sc.1
  let pattern := seqGeneratePattern cfg c
  let patternDuration := (pattern.map (fun p => p.durationBeats)).sum
  let maxReps := Int.floor (totalBeats / patternDuration)
  let repetitions := (min c.repetitions maxReps).toNat
  let startIndex := ((scaleNotes.length / 3 : Nat) : Int)
  let currentDirection : Int := if c.sequenceDirection = "descending" then -1 else 1
  let archPeak := ((repetitions / 2 : Nat) : Int)
  let body := seqRepsLoop rng cfg scaleNotes pattern c patternDuration startIndex archPeak
    repetitions repetitions 0 0 currentDirection sc.2
  ({ notes := body.1, algorithm := "sequence" }, body.2)

/-! ## Bebop generator (generators/bebop.ts) -/

/-- The chord-tone extraction of BebopGenerator's constructor, generalized over
the scale table: filter the scale notes through isChordTone; when that yields
nothing, fall back to the notes at scale indices 0, min(2,len-1), min(4,len-1)
(degrees 1/3/5), with JS `.filter(Boolean)` dropping absent entries. -/
def bebopChordTonesIn (defs : List (String × ScaleDefinition)) (scaleNotes : List String)
    (key scale : String) : List String :=
  let chordTones := scaleNotes.filter (fun note => isChordToneIn defs note key scale)
  if chordTones.length = 0 then
    ([scaleNotes.get? 0, scaleNotes.get? (min 2 (scaleNotes.length - 1)),
      scaleNotes.get? (min 4 (scaleNotes.length - 1))]).filterMap id
  else chordTones

/-- BebopGenerator's constructor chord tones (on the engine's table). -/
def bebopChordTones (scaleNotes : List String) (key scale : String) : List String :=
  bebopChordTonesIn SCALE_DEFINITIONS scaleNotes key scale

/-- BebopGenerator.getNextTarget: chord tones within a m2..P5 of the previous
target, preferring (p = 0.7) stepwise candidates within 3 semitones. -/
def getNextTarget (rng : Nat → ℚ) (chordTones : List String) (prevPitch : String) (k : Nat) :
    String × Nat :=
  let prevMidi := noteToMidi prevPitch
  let candidates := chordTones.filter (fun ct =>
    let interval := (noteToMidi ct - prevMidi).natAbs
    1 ≤ interval ∧ interval ≤ 7)
  if candidates.length = 0 then
    (randPick chordTones "" (rng k), k + 1)
  else
    let stepwise := candidates.filter (fun ct => (noteToMidi ct - prevMidi).natAbs ≤ 3)
    if stepwise.length > 0 then
      if rng k < 0.7 then (randPick stepwise "" (rng (k + 1)), k + 2)
      else (randPick candidates "" (rng (k + 1)), k + 2)
    else (randPick candidates "" (rng k), k + 1)

/-- The strong-beat loop of BebopGenerator.planTargets (`for (beat = 0;
beat < totalBeats; beat += 2)`), fuel-indexed; the first target takes the
middle chord tone, later ones voice-lead from the previous. -/
def planTargetsFrom (rng : Nat → ℚ) (chordTones : List String) (totalBeats : ℚ) :
    Nat → ℚ → Option String → Nat → List (ℚ × String) × Nat
  | 0, _, _, k => ([], k)
  | fuel + 1, beat, prev, k =>
    if beat < totalBeats then
      let pk : String × Nat :=
        match prev with
        | none => (chordTones.getD (chordTones.length / 2) "", k)
        | some prevPitch => getNextTarget rng chordTones prevPitch k
      let rest := planTargetsFrom rng chordTones totalBeats fuel (beat + 2) (some pk.1) pk.2
      ((beat, pk.1) :: rest.1, rest.2)
    else ([], k)

/-- Fuel sufficient for planTargetsFrom from beat 0. -/
def planTargetsFuel (totalBeats : ℚ) : Nat :=
  (Int.ceil (totalBeats / 2)).toNat + 1

/-- BebopGenerator.planTargets. -/
def planTargets (rng : Nat → ℚ) (chordTones : List String) (totalBeats : ℚ) (k : Nat) :
    List (ℚ × String) × Nat :=
  planTargetsFrom rng chordTones totalBeats (planTargetsFuel totalBeats) 0 none k

/-- BebopGenerator.getScaleToneAbove: the note after the first scale note at or
above midi, if it is strictly above; otherwise a whole step above. -/
def getScaleToneAbove (scaleNotes : List String) (midi : Int) : String :=
  match scaleNotes.findIdx? (fun n => noteToMidi n ≥ midi) with
  | some index =>
    if index < scaleNotes.length - 1 then
      let nextNote := scaleNotes.getD (index + 1) ""
      if noteToMidi nextNote > midi then nextNote
      else midiToNote (midi + 2)
    else midiToNote (midi + 2)
  | none => midiToNote (midi + 2)

/-- BebopGenerator.getScaleToneBelow: the note before the first scale note at
or above midi; otherwise a whole step below. -/
def getScaleToneBelow (scaleNotes : List String) (midi : Int) : String :=
  match scaleNotes.findIdx? (fun n => noteToMidi n ≥ midi) with
  | some index =>
    if 0 < index then scaleNotes.getD (index - 1) ""
    else midiToNote (midi - 2)
  | none => midiToNote (midi - 2)

/-- BebopGenerator.selectApproachType (bebopConfig.enclosureFrequency = 0.4),
with the JS short-circuit draw pattern preserved. -/
def selectApproachType (rng : Nat → ℚ) (availableBeats : ℚ) (k : Nat) : String × Nat :=
  if availableBeats < 0.5 then ("direct", k)
  else
    let step1 : Option String × Nat :=
      if availableBeats ≥ 1.5 then
        if rng k < 0.4 then
          (some (if rng (k + 1) < 0.5 then "enclosure-above-first" else "enclosure-below-first"),
           k + 2)
        else (none, k + 1)
      else (none, k)
    match step1.1 with
    | some t => (t, step1.2)
    | none =>
      let step2 : Option String × Nat :=
        if availableBeats ≥ 1 then
          if rng step1.2 < 0.3 then (some "double-chromatic", step1.2 + 1)
          else (none, step1.2 + 1)
        else (none, step1.2)
      match step2.1 with
      | some t => (t, step2.2)
      | none =>
        (if rng step2.2 < 0.5 then "chromatic-above" else "chromatic-below", step2.2 + 1)

/-- BebopGenerator.getApproachPitches. -/
def getApproachPitches (rng : Nat → ℚ) (scaleNotes : List String) (targetMidi : Int)
    (approachType : String) (k : Nat) : List String × Nat :=
  if approachType = "chromatic-above" then ([midiToNote (targetMidi + 1)], k)
  else if approachType = "chromatic-below" then ([midiToNote (targetMidi - 1)], k)
  else if approachType = "enclosure-above-first" then
    ([getScaleToneAbove scaleNotes targetMidi, midiToNote (targetMidi - 1)], k)
  else if approachType = "enclosure-below-first" then
    ([getScaleToneBelow scaleNotes targetMidi, midiToNote (targetMidi + 1)], k)
  else if approachType = "double-chromatic" then
    ([midiToNote (targetMidi + 2), midiToNote (targetMidi + 1)], k)
  else if approachType = "scale-step" then
    (if rng k < 0.5 then ([getScaleToneAbove scaleNotes targetMidi], k + 1)
     else ([getScaleToneBelow scaleNotes targetMidi], k + 1))
  else ([], k)

/-- The note loop of BebopGenerator.generateApproach (no randomness inside:
swing long-short shaping by index, crescendo velocity 0.6 + (i/len)*0.2). -/
def approachLoop (cfg : GeneratorConfig) (noteDuration : ℚ) (useSwing : Bool) (len : Nat) :
    List String → Nat → ℚ → List Note
  | [], _, _ => []
  | pitch :: pitches, i, currentBeat =>
    let duration :=
      if useSwing ∧ i % 2 = 0 ∧ i < len - 1 then noteDuration * 1.3
      else if useSwing ∧ i % 2 = 1 then noteDuration * 0.7
      else noteDuration
    let note := createNote cfg pitch currentBeat (duration * 0.9) 0.7
    let note := { note with velocity := 0.6 + ((i : ℚ) / (len : ℚ)) * 0.2 }
    note :: approachLoop cfg noteDuration useSwing len pitches (i + 1) (currentBeat + duration)

/-- BebopGenerator.generateApproach (bebopConfig.approachFrequency = 0.7):
skip entirely with probability 0.3, else pick an approach type, time its
pitches to land exactly on the target beat, and emit them. -/
def generateApproach (rng : Nat → ℚ) (cfg : GeneratorConfig) (scaleNotes : List String)
    (targetPitch : String) (startBeat availableBeats : ℚ) (k : Nat) : List Note × Nat :=
  let targetMidi := noteToMidi targetPitch
  if rng k > 0.7 then ([], k + 1)
  else
    let st := selectApproachType rng availableBeats (k + 1)
    let ap := getApproachPitches rng scaleNotes targetMidi st.1 st.2
    if ap.1.length = 0 then ([], ap.2)
    else
      let noteDuration := min 0.5 (availableBeats / (ap.1.length : ℚ))
      let startAt := startBeat + (availableBeats - noteDuration * (ap.1.length : ℚ))
      (approachLoop cfg noteDuration (cfg.rhythmFeel = "swing") ap.1.length ap.1 0 startAt, ap.2)

/-- The eighth-note loop of BebopGenerator.generateBebopLine.  Each step draws
for a chromatic passing tone (p = 0.15) else takes a scale step in the overall
direction, always draws the direction-change check (p = 0.2, only applied away
from the ends), swings durations by index parity, and breaks once the cursor
reaches availableBeats - 0.1. -/
def bebopLineLoop (rng : Nat → ℚ) (cfg : GeneratorConfig) (scaleNotes : List String)
    (noteCount : Nat) (startBeat availableBeats : ℚ) (overallDirection : Int) :
    Nat → Nat → ℚ → Int → Nat → List Note × Nat
  | 0, _, _, _, k => ([], k)
  | remaining + 1, i, currentBeat, currentMidi, k =>
    let nm1 : Int × Nat :=
      if rng k < 0.15 then (currentMidi + overallDirection, k + 1)
      else if overallDirection > 0 then
        (noteToMidi (getScaleToneAbove scaleNotes currentMidi), k + 1)
      else (noteToMidi (getScaleToneBelow scaleNotes currentMidi), k + 1)
    let nm2 : Int × Nat :=
      if rng nm1.2 < 0.2 ∧ 0 < i ∧ i < noteCount - 1 then
        (currentMidi + -overallDirection * (if rng (nm1.2 + 1) < 0.5 then 1 else 2), nm1.2 + 2)
      else (nm1.1, nm1.2 + 1)
    let duration :=
      if cfg.rhythmFeel = "swing" then (if i % 2 = 0 then 0.5 * 1.3 else 0.5 * 0.7)
      else (0.5 : ℚ)
    let note := createNote cfg (midiToNote nm2.1) currentBeat (duration * 0.85) 0.7
    let note := applyVelocity cfg note currentBeat (rng nm2.2)
    let currentBeat1 := currentBeat + duration
    if currentBeat1 ≥ startBeat + availableBeats - 0.1 then ([note], nm2.2 + 1)
    else
      let rest := bebopLineLoop rng cfg scaleNotes noteCount startBeat availableBeats
        overallDirection remaining (i + 1) currentBeat1 nm2.1 (nm2.2 + 1)
      (note :: rest.1, rest.2)

/-- BebopGenerator.generateBebopLine. -/
def generateBebopLine (rng : Nat → ℚ) (cfg : GeneratorConfig) (scaleNotes : List String)
    (startPitch : String) (startBeat availableBeats : ℚ) (nextTargetPitch : Option String)
    (k : Nat) : List Note × Nat :=
  if availableBeats < 0.25 then ([], k)
  else
    let noteCount := (Int.floor (availableBeats / 0.5)).toNat
    if noteCount = 0 then ([], k)
    else
      let currentMidi := noteToMidi startPitch
      let targetMidi :=
        match nextTargetPitch with
        | some p => noteToMidi p
        | none => currentMidi
      let od : Int × Nat :=
        if targetMidi > currentMidi then (1, k)
        else if targetMidi < currentMidi then (-1, k)
        else (if rng k < 0.5 then 1 else -1, k + 1)
      bebopLineLoop rng cfg scaleNotes noteCount startBeat availableBeats od.1
        noteCount 0 startBeat currentMidi od.2

/-- The per-target loop of BebopGenerator.generate: optional approach into the
target (never before the first target), the accented target note itself, and a
bebop-line fill toward the next target (leaving 0.5 beats for its approach;
the cursor resumes from the end of the last fill note). -/
def bebopMainLoop (rng : Nat → ℚ) (cfg : GeneratorConfig) (scaleNotes : List String)
    (totalBeats : ℚ) : List (ℚ × String) → Bool → ℚ → Nat → List Note × Nat
  | [], _, _, k => ([], k)
  | target :: restTargets, notFirst, currentBeat, k =>
    let beatsUntilTarget := target.1 - currentBeat
    let beatsAfterTarget :=
      match restTargets.head? with
      | some nt => nt.1 - target.1
      | none => totalBeats - target.1
    let ap : List Note × Nat :=
      if beatsUntilTarget > 0 ∧ notFirst then
        generateApproach rng cfg scaleNotes target.2 currentBeat beatsUntilTarget k
      else ([], k)
    let targetDuration := min (if beatsAfterTarget > 1 then 1 else beatsAfterTarget * 0.8) 0.5
    let targetNote := createNote cfg target.2 target.1 targetDuration 0.85
    let targetNote := applyVelocity cfg targetNote target.1 (rng ap.2)
    let currentBeat1 := target.1 + targetDuration
    let fillBeats :=
      match restTargets.head? with
      | some nt => nt.1 - currentBeat1 - 0.5
      | none => totalBeats - currentBeat1
    let fl : List Note × ℚ × Nat :=
      if fillBeats > 0.25 then
        let fn := generateBebopLine rng cfg scaleNotes target.2 currentBeat1 fillBeats
          ((restTargets.head?).map (fun nt => nt.2)) (ap.2 + 1)
        match fn.1.getLast? with
        | some lastFill =>
          (fn.1,
           lastFill.time / beatsToSeconds 1 cfg.tempo +
             lastFill.duration / beatsToSeconds 1 cfg.tempo,
           fn.2)
        | none => (fn.1, currentBeat1, fn.2)
      else ([], currentBeat1, ap.2 + 1)
    let rest := bebopMainLoop rng cfg scaleNotes totalBeats restTargets true fl.2.1 fl.2.2
    (ap.1 ++ targetNote :: (fl.1 ++ rest.1), rest.2)

/-- BebopGenerator.generate (bebopConfig = {approachFrequency: 0.7,
enclosureFrequency: 0.4}). -/
def bebopGenerate (rng : Nat → ℚ) (cfg : GeneratorConfig) (k : Nat) : GeneratorResult × Nat :=
  let scaleNotes := scaleNotesOf cfg
  let chordTones := bebopChordTones scaleNotes cfg.key cfg.scale
  let totalBeats := cfg.lengthBars * 4
  let tg := planTargets rng chordTones totalBeats k
  let body := bebopMainLoop rng cfg scaleNotes totalBeats tg.1 false 0 tg.2
  ({ notes := body.1, algorithm := "bebop" }, body.2)

/-! ## Call-response generator (generators/call-response.ts) -/

/-- A placeholder for a JS undefined note (reached only on inputs the engine
never produces, e.g. cycling the pitches of an empty call). -/
def phantomNote : Note :=
  { pitch := "", midi := noteToMidi "", time := 0, duration := 0, velocity := 0 }

/-- CallResponseGenerator.findRootNote: the root-named scale note in octave 4,
else octave 3, else the middle root candidate, else the middle scale note. -/
def findRootNote (scaleNotes : List String) (key : String) : String :=
  let candidates := scaleNotes.filter (fun n => n.startsWith key)
  match candidates.find? (fun n => n.contains '4') with
  | some n => n
  | none =>
    match candidates.find? (fun n => n.contains '3') with
    | some n => n
    | none =>
      match candidates.get? (candidates.length / 2) with
      | some n => n
      | none => scaleNotes.getD (scaleNotes.length / 2) ""

/-- CallResponseGenerator.getPatternForFeel. -/
def crPatternForFeel (rng : Nat → ℚ) (cfg : GeneratorConfig) (k : Nat) : String × Nat :=
  if cfg.rhythmFeel = "swing" then ("swing-eighths", k)
  else if cfg.rhythmFeel = "syncopated" then
    (if rng k < 0.5 then "syncopated-1" else "syncopated-2", k + 1)
  else (if rng k < 0.5 then "straight-eighths" else "mixed-1", k + 1)

/-- CallResponseGenerator.getNextMelodicNote: mostly stepwise (p = 0.7), else
a leap of a third or fourth, clamped to the scale. -/
def getNextMelodicNote (rng : Nat → ℚ) (scaleNotes : List String) (currentIndex : Int)
    (k : Nat) : String × Nat :=
  if rng k < 0.7 then
    let direction : Int := if rng (k + 1) < 0.5 then 1 else -1
    let newIndex := max 0 (min ((scaleNotes.length : Int) - 1) (currentIndex + direction))
    (scaleNotes.getD newIndex.toNat "", k + 2)
  else
    let leap : Int := if rng (k + 1) < 0.5 then 2 else 3
    let direction : Int := if rng (k + 2) < 0.5 then 1 else -1
    let newIndex := max 0 (min ((scaleNotes.length : Int) - 1) (currentIndex + direction * leap))
    (scaleNotes.getD newIndex.toNat "", k + 3)

/-- CallResponseGenerator.getNonTonicNote: non-root notes within distance 5 of
the current position, preferring fixed offsets (+2/+5/+7 minus 3), else a
random one; if none exist, the note one below the current position. -/
def getNonTonicNote (rng : Nat → ℚ) (cfg : GeneratorConfig) (scaleNotes : List String)
    (nearIndex : Int) (k : Nat) : String × Nat :=
  let nonRootNotes := (scaleNotes.enum.filter (fun p =>
    ¬ p.2.startsWith cfg.key ∧ ((p.1 : Int) - nearIndex).natAbs < 5)).map (fun p => p.2)
  if nonRootNotes.length > 0 then
    let tryDeg := fun (degree : Int) =>
      let idx := nearIndex + degree - 3
      if 0 ≤ idx ∧ idx < (scaleNotes.length : Int) then
        let note := scaleNotes.getD idx.toNat ""
        if nonRootNotes.contains note then some note else none
      else none
    match tryDeg 2 with
    | some n => (n, k)
    | none =>
      match tryDeg 5 with
      | some n => (n, k)
      | none =>
        match tryDeg 7 with
        | some n => (n, k)
        | none => (randPick nonRootNotes "" (rng k), k + 1)
  else (scaleNotes.getD (max 0 (nearIndex - 1)).toNat "", k)

/-- The note loop of CallResponseGenerator.generateCall: melodic motion, a
question ending on the last note, velocities boosted by 1.1 (capped at 1). -/
def generateCallLoop (rng : Nat → ℚ) (cfg : GeneratorConfig) (scaleNotes : List String)
    (startBeat : ℚ) (len : Nat) : List ℚ → Nat → ℚ → Int → Nat → List Note × Nat
  | [], _, _, _, k => ([], k)
  | duration :: durations, i, currentBeat, prevIndex, k =>
    let isLast := i = len - 1
    let pr : String × Nat :=
      if isLast then getNonTonicNote rng cfg scaleNotes prevIndex k
      else getNextMelodicNote rng scaleNotes prevIndex k
    let pitchIndex := findNoteIndex scaleNotes pr.1
    let prevIndex1 := if pitchIndex ≥ 0 then pitchIndex else prevIndex
    let note := createNote cfg pr.1 currentBeat (duration * 0.9) 0.7
    let note := applyVelocity cfg note (currentBeat - startBeat) (rng pr.2)
    let note := { note with velocity := min 1 (note.velocity * 1.1) }
    let rest := generateCallLoop rng cfg scaleNotes startBeat len durations (i + 1)
      (currentBeat + duration) prevIndex1 (pr.2 + 1)
    (note :: rest.1, rest.2)

/-- CallResponseGenerator.generateCall. -/
def generateCall (rng : Nat → ℚ) (cfg : GeneratorConfig) (scaleNotes : List String)
    (startBeat lengthBeats : ℚ) (k : Nat) : List Note × Nat :=
  let pf := crPatternForFeel rng cfg k
  let dr := generateRhythmDurations rng lengthBeats (lookupPattern pf.1) 0.1 pf.2
  generateCallLoop rng cfg scaleNotes startBeat dr.1.length dr.1 0 startBeat
    ((scaleNotes.length / 2 : Nat) : Int) dr.2

/-- The note loop of CallResponseGenerator.generateEchoResponse: same pitches
shifted an octave (pulled back into midi 36..96), rhythm copied from the call,
velocity scaled by 0.9. -/
def echoLoop (cfg : GeneratorConfig) (octaveShift : Int) (spb : ℚ) :
    List Note → ℚ → List Note
  | [], _ => []
  | callNote :: rest, currentBeat =>
    let originalMidi := noteToMidi callNote.pitch
    let newMidi0 := originalMidi + octaveShift
    let newMidi1 := if newMidi0 < 36 then originalMidi + 12 else newMidi0
    let newMidi := if newMidi1 > 96 then originalMidi - 12 else newMidi1
    let durationBeats := callNote.duration / spb
    let note := createNote cfg (midiToNote newMidi) currentBeat (durationBeats * 0.9) 0.7
    let note := { note with velocity := callNote.velocity * 0.9 }
    note :: echoLoop cfg octaveShift spb rest (currentBeat + durationBeats)

/-- CallResponseGenerator.generateEchoResponse. -/
def generateEchoResponse (rng : Nat → ℚ) (cfg : GeneratorConfig) (callNotes : List Note)
    (startBeat : ℚ) (k : Nat) : List Note × Nat :=
  let octaveShift : Int := if rng k < 0.5 then 12 else -12
  (echoLoop cfg octaveShift (beatsToSeconds 1 cfg.tempo) callNotes startBeat, k + 1)

/-- CallResponseGenerator.moveTowardTonic. -/
def moveTowardTonic (rng : Nat → ℚ) (scaleNotes : List String) (rootNote : String)
    (currentIndex stepsRemaining : Int) (k : Nat) : String × Nat :=
  let rootIndex := findNoteIndex scaleNotes rootNote
  if rootIndex < 0 ∨ stepsRemaining ≤ 1 then getNextMelodicNote rng scaleNotes currentIndex k
  else
    let direction : Int := if rootIndex > currentIndex then 1 else -1
    let step : Int := if rng k < 0.6 then 1 else 2
    let newIndex := max 0 (min ((scaleNotes.length : Int) - 1) (currentIndex + direction * step))
    (scaleNotes.getD newIndex.toNat "", k + 1)

/-- The note loop of CallResponseGenerator.generateAnswerResponse (`for` with
the compound bound i < len && currentBeat < startBeat + lengthBeats). -/
def answerLoop (rng : Nat → ℚ) (cfg : GeneratorConfig) (scaleNotes : List String)
    (rootNote : String) (startBeat lengthBeats : ℚ) (len : Nat) :
    List ℚ → Nat → ℚ → Int → Nat → List Note × Nat
  | [], _, _, _, k => ([], k)
  | duration :: durations, i, currentBeat, currentIndex, k =>
    if currentBeat < startBeat + lengthBeats then
      let isLast := i = len - 1
      let pr : String × Nat :=
        if isLast then (rootNote, k)
        else moveTowardTonic rng scaleNotes rootNote currentIndex ((len : Int) - i - 1) k
      let currentIndex1 :=
        if isLast then currentIndex
        else
          let newIndex := findNoteIndex scaleNotes pr.1
          if newIndex ≥ 0 then newIndex else currentIndex
      let note := createNote cfg pr.1 currentBeat (duration * 0.9) 0.7
      let note := applyVelocity cfg note (currentBeat - startBeat) (rng pr.2)
      let note := if isLast then { note with velocity := min 1 (note.velocity * 1.2) } else note
      let rest := answerLoop rng cfg scaleNotes rootNote startBeat lengthBeats len durations
        (i + 1) (currentBeat + duration) currentIndex1 (pr.2 + 1)
      (note :: rest.1, rest.2)
    else ([], k)

/-- CallResponseGenerator.generateAnswerResponse. -/
def generateAnswerResponse (rng : Nat → ℚ) (cfg : GeneratorConfig) (scaleNotes : List String)
    (rootNote : String) (callNotes : List Note) (startBeat lengthBeats : ℚ) (k : Nat) :
    List Note × Nat :=
  let spb := beatsToSeconds 1 cfg.tempo
  let durations := callNotes.map (fun n => n.duration / spb)
  let callEndMidi := noteToMidi (((callNotes.getLast?).map (fun n => n.pitch)).getD "")
  let currentIndex : Int :=
    match scaleNotes.findIdx? (fun n =>
      (noteToMidi n - callEndMidi).natAbs ≤ 2 ∧ noteToMidi n ≠ callEndMidi) with
    | some i => (i : Int)
    | none => ((scaleNotes.length / 2 : Nat) : Int)
  answerLoop rng cfg scaleNotes rootNote startBeat lengthBeats durations.length durations 0
    startBeat currentIndex k

/-- The note loop of CallResponseGenerator.generateMirrorResponse. -/
def mirrorLoop (cfg : GeneratorConfig) (scaleNotes : List String) (pivotMidi : Int) (spb : ℚ) :
    List Note → ℚ → List Note
  | [], _ => []
  | callNote :: rest, currentBeat =>
    let originalMidi := noteToMidi callNote.pitch
    let mirroredMidi := pivotMidi - (originalMidi - pivotMidi)
    let pitch := findClosestScaleNote scaleNotes mirroredMidi
    let durationBeats := callNote.duration / spb
    let note := createNote cfg pitch currentBeat (durationBeats * 0.9) 0.7
    let note := { note with velocity := callNote.velocity }
    note :: mirrorLoop cfg scaleNotes pivotMidi spb rest (currentBeat + durationBeats)

/-- CallResponseGenerator.generateMirrorResponse (no randomness). -/
def generateMirrorResponse (cfg : GeneratorConfig) (scaleNotes : List String)
    (callNotes : List Note) (startBeat : ℚ) : List Note :=
  match callNotes with
  | [] => []
  | c0 :: _ =>
    mirrorLoop cfg scaleNotes (noteToMidi c0.pitch) (beatsToSeconds 1 cfg.tempo)
      callNotes startBeat

/-- CallResponseGenerator.getAlternatePattern. -/
def getAlternatePattern (rng : Nat → ℚ) (k : Nat) : String × Nat :=
  (randPick (["straight-quarters", "syncopated-1", "mixed-1"] : List String) "" (rng k), k + 1)

/-- The note loop of CallResponseGenerator.generateRhythmicResponse, cycling
the call's pitches over the new rhythm. -/
def rhythmicLoop (rng : Nat → ℚ) (cfg : GeneratorConfig) (callNotes : List Note)
    (startBeat : ℚ) : List ℚ → Nat → ℚ → Nat → List Note × Nat
  | [], _, _, k => ([], k)
  | duration :: durations, pitchIndex, currentBeat, k =>
    let callNote := callNotes.getD (pitchIndex % callNotes.length) phantomNote
    let note := createNote cfg callNote.pitch currentBeat (duration * 0.9) 0.7
    let note := applyVelocity cfg note (currentBeat - startBeat) (rng k)
    let rest := rhythmicLoop rng cfg callNotes startBeat durations (pitchIndex + 1)
      (currentBeat + duration) (k + 1)
    (note :: rest.1, rest.2)

/-- CallResponseGenerator.generateRhythmicResponse. -/
def generateRhythmicResponse (rng : Nat → ℚ) (cfg : GeneratorConfig) (callNotes : List Note)
    (startBeat : ℚ) (k : Nat) : List Note × Nat :=
  let spb := beatsToSeconds 1 cfg.tempo
  let totalDuration := (callNotes.map (fun n => n.duration / spb)).sum
  let gp := getAlternatePattern rng k
  let dr := generateRhythmDurations rng totalDuration (lookupPattern gp.1) 0.2 gp.2
  rhythmicLoop rng cfg callNotes startBeat dr.1 0 startBeat dr.2

/-- CallResponseGenerator.generateResponse dispatch. -/
def generateResponse (rng : Nat → ℚ) (cfg : GeneratorConfig) (scaleNotes : List String)
    (rootNote : String) (callNotes : List Note) (responseType : String)
    (startBeat lengthBeats : ℚ) (k : Nat) : List Note × Nat :=
  if responseType = "echo" then generateEchoResponse rng cfg callNotes startBeat k
  else if responseType = "answer" then
    generateAnswerResponse rng cfg scaleNotes rootNote callNotes startBeat lengthBeats k
  else if responseType = "mirror" then
    (generateMirrorResponse cfg scaleNotes callNotes startBeat, k)
  else if responseType = "rhythmic" then generateRhythmicResponse rng cfg callNotes startBeat k
  else generateAnswerResponse rng cfg scaleNotes rootNote callNotes startBeat lengthBeats k

/-- The while-loop of CallResponseGenerator.generate (fuel-indexed): call,
half-beat silence, a response of the cycling type when at least one beat
remains, half-beat silence.  crConfig = {callLengthBars: 1, silenceBeats: 0.5,
responseTypes: [echo, answer, mirror, rhythmic]}. -/
def crLoop (rng : Nat → ℚ) (cfg : GeneratorConfig) (scaleNotes : List String)
    (rootNote : String) (totalBeats callBeats : ℚ) : Nat → ℚ → Nat → Nat → List Note × Nat
  | 0, _, _, k => ([], k)
  | fuel + 1, currentBeat, responseTypeIndex, k =>
    if currentBeat < totalBeats - callBeats then
      let cn := generateCall rng cfg scaleNotes currentBeat callBeats k
      let currentBeat1 := currentBeat + callBeats + 0.5
      if currentBeat1 ≥ totalBeats - 1 then (cn.1, cn.2)
      else
        let responseType := (["echo", "answer", "mirror", "rhythmic"] : List String).getD
          (responseTypeIndex % 4) ""
        let remainingBeats := min callBeats (totalBeats - currentBeat1)
        let rn := generateResponse rng cfg scaleNotes rootNote cn.1 responseType currentBeat1
          remainingBeats cn.2
        let rest := crLoop rng cfg scaleNotes rootNote totalBeats callBeats fuel
          (currentBeat1 + remainingBeats + 0.5) (responseTypeIndex + 1) rn.2
        (cn.1 ++ rn.1 ++ rest.1, rest.2)
    else ([], k)

/-- Fuel sufficient for crLoop: each surviving round advances the cursor by
more than callBeats + silence = 4.5 beats. -/
def crFuel (totalBeats : ℚ) : Nat :=
  (Int.ceil (totalBeats / 4)).toNat + 2

/-- CallResponseGenerator.generate.  (The constructor also filters chord tones
into an unused field; nothing reads it, so it is not modelled.)  responseBeats
equals callBeats = 4 in the source. -/
def callResponseGenerate (rng : Nat → ℚ) (cfg : GeneratorConfig) (k : Nat) :
    GeneratorResult × Nat :=
  let scaleNotes := scaleNotesOf cfg
  let rootNote := findRootNote scaleNotes cfg.key
  let totalBeats := cfg.lengthBars * 4
  let callBeats : ℚ := 1 * 4
  let body := crLoop rng cfg scaleNotes rootNote totalBeats callBeats (crFuel totalBeats) 0 0 k
  ({ notes := body.1, algorithm := "call-response" }, body.2)

/-! ## Blues generator (generators/blues.ts) -/

/-- BLUES_SCALE_INTERVALS from blues.ts: minor pentatonic plus the blue note. -/
def BLUES_SCALE_INTERVALS : List Int := [0, 3, 5, 6, 7, 10]

/-- BLUE_NOTE_INTERVALS from blues.ts: b3, b5, b7. -/
def BLUE_NOTE_INTERVALS : List Int := [3, 6, 10]

/-- The randomly chosen bluesConfig fields of BluesGenerator's constructor.
bendFrequency is the constant 0.3; turnaround is lengthBars >= 4; the
shuffleFeel draw happens only when rhythmFeel is not swing (JS short-circuit
of `config.rhythmFeel === 'swing' || Math.random() < 0.5`). -/
structure BluesChoice where
  turnaround : Bool
  boxPosition : Nat
  shuffleFeel : Bool
deriving Repr, DecidableEq

/-- BluesGenerator's constructor draws. -/
def bluesChoose (rng : Nat → ℚ) (cfg : GeneratorConfig) (k : Nat) : BluesChoice × Nat :=
  let turnaround := cfg.lengthBars ≥ 4
  let boxPosition := (Int.floor (rng k * 3)).toNat
  if cfg.rhythmFeel = "swing" then (⟨turnaround, boxPosition, true⟩, k + 1)
  else (⟨turnaround, boxPosition, rng (k + 1) < 0.5⟩, k + 2)

/-- BluesGenerator.buildBluesScale: blues-scale notes across the octave range,
kept when 36 <= midi <= 96. -/
def buildBluesScale (cfg : GeneratorConfig) : List String :=
  (intRange cfg.octaveRange.1 cfg.octaveRange.2).flatMap (fun octave =>
    let rootMidi := getRootMidi cfg.key octave
    BLUES_SCALE_INTERVALS.filterMap (fun interval =>
      let midi := rootMidi + interval
      if 36 ≤ midi ∧ midi ≤ 96 then some (midiToNote midi) else none))

/-- BluesGenerator.buildBlueNoteSet (membership-only; a list models the Set). -/
def buildBlueNoteSet (cfg : GeneratorConfig) : List Int :=
  (intRange cfg.octaveRange.1 cfg.octaveRange.2).flatMap (fun octave =>
    BLUE_NOTE_INTERVALS.map (fun interval => getRootMidi cfg.key octave + interval))

/-- BluesGenerator.getBoxStartIndex (the boxOffsets entry is computed but never
used in the source; the default-index argument is likewise ignored). -/
def getBoxStartIndex (bluesNotes : List String) (box : Nat) (_defaultIndex : Int) : Int :=
  let targetIndex := Int.floor ((bluesNotes.length : ℚ) * (0.3 + (box : ℚ) * 0.2))
  max 0 (min ((bluesNotes.length : Int) - 1) targetIndex)

/-- JS `bluesNotes[i]` for a possibly negative Int index. -/
def bluesNoteAt (bluesNotes : List String) (i : Int) : String :=
  if 0 ≤ i then bluesNotes.getD i.toNat "" else ""

/-- BluesGenerator.getNextBluesNote: repeat (p = 0.2) or a step of 1-2 in a
random direction, clamped. -/
def getNextBluesNote (rng : Nat → ℚ) (bluesNotes : List String) (currentIndex : Int)
    (k : Nat) : String × Nat :=
  if rng k < 0.2 then (bluesNoteAt bluesNotes currentIndex, k + 1)
  else
    let step : Int := if rng (k + 1) < 0.7 then 1 else 2
    let direction : Int := if rng (k + 2) < 0.5 then 1 else -1
    let newIndex := max 0 (min ((bluesNotes.length : Int) - 1) (currentIndex + step * direction))
    (bluesNoteAt bluesNotes newIndex, k + 3)

/-- JS `note.replace(/\d+/, '')`: remove the first maximal digit run. -/
def removeFirstDigitRun : List Char → List Char
  | [] => []
  | c :: rest =>
    if c.isDigit then rest.dropWhile Char.isDigit
    else c :: removeFirstDigitRun rest

/-- JS `s.replace(t, sub)` for a single-character search string: replace the
first occurrence. -/
def replaceFirst (target : Char) (sub : List Char) : List Char → List Char
  | [] => []
  | c :: rest =>
    if c = target then sub ++ rest
    else c :: replaceFirst target sub rest

/-- The note-side normalization of BluesGenerator.getRootNote:
strip digits, '#' → "sharp", 'b' → "flat". -/
def bluesNameXform (s : String) : List Char :=
  replaceFirst 'b' ['f', 'l', 'a', 't']
    (replaceFirst '#' ['s', 'h', 'a', 'r', 'p'] (removeFirstDigitRun s.data))

/-- The key-side normalization of BluesGenerator.getRootNote. -/
def bluesKeyXform (s : String) : List Char :=
  replaceFirst 'b' ['f', 'l', 'a', 't'] (replaceFirst '#' ['s', 'h', 'a', 'r', 'p'] s.data)

/-- BluesGenerator.getRootNote: the root-named blues note closest (by index,
strict improvement, first wins) to the current position; bluesNotes[0] when
none matches. -/
def bluesGetRootNote (bluesNotes : List String) (key : String) (nearIndex : Int) : String :=
  let isRoot := fun (note : String) =>
    bluesNameXform note = bluesKeyXform key ∨ note.startsWith key
  let pick := bluesNotes.enum.foldl (fun acc p =>
    if isRoot p.2 then
      let dist := ((p.1 : Int) - nearIndex).natAbs
      match acc with
      | none => some (p.2, dist)
      | some q => if dist < q.2 then some (p.2, dist) else acc
    else acc) none
  match pick with
  | some q => q.1
  | none => bluesNotes.getD 0 ""

/-- BluesGenerator.getQuestionEndNote: the 5th then b7 of octave 4 when present
within index distance 5, else a random non-root note, else the current note. -/
def getQuestionEndNote (rng : Nat → ℚ) (cfg : GeneratorConfig) (bluesNotes : List String)
    (nearIndex : Int) (k : Nat) : String × Nat :=
  let rootMidi := getRootMidi cfg.key 4
  let tryInterval := fun (interval : Int) =>
    let targetPitch := midiToNote (rootMidi + interval)
    let idx := jsIndexOf bluesNotes targetPitch
    if idx ≥ 0 ∧ (idx - nearIndex).natAbs < 5 then some targetPitch else none
  match tryInterval 7 with
  | some p => (p, k)
  | none =>
    match tryInterval 10 with
    | some p => (p, k)
    | none =>
      let nonRoot := bluesNotes.filter (fun n => ¬ n.startsWith cfg.key)
      if nonRoot.length > 0 then
        (nonRoot.getD (Int.floor (rng k * (nonRoot.length : ℚ))).toNat "", k + 1)
      else (bluesNoteAt bluesNotes nearIndex, k)

/-- BluesGenerator.createBend: a 0.1-beat grace note a half step below
(velocity 0.6) into the target (velocity 0.85). -/
def createBend (cfg : GeneratorConfig) (targetPitch : String) (startBeat totalDuration : ℚ) :
    List Note :=
  let targetMidi := noteToMidi targetPitch
  let bendFromPitch := midiToNote (targetMidi - 1)
  let graceDuration : ℚ := 0.1
  let mainDuration := totalDuration - graceDuration
  let graceNote := createNote cfg bendFromPitch startBeat graceDuration 0.7
  let graceNote := { graceNote with velocity := 0.6 }
  let mainNote := createNote cfg targetPitch (startBeat + graceDuration) (mainDuration * 0.9) 0.7
  let mainNote := { mainNote with velocity := 0.85 }
  [graceNote, mainNote]

/-- BluesGenerator.applyBluesVelocity; r is the Math.random() draw. -/
def applyBluesVelocity (note : Note) (beatPosition : ℚ) (isBlueNote : Bool) (r : ℚ) : Note :=
  let v0 : ℚ := 0.7
  let v1 := if beatPosition.isInt then v0 + 0.15 else v0
  let v2 := if isBlueNote then v1 + 0.05 else v1
  let v3 := v2 + (r * 0.1 - 0.05)
  { note with velocity := min 1 (max 0.4 v3) }

/-- The note loop of BluesGenerator.generateBluesPhrase.  Per iteration: the
rest draw always happens; on the last note an answer phrase resolves to the
root and a question phrase to the 5th/b7; blue notes draw for a bend (only
blue notes consume that draw), which replaces the note by a grace + target
pair; otherwise blues velocity shaping draws once. -/
def bluesPhraseLoop (rng : Nat → ℚ) (cfg : GeneratorConfig) (bluesNotes : List String)
    (blueNoteSet : List Int) (startBeat : ℚ) (phraseType : String) (len : Nat) :
    List ℚ → Nat → ℚ → Int → Nat → List Note × Nat
  | [], _, _, _, k => ([], k)
  | duration :: durations, i, currentBeat, prevIndex, k =>
    let isLast := i = len - 1
    let beatInPhrase := currentBeat - startBeat
    if rng k < 0.1 ∧ 0 < i ∧ i < len - 1 then
      bluesPhraseLoop rng cfg bluesNotes blueNoteSet startBeat phraseType len durations
        (i + 1) (currentBeat + duration) prevIndex (k + 1)
    else
      let pr : String × Nat :=
        if isLast ∧ phraseType = "answer" then
          (bluesGetRootNote bluesNotes cfg.key prevIndex, k + 1)
        else if isLast ∧ phraseType = "question" then
          getQuestionEndNote rng cfg bluesNotes prevIndex (k + 1)
        else getNextBluesNote rng bluesNotes prevIndex (k + 1)
      let pitchIndex := jsIndexOf bluesNotes pr.1
      let prevIndex1 := if pitchIndex ≥ 0 then pitchIndex else prevIndex
      let isBlueNote := blueNoteSet.contains (noteToMidi pr.1)
      let bend : Bool × Nat :=
        if isBlueNote then (rng pr.2 < 0.3 ∧ duration ≥ 0.5, pr.2 + 1)
        else (false, pr.2)
      if bend.1 then
        let rest := bluesPhraseLoop rng cfg bluesNotes blueNoteSet startBeat phraseType len
          durations (i + 1) (currentBeat + duration) prevIndex1 bend.2
        (createBend cfg pr.1 currentBeat duration ++ rest.1, rest.2)
      else
        let note := createNote cfg pr.1 currentBeat (duration * 0.9) 0.7
        let note := applyBluesVelocity note beatInPhrase isBlueNote (rng bend.2)
        let rest := bluesPhraseLoop rng cfg bluesNotes blueNoteSet startBeat phraseType len
          durations (i + 1) (currentBeat + duration) prevIndex1 (bend.2 + 1)
        (note :: rest.1, rest.2)

/-- BluesGenerator.generateBluesPhrase. -/
def generateBluesPhrase (rng : Nat → ℚ) (cfg : GeneratorConfig) (choice : BluesChoice)
    (bluesNotes : List String) (blueNoteSet : List Int) (startBeat lengthBeats : ℚ)
    (phraseType : String) (k : Nat) : List Note × Nat :=
  let pattern :=
    if choice.shuffleFeel then lookupPattern "swing-eighths"
    else lookupPattern "straight-eighths"
  let dr := generateRhythmDurations rng lengthBeats pattern 0.15 k
  let prevIndex0 := ((bluesNotes.length / 2 : Nat) : Int)
  let prevIndex := getBoxStartIndex bluesNotes choice.boxPosition prevIndex0
  bluesPhraseLoop rng cfg bluesNotes blueNoteSet startBeat phraseType dr.1.length dr.1 0
    startBeat prevIndex dr.2

/-- The note loop of BluesGenerator.generateTurnaround. -/
def turnaroundLoop (cfg : GeneratorConfig) (shuffleFeel : Bool) (noteDuration : ℚ)
    (total : Nat) : List Int → Nat → ℚ → List Note
  | [], _, _ => []
  | midi :: midis, i, currentBeat =>
    let duration :=
      if shuffleFeel then (if i % 2 = 0 then noteDuration * 1.33 else noteDuration * 0.67)
      else noteDuration
    let note := createNote cfg (midiToNote midi) currentBeat (duration * 0.9) 0.7
    let note := { note with velocity := if i < total - 1 then 0.7 else 0.9 }
    note :: turnaroundLoop cfg shuffleFeel noteDuration total midis (i + 1)
      (currentBeat + duration)

/-- BluesGenerator.generateTurnaround: the descending 6 → b6 → 5 → root line
rooted in octave 4, spread evenly (shuffle-swung when enabled). -/
def generateTurnaround (cfg : GeneratorConfig) (choice : BluesChoice)
    (startBeat lengthBeats : ℚ) : List Note :=
  let rootMidi := getRootMidi cfg.key 4
  let turnaroundMidis : List Int := [rootMidi + 9, rootMidi + 8, rootMidi + 7, rootMidi]
  let noteDuration := lengthBeats / (turnaroundMidis.length : ℚ)
  turnaroundLoop cfg choice.shuffleFeel noteDuration turnaroundMidis.length turnaroundMidis 0
    startBeat

/-- The phrase while-loop of BluesGenerator.generate (fuel-indexed): the
turnaround replaces the rest of the phrase once at most 4 beats remain (when
enabled), else one-bar question/answer phrases alternate. -/
def bluesMainLoop (rng : Nat → ℚ) (cfg : GeneratorConfig) (choice : BluesChoice)
    (bluesNotes : List String) (blueNoteSet : List Int) (totalBeats : ℚ) :
    Nat → ℚ → String → Nat → List Note × Nat
  | 0, _, _, k => ([], k)
  | fuel + 1, currentBeat, phraseType, k =>
    if currentBeat < totalBeats then
      let remainingBeats := totalBeats - currentBeat
      if choice.turnaround ∧ remainingBeats ≤ 4 then
        (generateTurnaround cfg choice currentBeat remainingBeats, k)
      else
        let phraseLength := min 4 remainingBeats
        let pn := generateBluesPhrase rng cfg choice bluesNotes blueNoteSet currentBeat
          phraseLength phraseType k
        let rest := bluesMainLoop rng cfg choice bluesNotes blueNoteSet totalBeats fuel
          (currentBeat + phraseLength)
          (if phraseType = "question" then "answer" else "question") pn.2
        (pn.1 ++ rest.1, rest.2)
    else ([], k)

/-- Fuel sufficient for bluesMainLoop: each non-final round advances 4 beats. -/
def bluesFuel (totalBeats : ℚ) : Nat :=
  (Int.ceil (totalBeats / 4)).toNat + 2

/-- BluesGenerator.generate. -/
def bluesGenerate (rng : Nat → ℚ) (cfg : GeneratorConfig) (k : Nat) : GeneratorResult × Nat :=
  let bc := bluesChoose rng cfg k
  let bluesNotes := buildBluesScale cfg
  let blueNoteSet := buildBlueNoteSet cfg
  let totalBeats := cfg.lengthBars * 4
  let body := bluesMainLoop rng cfg bc.1 bluesNotes blueNoteSet totalBeats
    (bluesFuel totalBeats) 0 "question" bc.2
  ({ notes := body.1, algorithm := "blues" }, body.2)

/-! ## Assembly (generators/index.ts) -/

/-- createGenerator from generators/index.ts composed with the chosen
generator's generate(): dispatch on the algorithm tag, falling back to
ScaleRunGenerator for any unknown tag.  (At runtime the tag is a plain string;
the TS union type is erased.) -/
def createGenerator (algorithm : String) (cfg : GeneratorConfig) (rng : Nat → ℚ) (k : Nat) :
    GeneratorResult × Nat :=
  if algorithm = "scale-run" then scaleRunGenerate rng cfg k
  else if algorithm = "arpeggio" then arpeggioGenerate rng cfg k
  else if algorithm = "motif" then motifGenerate rng cfg k
  else if algorithm = "bebop" then bebopGenerate rng cfg k
  else if algorithm = "call-response" then callResponseGenerate rng cfg k
  else if algorithm = "sequence" then sequenceGenerate rng cfg k
  else if algorithm = "blues" then bluesGenerate rng cfg k
  else scaleRunGenerate rng cfg k

/-- generateLick from generators/index.ts: run the dispatched generator and
wrap its notes with the config metadata and the result's algorithm tag. -/
def generateLick (algorithm : String) (cfg : GeneratorConfig) (rng : Nat → ℚ) (k : Nat) :
    Sequence :=
  let result := (createGenerator algorithm cfg rng k).1
  { notes := result.notes
    key := cfg.key
    scale := cfg.scale
    tempo := cfg.tempo
    lengthBars := cfg.lengthBars
    algorithm := result.algorithm }

/-! ## Basic conversion lemmas -/

lemma tonalMidiTail_range (semi : Int) (rest : List Char) (m : Int)
    (h : tonalMidiTail semi rest = some m) : 0 ≤ m ∧ m ≤ 127 := by
  simp only [tonalMidiTail] at h
  split at h
  · simp at h
  · split at h
    · split at h
      · rename_i hcond
        obtain rfl : _ = m := Option.some.inj h
        exact hcond
      · simp at h
    · simp at h

lemma tonalMidiChars_range : ∀ (l : List Char) (m : Int),
    tonalMidiChars l = some m → 0 ≤ m ∧ m ≤ 127 := by
  intro l m h
  cases l with
  | nil => simp [tonalMidiChars] at h
  | cons c rest =>
    simp only [tonalMidiChars] at h
    rcases hl : letterSemis c with _ | semi <;> rw [hl] at h
    · simp at h
    · exact tonalMidiTail_range semi rest m h

lemma tonalMidi_range {s : String} {m : Int} (h : tonalMidi s = some m) :
    0 ≤ m ∧ m ≤ 127 :=
  tonalMidiChars_range s.data m h

/-- noteToMidi always lands in the MIDI range 0..127 (valid parses by
construction, the fallback is 60). -/
lemma noteToMidi_range (s : String) : 0 ≤ noteToMidi s ∧ noteToMidi s ≤ 127 := by
  unfold noteToMidi
  rcases h : tonalMidi s with _ | m
  · simp
  · simpa using tonalMidi_range h

lemma roundtrip_nat : ∀ m : Nat, m < 128 → noteToMidi (midiToNote (m : Int)) = (m : Int) := by
  decide

/-- Converting a MIDI number in range to its tonal name and back is the
identity. -/
lemma noteToMidi_midiToNote {m : Int} (h0 : 0 ≤ m) (h1 : m ≤ 127) :
    noteToMidi (midiToNote m) = m := by
  have h2 := roundtrip_nat m.toNat (by omega)
  rwa [Int.toNat_of_nonneg h0] at h2

/-- The semitone class of a key, recovered from the octave-0 root. -/
def keyBase (key : String) : Int :=
  noteToMidi (key ++ "0") - 12

lemma keyBase_range : ∀ key ∈ KEYS, 0 ≤ keyBase key ∧ keyBase key ≤ 11 := by decide

/-- On octaves -1..8 the template-string root of a valid key parses to
base + 12*(octave+1); octave 9 and above can overflow midi 127 and silently
fall back to 60. -/
lemma getRootMidi_valid : ∀ key ∈ KEYS, ∀ o : Int, -1 ≤ o → o ≤ 8 →
    getRootMidi key o = keyBase key + 12 * (o + 1) := by
  intro key hk o h1 h2
  fin_cases hk <;> interval_cases o <;> decide

/-! ## Claim C10 -/

/-- Claim C10: noteToMidi falls back to 60 (middle C) whenever tonal's parse
fails, so getRootMidi and getScaleNotes are total for arbitrary key strings;
the invalid key "H" yields the middle-C root at every octave, making its scale
table the C-rooted one.  (tonal's fromMidi returns a string for every integer,
so midiToNote's 'C4' fallback is unreachable.) -/
theorem claim_C10_total_conversion_fallback :
    (∀ s : String, tonalMidi s = none → noteToMidi s = 60) ∧
    (∀ o : Int, getRootMidi "H" o = 60) ∧
    getScaleNotes "H" "major" (4, 4) = getScaleNotes "C" "major" (4, 4) ∧
    noteToMidi "H" = 60 ∧ noteToMidi "" = 60 := by
  refine ⟨?_, ?_, by decide, by decide, by decide⟩
  · intro s h
    simp [noteToMidi, h]
  · intro o
    have hd : ("H" ++ toString o).data = 'H' :: (toString o).data := by
      have h1 : ("H" ++ toString o).data = ("H" : String).data ++ (toString o).data :=
        String.data_append _ _
      rw [show ("H" : String).data = ['H'] from rfl] at h1
      exact h1
    simp [getRootMidi, noteToMidi, tonalMidi, hd, tonalMidiChars, letterSemis]

/-! ## Claim C4 -/

/-- Claim C4 counterexample: at the valid key "C", the table scale "major" and
the octave range [9, 10] (with 9 ≤ 10), the MIDI numbers of getScaleNotes are
not strictly ascending: the octave-10 root overflows MIDI range, noteToMidi
falls back to middle C, and 60 follows 127 in the output. -/
theorem claim_C4_counterexample :
    "C" ∈ KEYS ∧ (9 : Int) ≤ 10 ∧
    ¬ List.Pairwise (· < ·) ((getScaleNotes "C" "major" (9, 10)).map noteToMidi) := by
  refine ⟨by decide, by decide, by decide⟩

lemma scaleDefs_intervals_facts :
    ∀ p ∈ SCALE_DEFINITIONS, List.Pairwise (· < ·) p.2.intervals ∧
      ∀ iv ∈ p.2.intervals, 0 ≤ iv ∧ iv ≤ 11 := by decide

lemma lookupScaleIn_mem {defs : List (String × ScaleDefinition)} {s : String}
    {d : ScaleDefinition} (h : lookupScaleIn defs s = some d) : (s, d) ∈ defs := by
  unfold lookupScaleIn at h
  rcases hf : defs.find? (fun p => p.1 = s) with _ | p <;> rw [hf] at h
  · simp at h
  · have hm := List.mem_of_find?_eq_some hf
    have hp := List.find?_some hf
    have h1 : p.1 = s := by simp at hp; exact hp
    have h2 : p.2 = d := by simp at h; exact h
    cases p
    simp only at h1 h2
    rw [← h1, ← h2]
    exact hm

lemma mem_intRange {lo hi o : Int} : o ∈ intRange lo hi ↔ lo ≤ o ∧ o ≤ hi := by
  simp only [intRange, List.mem_map, List.mem_range]
  constructor
  · rintro ⟨i, hi1, rfl⟩
    omega
  · rintro ⟨h1, h2⟩
    refine ⟨(o - lo).toNat, ?_, ?_⟩ <;> omega

lemma pairwise_intRange (lo hi : Int) : List.Pairwise (· < ·) (intRange lo hi) := by
  unfold intRange
  refine List.Pairwise.map (fun i : Nat => lo + (i : Int)) ?_ (List.pairwise_lt_range _)
  intro a b hab
  dsimp only
  omega

lemma filterMap_midi_roundtrip (l : List Int) (root : Int) :
    ((l.filterMap (fun iv =>
        if 0 ≤ root + iv ∧ root + iv ≤ 127 then some (midiToNote (root + iv))
        else none)).map noteToMidi)
    = l.filterMap (fun iv =>
        if 0 ≤ root + iv ∧ root + iv ≤ 127 then some (root + iv) else none) := by
  induction l with
  | nil => simp
  | cons a t ih =>
    by_cases hc : 0 ≤ root + a ∧ root + a ≤ 127
    · simp [hc, ih, noteToMidi_midiToNote hc.1 hc.2]
    · simp [hc, ih]

lemma block_eq_map_filter (l : List Int) (root : Int) :
    l.filterMap (fun iv => if 0 ≤ root + iv ∧ root + iv ≤ 127 then some (root + iv) else none)
    = (l.filter (fun iv => decide (0 ≤ root + iv ∧ root + iv ≤ 127))).map
        (fun iv => root + iv) := by
  induction l with
  | nil => simp
  | cons a t ih =>
    by_cases hc : 0 ≤ root + a ∧ root + a ≤ 127
    · simp [hc, ih]
    · simp [hc, ih]

lemma block_pairwise {l : List Int} (root : Int) (hp : List.Pairwise (· < ·) l) :
    List.Pairwise (· < ·)
      (l.filterMap (fun iv =>
        if 0 ≤ root + iv ∧ root + iv ≤ 127 then some (root + iv) else none)) := by
  rw [block_eq_map_filter]
  refine List.Pairwise.map _ ?_ (hp.sublist (List.filter_sublist _))
  intro a b hab
  omega

lemma block_values {l : List Int} {root x : Int}
    (hiv : ∀ iv ∈ l, 0 ≤ iv ∧ iv ≤ 11)
    (hx : x ∈ l.filterMap (fun iv =>
      if 0 ≤ root + iv ∧ root + iv ≤ 127 then some (root + iv) else none)) :
    root ≤ x ∧ x ≤ root + 11 := by
  rw [List.mem_filterMap] at hx
  obtain ⟨iv, hm, hf⟩ := hx
  have := hiv iv hm
  split at hf
  · obtain rfl : _ = x := Option.some.inj hf
    omega
  · simp at hf

lemma pairwise_flatMap_of_blocks (os : List Int) (B : Int → List Int)
    (hpb : ∀ o ∈ os, List.Pairwise (· < ·) (B o))
    (hsep : List.Pairwise (fun o o' => ∀ x ∈ B o, ∀ y ∈ B o', x < y) os) :
    List.Pairwise (· < ·) (os.flatMap B) := by
  induction os with
  | nil => simp
  | cons o os ih =>
    simp only [List.flatMap_cons]
    rw [List.pairwise_append]
    rw [List.pairwise_cons] at hsep
    refine ⟨hpb o (by simp), ih (fun o' h => hpb o' (by simp [h])) hsep.2, ?_⟩
    intro x hx y hy
    rw [List.mem_flatMap] at hy
    obtain ⟨o', ho', hyo⟩ := hy
    exact hsep.1 o' ho' x hx y hyo

lemma scaleNotes_map_midi {key scaleName : String} (lo hi : Int) {d : ScaleDefinition}
    (hd : lookupScaleIn SCALE_DEFINITIONS scaleName = some d) :
    (getScaleNotes key scaleName (lo, hi)).map noteToMidi
    = (intRange lo hi).flatMap (fun o =>
        d.intervals.filterMap (fun iv =>
          if 0 ≤ getRootMidi key o + iv ∧ getRootMidi key o + iv ≤ 127
          then some (getRootMidi key o + iv) else none)) := by
  unfold getScaleNotes getScaleNotesIn
  rw [hd]
  simp only [List.map_flatMap]
  refine List.flatMap_congr ?_
  intro o _
  exact filterMap_midi_roundtrip d.intervals (getRootMidi key o)

/-- Claim C4 (amended): for every valid key, every scale id in
SCALE_DEFINITIONS, and every octave range [lo, hi] with -1 ≤ lo ≤ hi ≤ 8 (so
that every octave root stays inside MIDI range), the MIDI numbers of
getScaleNotes are strictly ascending; for arbitrary inputs all returned MIDI
numbers lie in 0..127; and getScaleNotes("C","major",[4,4]) is exactly the
7-note list C4..B4 with MIDI numbers 60..71. -/
theorem claim_C4_scale_table (key scaleName : String) (lo hi : Int)
    (hk : key ∈ KEYS) (hd : (lookupScaleIn SCALE_DEFINITIONS scaleName).isSome)
    (hlo : -1 ≤ lo) (hlh : lo ≤ hi) (hhi : hi ≤ 8) :
    List.Pairwise (· < ·) ((getScaleNotes key scaleName (lo, hi)).map noteToMidi) ∧
    (∀ n ∈ getScaleNotes key scaleName (lo, hi), 0 ≤ noteToMidi n ∧ noteToMidi n ≤ 127) ∧
    getScaleNotes "C" "major" (4, 4) = ["C4", "D4", "E4", "F4", "G4", "A4", "B4"] ∧
    (getScaleNotes "C" "major" (4, 4)).map noteToMidi = [60, 62, 64, 65, 67, 69, 71] := by
  rw [Option.isSome_iff_exists] at hd
  obtain ⟨d, hd⟩ := hd
  have hfacts := scaleDefs_intervals_facts _ (lookupScaleIn_mem hd)
  refine ⟨?_, fun n _ => noteToMidi_range n, by decide, by decide⟩
  rw [scaleNotes_map_midi lo hi hd]
  refine pairwise_flatMap_of_blocks _ _ (fun o _ => block_pairwise _ hfacts.1) ?_
  have hroot : ∀ o ∈ intRange lo hi, getRootMidi key o = keyBase key + 12 * (o + 1) := by
    intro o ho
    rw [mem_intRange] at ho
    exact getRootMidi_valid key hk o (by omega) (by omega)
  refine (pairwise_intRange lo hi).imp_of_mem ?_
  intro o o' ho ho' hlt x hx y hy
  have hxb := block_values hfacts.2 hx
  have hyb := block_values hfacts.2 hy
  rw [hroot o ho] at hxb
  rw [hroot o' ho'] at hyb
  omega

/-! ## Claim C7 -/

lemma neg_twelve_le_tmod (a : Int) : -12 ≤ a.tmod 12 := by
  cases a with
  | ofNat m =>
    have : (0 : Int) ≤ (Int.ofNat m).tmod 12 := Int.tmod_nonneg 12 (Int.ofNat_nonneg m)
    omega
  | negSucc m =>
    show -12 ≤ -(((m + 1) % 12 : Nat) : Int)
    have : (m + 1) % 12 < 12 := Nat.mod_lt _ (by omega)
    omega

/-- The JS double-remainder normalization `((x % 12) + 12) % 12` (truncating
%) equals the mathematical residue modulo 12. -/
lemma tmod_plus_twelve (a : Int) : Int.tmod (Int.tmod a 12 + 12) 12 = a % 12 := by
  have hlt : a.tmod 12 < 12 := Int.tmod_lt_of_pos a (by norm_num)
  have hge : -12 ≤ a.tmod 12 := neg_twelve_le_tmod a
  rw [Int.tmod_eq_emod (by omega) (by norm_num)]
  have h1 : (a.tmod 12 + 12) % 12 = a.tmod 12 % 12 := by
    have h := Int.add_mul_emod_self_left (a.tmod 12) 12 1
    rw [mul_one] at h
    exact h
  rw [h1]
  have h2 : a.tmod 12 = a + 12 * (-(a.tdiv 12)) := by
    have h := Int.tmod_add_tdiv a 12
    omega
  rw [h2, Int.add_mul_emod_self_left]

lemma contains_iff_mem {α : Type} [BEq α] [LawfulBEq α] {l : List α} {a : α} :
    l.contains a = true ↔ a ∈ l :=
  List.elem_iff

/-- Claim C7: for a known scale, getScaleDegree returns exactly the 1-indexed
first position whose interval equals the note's semitone distance from the
key's octave-0 root modulo 12; it returns none exactly when no interval
matches; and isChordTone holds exactly when the found degree is listed in the
scale's chordTones. -/
theorem claim_C7_scale_degree (note key scaleName : String) (d : ScaleDefinition)
    (hd : lookupScaleIn SCALE_DEFINITIONS scaleName = some d) :
    (∀ deg, getScaleDegree note key scaleName = some deg →
      1 ≤ deg ∧ deg ≤ d.intervals.length ∧
      d.intervals.getD (deg - 1) 0 = (noteToMidi note - noteToMidi (key ++ "0")) % 12 ∧
      ∀ j < deg - 1, d.intervals.getD j 0 ≠ (noteToMidi note - noteToMidi (key ++ "0")) % 12) ∧
    (getScaleDegree note key scaleName = none ↔
      (noteToMidi note - noteToMidi (key ++ "0")) % 12 ∉ d.intervals) ∧
    (isChordTone note key scaleName = true ↔
      ∃ deg, getScaleDegree note key scaleName = some deg ∧ deg ∈ d.chordTones) := by
  have hunf : getScaleDegree note key scaleName =
      match d.intervals.findIdx?
        (fun x => x = (noteToMidi note - noteToMidi (key ++ "0")) % 12) with
      | some degreeIndex => some (degreeIndex + 1)
      | none => none := by
    simp only [getScaleDegree, getScaleDegreeIn, hd, tmod_plus_twelve]
  refine ⟨?_, ?_, ?_⟩
  · intro deg hdeg
    rw [hunf] at hdeg
    rcases hf : d.intervals.findIdx?
        (fun x => x = (noteToMidi note - noteToMidi (key ++ "0")) % 12) with _ | i <;>
      rw [hf] at hdeg
    · simp at hdeg
    · obtain rfl : i + 1 = deg := Option.some.inj hdeg
      rw [List.findIdx?_eq_some_iff_getElem] at hf
      obtain ⟨hi, hp, hj⟩ := hf
      refine ⟨by omega, by omega, ?_, ?_⟩
      · rw [Nat.add_sub_cancel, List.getD_eq_getElem _ _ hi]
        simpa using hp
      · intro j hji
        rw [Nat.add_sub_cancel] at hji
        rw [List.getD_eq_getElem _ _ (by omega)]
        have := hj j hji
        simpa using this
  · rw [hunf]
    rcases hf : d.intervals.findIdx?
        (fun x => x = (noteToMidi note - noteToMidi (key ++ "0")) % 12) with _ | i
    · rw [List.findIdx?_eq_none_iff] at hf
      refine iff_of_true rfl ?_
      intro hmem
      have h2 := hf _ hmem
      simp at h2
    · rw [List.findIdx?_eq_some_iff_getElem] at hf
      obtain ⟨hi, hp, -⟩ := hf
      have hmem : (noteToMidi note - noteToMidi (key ++ "0")) % 12 ∈ d.intervals := by
        have h3 : d.intervals[i] = (noteToMidi note - noteToMidi (key ++ "0")) % 12 := by
          simpa using hp
        exact h3 ▸ List.getElem_mem hi
      exact iff_of_false (by simp) (by simp [hmem])
  · unfold isChordTone isChordToneIn
    rcases hg : getScaleDegree note key scaleName with _ | deg
    · unfold getScaleDegree at hg
      rw [hg]
      simp
    · unfold getScaleDegree at hg
      rw [hg, hd]
      constructor
      · intro hc
        exact ⟨deg, rfl, contains_iff_mem.mp hc⟩
      · rintro ⟨deg', hdeg', hmem⟩
        obtain rfl : deg = deg' := Option.some.inj hdeg'
        exact contains_iff_mem.mpr hmem

/-! ## Claim C8 -/

lemma getD_mem {α : Type} {l : List α} {n : Nat} {d : α} (h : n < l.length) : l.getD n d ∈ l := by
  rw [List.getD_eq_getElem _ _ h]
  exact List.getElem_mem h

lemma closest_fold_spec (t : Int) (rest : List String) :
    ∀ (b : String),
      ∃ r, rest.foldl (closStep t) (b, some (cdist t b)) = (r, some (cdist t r)) ∧
        (r = b ∨ r ∈ rest) ∧
        cdist t r ≤ cdist t b ∧
        (∀ y ∈ rest, cdist t r ≤ cdist t y) ∧
        (∃ pre post, (b :: rest) = pre ++ r :: post ∧ ∀ y ∈ pre, cdist t r < cdist t y) := by
  induction rest with
  | nil =>
    intro b
    exact ⟨b, rfl, Or.inl rfl, le_refl _, by simp, [], [], rfl, by simp⟩
  | cons y rest ih =>
    intro b
    have hstep : closStep t (b, some (cdist t b)) y =
        if cdist t y < cdist t b then (y, some (cdist t y)) else (b, some (cdist t b)) := rfl
    by_cases hlt : cdist t y < cdist t b
    · obtain ⟨r, hr, hmem, hle, hall, pre, post, hsplit, hpre⟩ := ih y
      refine ⟨r, ?_, ?_, by omega, ?_, b :: pre, post, ?_, ?_⟩
      · rw [List.foldl_cons, hstep, if_pos hlt]
        exact hr
      · rcases hmem with rfl | h
        · exact Or.inr (by simp)
        · exact Or.inr (by simp [h])
      · intro z hz
        rcases List.mem_cons.mp hz with rfl | h
        · omega
        · exact hall z h
      · rw [List.cons_append, ← hsplit]
      · intro z hz
        rcases List.mem_cons.mp hz with rfl | h
        · omega
        · exact hpre z h
    · obtain ⟨r, hr, hmem, hle, hall, pre, post, hsplit, hpre⟩ := ih b
      have hby : cdist t b ≤ cdist t y := by omega
      refine ⟨r, ?_, ?_, hle, ?_, ?_⟩
      · rw [List.foldl_cons, hstep, if_neg hlt]
        exact hr
      · rcases hmem with rfl | h
        · exact Or.inl rfl
        · exact Or.inr (by simp [h])
      · intro z hz
        rcases List.mem_cons.mp hz with rfl | h
        · omega
        · exact hall z h
      · rcases pre with _ | ⟨p0, pre₂⟩
        · obtain ⟨rfl, rfl⟩ : b = r ∧ rest = post := by
            simpa using hsplit
          exact ⟨[], y :: rest, rfl, by simp⟩
        · obtain ⟨heq, hrest⟩ : b = p0 ∧ rest = pre₂ ++ r :: post := by
            simpa using hsplit
          subst heq
          have hrb : cdist t r < cdist t b := hpre b (by simp)
          refine ⟨b :: y :: pre₂, post, by simp [hrest], ?_⟩
          intro z hz
          rcases List.mem_cons.mp hz with rfl | hz2
          · exact hrb
          · rcases List.mem_cons.mp hz2 with rfl | hz3
            · omega
            · exact hpre z (by simp [hz3])

/-- Claim C8 core, findClosestScaleNote half: for a non-empty scale list the
result is a member attaining the minimum distance, and everything strictly
before it in the list has strictly larger distance (first index wins ties). -/
lemma findClosestScaleNote_spec (scaleNotes : List String) (targetMidi : Int)
    (hne : scaleNotes ≠ []) :
    findClosestScaleNote scaleNotes targetMidi ∈ scaleNotes ∧
    (∀ y ∈ scaleNotes,
      cdist targetMidi (findClosestScaleNote scaleNotes targetMidi) ≤ cdist targetMidi y) ∧
    (∃ pre post, scaleNotes = pre ++ findClosestScaleNote scaleNotes targetMidi :: post ∧
      ∀ y ∈ pre,
        cdist targetMidi (findClosestScaleNote scaleNotes targetMidi) < cdist targetMidi y) := by
  rcases scaleNotes with _ | ⟨x, xs⟩
  · exact absurd rfl hne
  · obtain ⟨r, hr, hmem, hle, hall, pre, post, hsplit, hpre⟩ := closest_fold_spec targetMidi xs x
    have hres : findClosestScaleNote (x :: xs) targetMidi = r := by
      unfold findClosestScaleNote
      rw [List.foldl_cons]
      rw [show closStep targetMidi (List.headD (x :: xs) "", none) x =
        (x, some (cdist targetMidi x)) from rfl]
      rw [hr]
    rw [hres]
    refine ⟨?_, ?_, pre, post, hsplit, hpre⟩
    · rcases hmem with rfl | h
      · simp
      · simp [h]
    · intro y hy
      rcases List.mem_cons.mp hy with rfl | h
      · exact hle
      · exact hall y h

lemma closestIdx_fold_spec (t : Int) (rest : List String) :
    ∀ (n bi bd : Nat),
      ∃ j dj, (List.enumFrom n rest).foldl (idxStep t) (bi, some bd) = (j, some dj) ∧
        dj ≤ bd ∧
        ((j = bi ∧ dj = bd ∧ ∀ y ∈ rest, bd ≤ cdist t y) ∨
         (∃ k, k < rest.length ∧ j = n + k ∧ dj = cdist t (rest.getD k "") ∧ dj < bd ∧
            (∀ y ∈ rest, dj ≤ cdist t y) ∧ ∀ k' < k, dj < cdist t (rest.getD k' ""))) := by
  induction rest with
  | nil =>
    intro n bi bd
    exact ⟨bi, bd, rfl, le_refl _, Or.inl ⟨rfl, rfl, by simp⟩⟩
  | cons y rest ih =>
    intro n bi bd
    have hstep : idxStep t (bi, some bd) (n, y) =
        if cdist t y < bd then (n, some (cdist t y)) else (bi, some bd) := rfl
    by_cases hlt : cdist t y < bd
    · obtain ⟨j, dj, hfold, hle, hcase⟩ := ih (n + 1) n (cdist t y)
      refine ⟨j, dj, ?_, by omega, ?_⟩
      · rw [List.enumFrom_cons, List.foldl_cons, hstep, if_pos hlt]
        exact hfold
      · rcases hcase with ⟨rfl, rfl, hall⟩ | ⟨k, hk, rfl, hdj, hlt2, hall, hfirst⟩
        · refine Or.inr ⟨0, by simp, by omega, by simp, hlt, ?_, ?_⟩
          · intro z hz
            rcases List.mem_cons.mp hz with rfl | h
            · exact le_refl _
            · exact hall z h
          · intro k' hk'
            omega
        · refine Or.inr ⟨k + 1, by simp; omega, by omega, by simp [hdj], by omega, ?_, ?_⟩
          · intro z hz
            rcases List.mem_cons.mp hz with rfl | h
            · omega
            · exact hall z h
          · intro k' hk'
            rcases k' with _ | k''
            · simpa using (by omega : dj < cdist t y)
            · simpa using hfirst k'' (by omega)
    · obtain ⟨j, dj, hfold, hle, hcase⟩ := ih (n + 1) bi bd
      refine ⟨j, dj, ?_, hle, ?_⟩
      · rw [List.enumFrom_cons, List.foldl_cons, hstep, if_neg hlt]
        exact hfold
      · rcases hcase with ⟨rfl, rfl, hall⟩ | ⟨k, hk, rfl, hdj, hlt2, hall, hfirst⟩
        · refine Or.inl ⟨rfl, rfl, ?_⟩
          intro z hz
          rcases List.mem_cons.mp hz with rfl | h
          · omega
          · exact hall z h
        · refine Or.inr ⟨k + 1, by simp; omega, by omega, by simp [hdj], by omega, ?_, ?_⟩
          · intro z hz
            rcases List.mem_cons.mp hz with rfl | h
            · omega
            · exact hall z h
          · intro k' hk'
            rcases k' with _ | k''
            · simpa using (by omega : dj < cdist t y)
            · simpa using hfirst k'' (by omega)

/-- Claim C8 core, closestIndexLoop half: the scan returns the first index of
minimum distance. -/
lemma closestIndexLoop_spec (l : List String) (t : Int) (hne : l ≠ []) :
    closestIndexLoop l t < l.length ∧
    (∀ j < l.length, cdist t (l.getD (closestIndexLoop l t) "") ≤ cdist t (l.getD j "")) ∧
    (∀ j < closestIndexLoop l t,
      cdist t (l.getD (closestIndexLoop l t) "") < cdist t (l.getD j "")) := by
  rcases l with _ | ⟨x, xs⟩
  · exact absurd rfl hne
  · obtain ⟨j, dj, hfold, hle, hcase⟩ := closestIdx_fold_spec t xs 1 0 (cdist t x)
    have hres : closestIndexLoop (x :: xs) t = j := by
      unfold closestIndexLoop
      rw [List.enum_cons, List.foldl_cons]
      rw [show idxStep t (0, none) (0, x) = (0, some (cdist t x)) from rfl]
      rw [hfold]
    rw [hres]
    rcases hcase with ⟨rfl, rfl, hall⟩ | ⟨k, hk, rfl, hdj, hlt2, hall, hfirst⟩
    · refine ⟨by simp, ?_, by omega⟩
      intro j hj
      rcases j with _ | j'
      · exact le_refl _
      · simp only [List.getD]
        exact hall _ (getD_mem (by simpa using hj))
    · have hget : (x :: xs).getD (1 + k) "" = xs.getD k "" := by
        have : 1 + k = k + 1 := by omega
        rw [this]
        rfl
      refine ⟨by simp; omega, ?_, ?_⟩
      · intro j hj
        rw [hget, ← hdj]
        rcases j with _ | j'
        · rw [show (x :: xs).getD 0 "" = x from rfl]
          omega
        · exact hall _ (getD_mem (by simpa using hj))
      · intro j hj
        rw [hget, ← hdj]
        rcases j with _ | j'
        · rw [show (x :: xs).getD 0 "" = x from rfl]
          omega
        · exact hfirst j' (by omega)

lemma jsIndexOf_eq_neg_one {l : List String} {x : String} (h : x ∉ l) :
    jsIndexOf l x = -1 := by
  unfold jsIndexOf
  have : l.findIdx? (fun y => y = x) = none := by
    rw [List.findIdx?_eq_none_iff]
    intro y hy
    simp only [decide_eq_false_iff_not]
    intro rfl1
    exact h (rfl1 ▸ hy)
  rw [this]

/-- Claim C8: the closest-in-scale search of MotifGenerator /
CallResponseGenerator returns the scale note minimizing the absolute MIDI
distance to the target, ties broken toward the first index; and for a note not
in the scale, getNeighboringNotes takes its neighbours around the first index
of minimum distance. -/
theorem claim_C8_closest_note :
    (∀ (scaleNotes : List String) (targetMidi : Int), scaleNotes ≠ [] →
      findClosestScaleNote scaleNotes targetMidi ∈ scaleNotes ∧
      (∀ y ∈ scaleNotes,
        cdist targetMidi (findClosestScaleNote scaleNotes targetMidi) ≤ cdist targetMidi y) ∧
      (∃ pre post, scaleNotes = pre ++ findClosestScaleNote scaleNotes targetMidi :: post ∧
        ∀ y ∈ pre,
          cdist targetMidi (findClosestScaleNote scaleNotes targetMidi) < cdist targetMidi y)) ∧
    (∀ (note key scaleName : String) (octaveRange : Int × Int),
      note ∉ getScaleNotes key scaleName octaveRange →
      ∀ ci, ci = closestIndexLoop (getScaleNotes key scaleName octaveRange) (noteToMidi note) →
      (getScaleNotes key scaleName octaveRange ≠ [] →
        ci < (getScaleNotes key scaleName octaveRange).length ∧
        (∀ j < (getScaleNotes key scaleName octaveRange).length,
          cdist (noteToMidi note) ((getScaleNotes key scaleName octaveRange).getD ci "") ≤
            cdist (noteToMidi note) ((getScaleNotes key scaleName octaveRange).getD j "")) ∧
        (∀ j < ci,
          cdist (noteToMidi note) ((getScaleNotes key scaleName octaveRange).getD ci "") <
            cdist (noteToMidi note) ((getScaleNotes key scaleName octaveRange).getD j ""))) ∧
      getNeighboringNotes note key scaleName octaveRange =
        { below := if ci > 0 then some ((getScaleNotes key scaleName octaveRange).getD (ci - 1) "")
                   else none
          above := if ci < (getScaleNotes key scaleName octaveRange).length - 1 then
                     some ((getScaleNotes key scaleName octaveRange).getD (ci + 1) "")
                   else none }) := by
  constructor
  · exact findClosestScaleNote_spec
  · intro note key scaleName octaveRange hnot ci hci
    constructor
    · intro hne
      rw [hci]
      exact closestIndexLoop_spec _ _ hne
    · simp only [getNeighboringNotes]
      rw [jsIndexOf_eq_neg_one hnot, if_pos rfl, hci]

/-! ## Claim C3 -/

lemma foldl_min_le_init (l : List ℚ) (a : ℚ) : l.foldl min a ≤ a := by
  induction l generalizing a with
  | nil => simp
  | cons x t ih =>
    simp only [List.foldl_cons]
    exact le_trans (ih _) (min_le_left a x)

lemma foldl_min_le_mem (l : List ℚ) (a : ℚ) : ∀ d ∈ l, l.foldl min a ≤ d := by
  induction l generalizing a with
  | nil => simp
  | cons x t ih =>
    intro d hd
    rcases List.mem_cons.mp hd with rfl | h
    · exact le_trans (foldl_min_le_init t _) (min_le_right a d)
    · exact ih _ d h

lemma foldl_min_mem (l : List ℚ) (a : ℚ) : l.foldl min a = a ∨ l.foldl min a ∈ l := by
  induction l generalizing a with
  | nil => simp
  | cons x t ih =>
    simp only [List.foldl_cons]
    rcases ih (min a x) with h | h
    · rcases le_total a x with hax | hax
      · left
        rw [h, min_eq_left hax]
      · right
        rw [h, min_eq_right hax]
        simp
    · right
      simp [h]

lemma patternMinDur_eq {p : RhythmPattern} {d0 : ℚ} {ds : List ℚ}
    (hp : p.durations = d0 :: ds) : patternMinDur p = ds.foldl min d0 := by
  unfold patternMinDur
  rw [hp]

lemma patternMinDur_le {p : RhythmPattern} : ∀ d ∈ p.durations, patternMinDur p ≤ d := by
  intro d hd
  rcases hp : p.durations with _ | ⟨d0, ds⟩
  · rw [hp] at hd
    simp at hd
  · rw [hp] at hd
    rw [patternMinDur_eq hp]
    rcases List.mem_cons.mp hd with rfl | h
    · exact foldl_min_le_init ds d
    · exact foldl_min_le_mem ds d0 d h

lemma patternMinDur_pos {p : RhythmPattern} (hne : p.durations ≠ [])
    (hpos : ∀ d ∈ p.durations, 0 < d) : 0 < patternMinDur p := by
  rcases hp : p.durations with _ | ⟨d0, ds⟩
  · exact absurd hp hne
  · rw [patternMinDur_eq hp]
    rcases foldl_min_mem ds d0 with h | h
    · rw [h]
      exact hpos d0 (by simp [hp])
    · rw [hp] at hpos
      exact hpos _ (by simp [h])

lemma rhythmAdjustments_getD_bound (i : Nat) :
    1 / 2 ≤ rhythmAdjustments.getD i 1 ∧ rhythmAdjustments.getD i 1 ≤ 2 := by
  match i with
  | 0 => exact ⟨by norm_num [rhythmAdjustments], by norm_num [rhythmAdjustments]⟩
  | 1 => exact ⟨by norm_num [rhythmAdjustments], by norm_num [rhythmAdjustments]⟩
  | 2 => exact ⟨by norm_num [rhythmAdjustments], by norm_num [rhythmAdjustments]⟩
  | 3 => exact ⟨by norm_num [rhythmAdjustments], by norm_num [rhythmAdjustments]⟩
  | 4 => exact ⟨by norm_num [rhythmAdjustments], by norm_num [rhythmAdjustments]⟩
  | n + 5 =>
    have h : rhythmAdjustments.getD (n + 5) 1 = 1 := rfl
    rw [h]
    norm_num

lemma rhythmLoop_spec (rng : Nat → ℚ) (pattern : RhythmPattern) (totalBeats variation : ℚ)
    (hne : pattern.durations ≠ []) (hpos : ∀ d ∈ pattern.durations, 0 < d) :
    ∀ (fuel : Nat) (currentBeat : ℚ) (patternIndex k : Nat),
      currentBeat ≤ totalBeats →
      totalBeats - currentBeat ≤ (fuel : ℚ) * (patternMinDur pattern / 2) →
      (∀ d ∈ (rhythmLoop rng pattern totalBeats variation fuel currentBeat patternIndex k).1,
        0 < d) ∧
      currentBeat +
        (rhythmLoop rng pattern totalBeats variation fuel currentBeat patternIndex k).1.sum
        = totalBeats := by
  have hmin := patternMinDur_pos hne hpos
  intro fuel
  induction fuel with
  | zero =>
    intro cb pi k h1 h2
    have hcb : cb = totalBeats := by
      simp only [Nat.cast_zero, zero_mul] at h2
      linarith
    rw [rhythmLoop]
    subst hcb
    simp
  | succ fuel ih =>
    intro cb pi k h1 h2
    simp only [rhythmLoop]
    by_cases hcb : cb < totalBeats
    · rw [if_pos hcb]
      have hlen : 0 < pattern.durations.length := List.length_pos.mpr hne
      have hd0mem : pattern.durations.getD (pi % pattern.durations.length) 0 ∈
          pattern.durations := getD_mem (Nat.mod_lt _ hlen)
      set d0 := pattern.durations.getD (pi % pattern.durations.length) 0 with hd0
      have hd0pos : 0 < d0 := hpos _ hd0mem
      have hd0min : patternMinDur pattern ≤ d0 := patternMinDur_le _ hd0mem
      set p1 : ℚ × Nat :=
        (if variation > 0 then
          if rng k < variation then
            (d0 * rhythmAdjustments.getD
              (Int.floor (rng (k + 1) * (rhythmAdjustments.length : ℚ))).toNat 1, k + 2)
          else (d0, k + 1)
        else (d0, k)) with hp1
      have hp1bound : patternMinDur pattern / 2 ≤ p1.1 ∧ 0 < p1.1 := by
        have hadj := rhythmAdjustments_getD_bound
          (Int.floor (rng (k + 1) * (rhythmAdjustments.length : ℚ))).toNat
        have hstep : d0 * (1 / 2) ≤ d0 * rhythmAdjustments.getD
            (Int.floor (rng (k + 1) * (rhythmAdjustments.length : ℚ))).toNat 1 :=
          mul_le_mul_of_nonneg_left hadj.1 (le_of_lt hd0pos)
        rw [hp1]
        split
        · split
          · refine ⟨?_, ?_⟩
            · calc patternMinDur pattern / 2 ≤ d0 / 2 := by linarith
                _ = d0 * (1 / 2) := by ring
                _ ≤ _ := hstep
            · have h0 : 0 < d0 * (1 / 2 : ℚ) := by positivity
              exact lt_of_lt_of_le h0 hstep
          · exact ⟨by linarith, hd0pos⟩
        · exact ⟨by linarith, hd0pos⟩
      by_cases hclip : cb + p1.1 > totalBeats
      · rw [if_pos hclip]
        rw [show cb + (totalBeats - cb) = totalBeats from by ring]
        have hres := ih totalBeats (pi + 1) p1.2 (le_refl _) (by
          have h0 : (0 : ℚ) ≤ (fuel : ℚ) * (patternMinDur pattern / 2) := by positivity
          linarith)
        refine ⟨?_, ?_⟩
        · intro d hd
          rcases List.mem_cons.mp hd with rfl | hmem
          · linarith
          · exact hres.1 d hmem
        · simp only [List.sum_cons]
          linarith [hres.2]
      · rw [if_neg hclip]
        have hcb1 : cb + p1.1 ≤ totalBeats := by linarith
        have hres := ih (cb + p1.1) (pi + 1) p1.2 hcb1 (by
          have h2' := h2
          push_cast at h2'
          nlinarith [hp1bound.1])
        refine ⟨?_, ?_⟩
        · intro d hd
          rcases List.mem_cons.mp hd with rfl | hmem
          · exact hp1bound.2
          · exact hres.1 d hmem
        · simp only [List.sum_cons]
          linarith [hres.2]
    · rw [if_neg hcb]
      have hcb1 : cb = totalBeats := by linarith
      subst hcb1
      simp

/-- Claim C3: for every positive totalBeats, every rhythm pattern with (some)
strictly positive durations, every variation amount and every random stream,
generateRhythmDurations returns a list of strictly positive durations whose
exact rational sum is totalBeats (the final step being clipped). -/
theorem claim_C3_rhythm_exact (rng : Nat → ℚ) (totalBeats : ℚ) (pattern : RhythmPattern)
    (variation : ℚ) (k : Nat) (htb : 0 < totalBeats)
    (hne : pattern.durations ≠ []) (hpos : ∀ d ∈ pattern.durations, 0 < d) :
    (∀ d ∈ (generateRhythmDurations rng totalBeats pattern variation k).1, 0 < d) ∧
    (generateRhythmDurations rng totalBeats pattern variation k).1.sum = totalBeats := by
  have hmin := patternMinDur_pos hne hpos
  have hfuel : totalBeats - 0 ≤
      ((rhythmFuel totalBeats pattern : Nat) : ℚ) * (patternMinDur pattern / 2) := by
    unfold rhythmFuel
    set q := 2 * totalBeats / patternMinDur pattern with hq
    have h1 : q ≤ (Int.ceil q : ℚ) := Int.le_ceil q
    have h2 : ((Int.ceil q : ℤ) : ℚ) ≤ (((Int.ceil q).toNat : ℤ) : ℚ) := by
      exact_mod_cast Int.self_le_toNat _
    have h3 : q ≤ (((Int.ceil q).toNat + 2 : Nat) : ℚ) := by
      push_cast
      push_cast at h2
      linarith
    have h4 : q * (patternMinDur pattern / 2) = totalBeats := by
      rw [hq]
      field_simp
    have h5 : 0 < patternMinDur pattern / 2 := by positivity
    calc totalBeats - 0 = q * (patternMinDur pattern / 2) := by rw [h4]; ring
      _ ≤ (((Int.ceil q).toNat + 2 : Nat) : ℚ) * (patternMinDur pattern / 2) := by
          apply mul_le_mul_of_nonneg_right h3 (le_of_lt h5)
  have hres := rhythmLoop_spec rng pattern totalBeats variation hne hpos
    (rhythmFuel totalBeats pattern) 0 0 k (le_of_lt htb) hfuel
  have hgen : generateRhythmDurations rng totalBeats pattern variation k =
      rhythmLoop rng pattern totalBeats variation (rhythmFuel totalBeats pattern) 0 0 k := rfl
  rw [hgen]
  exact ⟨hres.1, by linarith [hres.2]⟩

lemma lookupPattern_swing :
    (lookupPattern "swing-eighths").durations =
      [0.67, 0.33, 0.67, 0.33, 0.67, 0.33, 0.67, 0.33] := rfl

lemma lookupPattern_swing_ne : (lookupPattern "swing-eighths").durations ≠ [] := by
  rw [lookupPattern_swing]
  simp

lemma lookupPattern_swing_pos : ∀ d ∈ (lookupPattern "swing-eighths").durations, 0 < d := by
  rw [lookupPattern_swing]
  intro d hd
  fin_cases hd <;> norm_num

/-- Witness for claim_C3_rhythm_exact: the swing-eighths pattern over 4 beats
with 20 percent variation and a constant stream. -/
theorem claim_C3_rhythm_exact_witness :
    (0 : ℚ) < 4 ∧ (lookupPattern "swing-eighths").durations ≠ [] ∧
    (∀ d ∈ (lookupPattern "swing-eighths").durations, 0 < d) ∧
    ((∀ d ∈ (generateRhythmDurations (fun _ => (1 : ℚ)/2) 4 (lookupPattern "swing-eighths")
        (1/5) 0).1, 0 < d) ∧
      (generateRhythmDurations (fun _ => (1 : ℚ)/2) 4 (lookupPattern "swing-eighths")
        (1/5) 0).1.sum = 4) :=
  ⟨by norm_num, lookupPattern_swing_ne, lookupPattern_swing_pos,
   claim_C3_rhythm_exact (fun _ => (1 : ℚ)/2) 4 (lookupPattern "swing-eighths") (1/5) 0
     (by norm_num) lookupPattern_swing_ne lookupPattern_swing_pos⟩

/-! ## Claim C9 -/

/-- Claim C9: generateLick copies key, scale, tempo and lengthBars from the
config, its notes and algorithm tag are exactly the dispatched generator's
output, and any tag outside the seven known ones dispatches to the scale-run
generator, so the resulting algorithm field is "scale-run". -/
theorem claim_C9_assembly (alg : String) (cfg : GeneratorConfig) (rng : Nat → ℚ) (k : Nat) :
    (generateLick alg cfg rng k).key = cfg.key ∧
    (generateLick alg cfg rng k).scale = cfg.scale ∧
    (generateLick alg cfg rng k).tempo = cfg.tempo ∧
    (generateLick alg cfg rng k).lengthBars = cfg.lengthBars ∧
    (generateLick alg cfg rng k).notes = (createGenerator alg cfg rng k).1.notes ∧
    (generateLick alg cfg rng k).algorithm = (createGenerator alg cfg rng k).1.algorithm ∧
    (alg ∉ (["scale-run", "arpeggio", "motif", "bebop", "call-response", "sequence",
        "blues"] : List String) →
      createGenerator alg cfg rng k = scaleRunGenerate rng cfg k ∧
      (generateLick alg cfg rng k).algorithm = "scale-run") := by
  refine ⟨rfl, rfl, rfl, rfl, rfl, rfl, ?_⟩
  intro hnot
  simp only [List.mem_cons, List.mem_singleton, not_or] at hnot
  obtain ⟨h1, h2, h3, h4, h5, h6, h7, -⟩ := hnot
  have hcg : createGenerator alg cfg rng k = scaleRunGenerate rng cfg k := by
    unfold createGenerator
    rw [if_neg h1, if_neg h2, if_neg h3, if_neg h4, if_neg h5, if_neg h6, if_neg h7]
  refine ⟨hcg, ?_⟩
  show (createGenerator alg cfg rng k).1.algorithm = "scale-run"
  rw [hcg]
  rfl

/-- Witness for claim_C9_assembly: the unknown tag "wat" falls back to the
scale-run generator. -/
theorem claim_C9_assembly_witness :
    "wat" ∉ (["scale-run", "arpeggio", "motif", "bebop", "call-response", "sequence",
        "blues"] : List String) ∧
    (createGenerator "wat" ⟨"C", "major", 120, 1, (4, 4), "straight"⟩
        (fun _ => (1 : ℚ)/2) 0 =
      scaleRunGenerate (fun _ => (1 : ℚ)/2) ⟨"C", "major", 120, 1, (4, 4), "straight"⟩ 0 ∧
      (generateLick "wat" ⟨"C", "major", 120, 1, (4, 4), "straight"⟩
        (fun _ => (1 : ℚ)/2) 0).algorithm = "scale-run") :=
  ⟨by decide,
   (claim_C9_assembly "wat" ⟨"C", "major", 120, 1, (4, 4), "straight"⟩
     (fun _ => (1 : ℚ)/2) 0).2.2.2.2.2.2 (by decide)⟩

/-! ## Claim C1 -/

/-- Claim C1 is refuted: on the valid config (key C major, tempo 60, one bar,
octave range [4,4], swing feel) with the constant stream 1/2, the bebop
generator emits a note whose time + duration exceeds
lengthBars * 4 * 60 / tempo = 4 seconds by more than 1/100 (the actual overrun
is 21/400 = 0.0525 s, far above any floating-point rounding epsilon): the
swing-lengthened fill line of generateBebopLine runs past the phrase end. -/
theorem claim_C1_time_containment_violated :
    (0 : ℚ) < 60 ∧ (0 : ℚ) < 1 ∧
    (lookupScaleIn SCALE_DEFINITIONS "major").isSome = true ∧
    getScaleNotes "C" "major" (4, 4) ≠ [] ∧
    ((bebopGenerate (fun _ => (1 : ℚ)/2) ⟨"C", "major", 60, 1, (4, 4), "swing"⟩ 0).1.notes.any
      (fun n => decide ((1 : ℚ) * 4 * 60 / 60 + 1/100 < n.time + n.duration))) = true := by
  refine ⟨by norm_num, by norm_num, by decide, by decide, ?_⟩
  with_unfolding_all rfl

/-! ## Claim C6 -/

lemma generateTurnaround_midi_map (cfg : GeneratorConfig) (choice : BluesChoice) (sb lb : ℚ) :
    (generateTurnaround cfg choice sb lb).map Note.midi =
      [noteToMidi (midiToNote (getRootMidi cfg.key 4 + 9)),
       noteToMidi (midiToNote (getRootMidi cfg.key 4 + 8)),
       noteToMidi (midiToNote (getRootMidi cfg.key 4 + 7)),
       noteToMidi (midiToNote (getRootMidi cfg.key 4))] := rfl

lemma bluesMainLoop_ends_turnaround (rng : Nat → ℚ) (cfg : GeneratorConfig)
    (choice : BluesChoice) (bn : List String) (bs : List Int) (totalBeats : ℚ)
    (hta : choice.turnaround = true) :
    ∀ (fuel : Nat) (cb : ℚ) (pt : String) (k : Nat),
      cb < totalBeats → totalBeats - cb ≤ (fuel : ℚ) * 4 →
      ∃ (pre : List Note) (sb lb : ℚ),
        (bluesMainLoop rng cfg choice bn bs totalBeats fuel cb pt k).1 =
          pre ++ generateTurnaround cfg choice sb lb := by
  intro fuel
  induction fuel with
  | zero =>
    intro cb pt k h1 h2
    exfalso
    simp only [Nat.cast_zero, zero_mul] at h2
    linarith
  | succ fuel ih =>
    intro cb pt k h1 h2
    simp only [bluesMainLoop]
    rw [if_pos h1]
    by_cases hrem : totalBeats - cb ≤ 4
    · rw [if_pos ⟨hta, hrem⟩]
      exact ⟨[], cb, totalBeats - cb, by simp⟩
    · rw [if_neg (fun h => hrem h.2)]
      rw [min_eq_left (by linarith)]
      have hres := ih (cb + 4) (if pt = "question" then "answer" else "question")
        (generateBluesPhrase rng cfg choice bn bs cb 4 pt k).2
        (by linarith) (by
          push_cast at h2 ⊢
          linarith)
      obtain ⟨pre, sb, lb, hres⟩ := hres
      exact ⟨(generateBluesPhrase rng cfg choice bn bs cb 4 pt k).1 ++ pre, sb, lb, by
        rw [hres, List.append_assoc]⟩

/-- Claim C6: on every config whose key is one of the twelve KEYS and whose
lengthBars is exactly 4 (enabling the turnaround) and for every random stream,
the blues generator's note list ends with the turnaround: a (possibly empty)
prefix followed by exactly four final notes whose midi numbers are
root+9, root+8, root+7, root, for root the key's octave-4 root. -/
theorem claim_C6_blues_turnaround (rng : Nat → ℚ) (cfg : GeneratorConfig) (k : Nat)
    (hkey : cfg.key ∈ KEYS) (hlen : cfg.lengthBars = 4) :
    ∃ (pre tail : List Note),
      (bluesGenerate rng cfg k).1.notes = pre ++ tail ∧
      tail.map Note.midi =
        [getRootMidi cfg.key 4 + 9, getRootMidi cfg.key 4 + 8,
         getRootMidi cfg.key 4 + 7, getRootMidi cfg.key 4] := by
  have hbase := keyBase_range cfg.key hkey
  have hroot : getRootMidi cfg.key 4 = keyBase cfg.key + 60 := by
    have h := getRootMidi_valid cfg.key hkey 4 (by norm_num) (by norm_num)
    norm_num at h
    exact h
  have hta : (bluesChoose rng cfg k).1.turnaround = true := by
    simp only [bluesChoose]
    split <;> simp [hlen]
  have hfuel : bluesFuel (cfg.lengthBars * 4) = 6 := by
    rw [hlen]
    norm_num [bluesFuel]
    rfl
  have hml := bluesMainLoop_ends_turnaround rng cfg (bluesChoose rng cfg k).1
    (buildBluesScale cfg) (buildBlueNoteSet cfg) (cfg.lengthBars * 4) hta
    (bluesFuel (cfg.lengthBars * 4)) 0 "question" (bluesChoose rng cfg k).2
    (by rw [hlen]; norm_num)
    (by rw [hfuel, hlen]; norm_num)
  obtain ⟨pre, sb, lb, hres⟩ := hml
  refine ⟨pre, generateTurnaround cfg (bluesChoose rng cfg k).1 sb lb, hres, ?_⟩
  rw [generateTurnaround_midi_map]
  have h9 := noteToMidi_midiToNote (m := getRootMidi cfg.key 4 + 9)
    (by omega) (by omega)
  have h8 := noteToMidi_midiToNote (m := getRootMidi cfg.key 4 + 8)
    (by omega) (by omega)
  have h7 := noteToMidi_midiToNote (m := getRootMidi cfg.key 4 + 7)
    (by omega) (by omega)
  have h0 := noteToMidi_midiToNote (m := getRootMidi cfg.key 4)
    (by omega) (by omega)
  rw [h9, h8, h7, h0]

/-- Witness for claim_C6_blues_turnaround: key A, four bars, constant stream. -/
theorem claim_C6_blues_turnaround_witness :
    ("A" ∈ KEYS) ∧
    ((⟨"A", "major", 120, 4, (3, 5), "straight"⟩ : GeneratorConfig).lengthBars = 4) ∧
    (∃ (pre tail : List Note),
      (bluesGenerate (fun _ => (1 : ℚ)/2)
          ⟨"A", "major", 120, 4, (3, 5), "straight"⟩ 0).1.notes = pre ++ tail ∧
      tail.map Note.midi =
        [getRootMidi "A" 4 + 9, getRootMidi "A" 4 + 8,
         getRootMidi "A" 4 + 7, getRootMidi "A" 4]) :=
  ⟨by decide, rfl,
   claim_C6_blues_turnaround (fun _ => (1 : ℚ)/2)
     ⟨"A", "major", 120, 4, (3, 5), "straight"⟩ 0 (by decide) rfl⟩

/-! ## Claim C5 -/

/-- Math.random() always returns a value in [0, 1). -/
def RngOk (rng : Nat → ℚ) : Prop :=
  ∀ i, 0 ≤ rng i ∧ rng i < 1

lemma randPick_mem {α : Type} (l : List α) (fb : α) (r : ℚ) (h0 : 0 ≤ r) (h1 : r < 1)
    (hne : l ≠ []) : randPick l fb r ∈ l := by
  unfold randPick
  apply getD_mem
  have hlen : 0 < l.length := List.length_pos.mpr hne
  have hlenq : (0 : ℚ) < (l.length : ℚ) := by exact_mod_cast hlen
  have h2 : (0 : ℚ) ≤ r * (l.length : ℚ) := mul_nonneg h0 (le_of_lt hlenq)
  have h3 : r * (l.length : ℚ) < (l.length : ℚ) := by nlinarith
  have hf0 : 0 ≤ Int.floor (r * (l.length : ℚ)) := Int.floor_nonneg.mpr h2
  have hf1 : Int.floor (r * (l.length : ℚ)) < (l.length : Int) := by
    apply Int.floor_lt.mpr
    exact_mod_cast h3
  omega

lemma getNextTarget_mem (rng : Nat → ℚ) (ct : List String) (p : String) (k : Nat)
    (hct : ct ≠ []) (hrng : RngOk rng) : (getNextTarget rng ct p k).1 ∈ ct := by
  simp only [getNextTarget]
  split
  · exact randPick_mem ct "" (rng k) (hrng k).1 (hrng k).2 hct
  · rename_i hcand
    have hcne : ct.filter (fun ct' =>
        decide (1 ≤ (noteToMidi ct' - noteToMidi p).natAbs ∧
          (noteToMidi ct' - noteToMidi p).natAbs ≤ 7)) ≠ [] := by
      intro h
      exact hcand (by rw [h]; rfl)
    split
    · rename_i hsw
      have hswne : (ct.filter (fun ct' =>
          decide (1 ≤ (noteToMidi ct' - noteToMidi p).natAbs ∧
            (noteToMidi ct' - noteToMidi p).natAbs ≤ 7))).filter
          (fun ct' => decide ((noteToMidi ct' - noteToMidi p).natAbs ≤ 3)) ≠ [] :=
        List.length_pos.mp hsw
      split
      · have hm := randPick_mem _ "" (rng (k + 1)) (hrng (k + 1)).1 (hrng (k + 1)).2 hswne
        exact List.mem_of_mem_filter (List.mem_of_mem_filter hm)
      · have hm := randPick_mem _ "" (rng (k + 1)) (hrng (k + 1)).1 (hrng (k + 1)).2 hcne
        exact List.mem_of_mem_filter hm
    · have hm := randPick_mem _ "" (rng k) (hrng k).1 (hrng k).2 hcne
      exact List.mem_of_mem_filter hm

lemma planTargetsFrom_pitches (rng : Nat → ℚ) (ct : List String) (tb : ℚ)
    (hct : ct ≠ []) (hrng : RngOk rng) :
    ∀ (fuel : Nat) (b : ℚ) (prev : Option String) (k : Nat),
      ∀ t ∈ (planTargetsFrom rng ct tb fuel b prev k).1, t.2 ∈ ct := by
  intro fuel
  induction fuel with
  | zero =>
    intro b prev k t ht
    simp [planTargetsFrom] at ht
  | succ fuel ih =>
    intro b prev k t ht
    simp only [planTargetsFrom] at ht
    split at ht
    · rcases List.mem_cons.mp ht with rfl | hmem
      · show (match prev with
          | none => (ct.getD (ct.length / 2) "", k)
          | some prevPitch => getNextTarget rng ct prevPitch k).1 ∈ ct
        match prev with
        | none =>
          exact getD_mem (Nat.div_lt_self (List.length_pos.mpr hct) (by norm_num))
        | some prevPitch => exact getNextTarget_mem rng ct prevPitch k hct hrng
      · exact ih _ _ _ t hmem
    · simp at ht

lemma planTargetsFrom_shape (rng : Nat → ℚ) (ct : List String) (tb : ℚ) :
    ∀ (fuel : Nat) (b : ℚ) (prev : Option String) (k : Nat),
      tb - b ≤ 2 * (fuel : ℚ) →
      ∃ n : ℕ,
        ((planTargetsFrom rng ct tb fuel b prev k).1.map Prod.fst =
          (List.range n).map (fun (i : ℕ) => b + 2 * (i : ℚ))) ∧
        (∀ i : ℕ, i < n → b + 2 * (i : ℚ) < tb) ∧
        tb ≤ b + 2 * (n : ℚ) := by
  intro fuel
  induction fuel with
  | zero =>
    intro b prev k hfuel
    simp only [Nat.cast_zero, mul_zero] at hfuel
    refine ⟨0, by simp [planTargetsFrom], by simp, by simpa using hfuel⟩
  | succ fuel ih =>
    intro b prev k hfuel
    simp only [planTargetsFrom]
    by_cases hb : b < tb
    · rw [if_pos hb]
      obtain ⟨n, hmap, hlt, hge⟩ := ih (b + 2)
        (some (match prev with
          | none => (ct.getD (ct.length / 2) "", k)
          | some prevPitch => getNextTarget rng ct prevPitch k).1)
        (match prev with
          | none => (ct.getD (ct.length / 2) "", k)
          | some prevPitch => getNextTarget rng ct prevPitch k).2
        (by push_cast at hfuel ⊢; linarith)
      refine ⟨n + 1, ?_, ?_, ?_⟩
      · rw [List.map_cons, hmap, List.range_succ_eq_map, List.map_cons, List.map_map]
        congr 1
        · norm_num
        · refine List.map_congr_left ?_
          intro i hi
          simp only [Function.comp_apply]
          push_cast
          ring
      · intro i hi
        match i with
        | 0 => simpa using hb
        | j + 1 =>
          have := hlt j (by omega)
          push_cast at this ⊢
          linarith
      · push_cast at hge ⊢
        linarith
    · rw [if_neg hb]
      exact ⟨0, by simp, by simp, by push_cast; linarith⟩

lemma planTargetsFuel_enough (tb : ℚ) : tb - 0 ≤ 2 * ((planTargetsFuel tb : Nat) : ℚ) := by
  unfold planTargetsFuel
  have h1 : tb / 2 ≤ ((Int.ceil (tb / 2) : ℤ) : ℚ) := Int.le_ceil _
  have h2 : (Int.ceil (tb / 2) : ℤ) ≤ ((Int.ceil (tb / 2)).toNat : ℤ) := Int.self_le_toNat _
  have h3 : ((Int.ceil (tb / 2) : ℤ) : ℚ) ≤ (((Int.ceil (tb / 2)).toNat : ℕ) : ℚ) := by
    exact_mod_cast h2
  push_cast
  linarith

lemma isChordToneIn_of_no_chordTones (defs : List (String × ScaleDefinition))
    (note key scale : String) (sd : ScaleDefinition)
    (h : lookupScaleIn defs scale = some sd) (hz : sd.chordTones = []) :
    isChordToneIn defs note key scale = false := by
  simp only [isChordToneIn, getScaleDegreeIn, h]
  cases hfi : sd.intervals.findIdx? (fun x =>
      x = Int.tmod (Int.tmod (noteToMidi note - noteToMidi (key ++ "0")) 12 + 12) 12) with
  | none => rfl
  | some degreeIndex => simp [hz]

lemma bebopChordTonesIn_ne_nil (defs : List (String × ScaleDefinition))
    (sn : List String) (key scale : String) (hsn : sn ≠ []) :
    bebopChordTonesIn defs sn key scale ≠ [] := by
  simp only [bebopChordTonesIn]
  split
  · cases sn with
    | nil => exact absurd rfl hsn
    | cons a as => simp
  · rename_i h
    exact fun h' => h (by rw [h']; rfl)

/-- Claim C5: the bebop planner emits targets in strictly increasing beat
order, the targeted beats are exactly the even beats 0, 2, 4, ... strictly
below totalBeats (so with positive length the target list is non-empty), and
every target pitch lies in the constructor's chord-tone list whenever that
list is non-empty; for any scale-table entry listing zero chord tones,
isChordTone rejects every note, yet the constructor's degree-1/3/5 fallback
keeps the chord-tone list non-empty whenever the scale notes are. -/
theorem claim_C5_bebop_targets (rng : Nat → ℚ) (cfg : GeneratorConfig) (k : Nat) :
    (((planTargets rng (bebopChordTones (scaleNotesOf cfg) cfg.key cfg.scale)
        (cfg.lengthBars * 4) k).1.map Prod.fst).Pairwise (· < ·)) ∧
    (∀ q : ℚ,
      q ∈ (planTargets rng (bebopChordTones (scaleNotesOf cfg) cfg.key cfg.scale)
        (cfg.lengthBars * 4) k).1.map Prod.fst ↔
      ∃ i : ℕ, q = 2 * (i : ℚ) ∧ q < cfg.lengthBars * 4) ∧
    (RngOk rng → bebopChordTones (scaleNotesOf cfg) cfg.key cfg.scale ≠ [] →
      ∀ t ∈ (planTargets rng (bebopChordTones (scaleNotesOf cfg) cfg.key cfg.scale)
        (cfg.lengthBars * 4) k).1,
        t.2 ∈ bebopChordTones (scaleNotesOf cfg) cfg.key cfg.scale) ∧
    (∀ (defs : List (String × ScaleDefinition)) (note key scale : String)
        (sd : ScaleDefinition),
      lookupScaleIn defs scale = some sd → sd.chordTones = [] →
      isChordToneIn defs note key scale = false) ∧
    (scaleNotesOf cfg ≠ [] →
      bebopChordTones (scaleNotesOf cfg) cfg.key cfg.scale ≠ []) ∧
    (0 < cfg.lengthBars * 4 →
      (planTargets rng (bebopChordTones (scaleNotesOf cfg) cfg.key cfg.scale)
        (cfg.lengthBars * 4) k).1 ≠ []) := by
  obtain ⟨n, hmap, hlt, hge⟩ := planTargetsFrom_shape rng
    (bebopChordTones (scaleNotesOf cfg) cfg.key cfg.scale) (cfg.lengthBars * 4)
    (planTargetsFuel (cfg.lengthBars * 4)) 0 none k
    (planTargetsFuel_enough (cfg.lengthBars * 4))
  have hmap' : (planTargets rng (bebopChordTones (scaleNotesOf cfg) cfg.key cfg.scale)
      (cfg.lengthBars * 4) k).1.map Prod.fst =
      (List.range n).map (fun (i : ℕ) => 0 + 2 * (i : ℚ)) := hmap
  refine ⟨?_, ?_, ?_, ?_, ?_, ?_⟩
  · rw [hmap']
    refine List.Pairwise.map _ ?_ (List.pairwise_lt_range n)
    intro a b hab
    dsimp only
    have : (a : ℚ) < (b : ℚ) := by exact_mod_cast hab
    linarith
  · intro q
    rw [hmap']
    constructor
    · intro hq
      obtain ⟨i, hi, rfl⟩ := List.mem_map.mp hq
      rw [List.mem_range] at hi
      exact ⟨i, by ring, by simpa using hlt i hi⟩
    · rintro ⟨i, rfl, hqlt⟩
      apply List.mem_map.mpr
      refine ⟨i, List.mem_range.mpr ?_, by ring⟩
      by_contra hni
      push_neg at hni
      have hn : (n : ℚ) ≤ (i : ℚ) := by exact_mod_cast hni
      linarith
  · intro hrng hct t ht
    exact planTargetsFrom_pitches rng _ _ hct hrng _ _ _ _ t ht
  · exact isChordToneIn_of_no_chordTones
  · intro hsn
    exact bebopChordTonesIn_ne_nil SCALE_DEFINITIONS _ cfg.key cfg.scale hsn
  · intro htb
    intro hnil
    have h0 : (0 : ℚ) ∈ (planTargets rng (bebopChordTones (scaleNotesOf cfg) cfg.key
        cfg.scale) (cfg.lengthBars * 4) k).1.map Prod.fst := by
      rw [hmap']
      apply List.mem_map.mpr
      refine ⟨0, List.mem_range.mpr ?_, by norm_num⟩
      by_contra hn0
      have : n = 0 := by omega
      subst this
      simp only [Nat.cast_zero, mul_zero, add_zero] at hge
      linarith
    rw [hnil] at h0
    simp at h0

/-- Witness for claim_C5_bebop_targets: C major over one bar, octave range
[4,4], with the constant stream 1/2. -/
theorem claim_C5_bebop_targets_witness :
    RngOk (fun _ => (1 : ℚ)/2) ∧
    bebopChordTones (scaleNotesOf ⟨"C", "major", 120, 1, (4, 4), "straight"⟩)
      "C" "major" ≠ [] ∧
    (0 : ℚ) < 1 * 4 ∧
    (∀ t ∈ (planTargets (fun _ => (1 : ℚ)/2)
        (bebopChordTones (scaleNotesOf ⟨"C", "major", 120, 1, (4, 4), "straight"⟩)
          "C" "major") (1 * 4) 0).1,
      t.2 ∈ bebopChordTones (scaleNotesOf ⟨"C", "major", 120, 1, (4, 4), "straight"⟩)
        "C" "major") ∧
    (planTargets (fun _ => (1 : ℚ)/2)
        (bebopChordTones (scaleNotesOf ⟨"C", "major", 120, 1, (4, 4), "straight"⟩)
          "C" "major") (1 * 4) 0).1 ≠ [] := by
  have hrng : RngOk (fun _ => (1 : ℚ)/2) := fun i => by constructor <;> norm_num
  have hct : bebopChordTones (scaleNotesOf ⟨"C", "major", 120, 1, (4, 4), "straight"⟩)
      "C" "major" ≠ [] := by decide
  have h := claim_C5_bebop_targets (fun _ => (1 : ℚ)/2)
    ⟨"C", "major", 120, 1, (4, 4), "straight"⟩ 0
  exact ⟨hrng, hct, by norm_num, h.2.2.1 hrng hct,
    h.2.2.2.2.2 (show (0 : ℚ) < 1 * 4 by norm_num)⟩

/-! ## Claim C2 -/

lemma clamp31_mem (x : ℚ) : 0.3 ≤ min 1 (max 0.3 x) ∧ min 1 (max 0.3 x) ≤ 1 :=
  ⟨le_min (by norm_num) (le_max_left _ _), min_le_left _ _⟩

lemma clamp31_of_bounds {x lo hi : ℚ} (hlo : 0.3 ≤ lo) (hhi : hi ≤ 1)
    (hx0 : lo ≤ x) (hx1 : x ≤ hi) :
    lo ≤ min 1 (max 0.3 x) ∧ min 1 (max 0.3 x) ≤ hi := by
  rw [max_eq_right (le_trans hlo hx0), min_eq_right (le_trans hx1 hhi)]
  exact ⟨hx0, hx1⟩

lemma applyVelocity_mem (cfg : GeneratorConfig) (note : Note) (bp r : ℚ) :
    0.3 ≤ (applyVelocity cfg note bp r).velocity ∧
      (applyVelocity cfg note bp r).velocity ≤ 1 := by
  simp only [applyVelocity]
  exact clamp31_mem _

lemma applyVelocity_rng (cfg : GeneratorConfig) (note : Note) (bp r : ℚ)
    (h0 : 0 ≤ r) (h1 : r < 1) :
    0.6 ≤ (applyVelocity cfg note bp r).velocity ∧
      (applyVelocity cfg note bp r).velocity ≤ 0.95 := by
  simp only [applyVelocity]
  split <;> split <;>
    exact clamp31_of_bounds (by norm_num) (by norm_num) (by linarith) (by linarith)

lemma applyBluesVelocity_mem (note : Note) (bp : ℚ) (ibn : Bool) (r : ℚ) :
    0.3 ≤ (applyBluesVelocity note bp ibn r).velocity ∧
      (applyBluesVelocity note bp ibn r).velocity ≤ 1 := by
  simp only [applyBluesVelocity]
  exact ⟨le_trans (by norm_num) (le_min (by norm_num) (le_max_left _ _)), min_le_left _ _⟩

lemma scaled_passing_vel (cfg : GeneratorConfig) (note : Note) (bp r : ℚ)
    (h0 : 0 ≤ r) (h1 : r < 1) :
    0.3 ≤ (applyVelocity cfg note bp r).velocity * 0.7 ∧
      (applyVelocity cfg note bp r).velocity * 0.7 ≤ 1 := by
  have hav := applyVelocity_rng cfg note bp r h0 h1
  constructor <;> linarith [hav.1, hav.2]

lemma scaleRunLoop_vel (rng : Nat → ℚ) (cfg : GeneratorConfig) (scaleNotes : List String) :
    ∀ (ds : List ℚ) (cb : ℚ) (ci cd : Int) (nir k : Nat),
      ∀ n ∈ (scaleRunLoop rng cfg scaleNotes ds cb ci cd nir k).1,
        0.3 ≤ n.velocity ∧ n.velocity ≤ 1 := by
  intro ds
  induction ds with
  | nil =>
    intro cb ci cd nir k n hn
    simp [scaleRunLoop] at hn
  | cons d ds ih =>
    intro cb ci cd nir k n hn
    simp only [scaleRunLoop] at hn
    split at hn
    · exact ih _ _ _ _ _ n hn
    · rcases List.mem_cons.mp hn with rfl | hmem
      · exact applyVelocity_mem _ _ _ _
      · exact ih _ _ _ _ _ n hmem

lemma scaleRunGenerate_vel (rng : Nat → ℚ) (cfg : GeneratorConfig) (k : Nat) :
    ∀ n ∈ (scaleRunGenerate rng cfg k).1.notes, 0.3 ≤ n.velocity ∧ n.velocity ≤ 1 := by
  intro n hn
  exact scaleRunLoop_vel rng cfg (scaleNotesOf cfg) _ _ _ _ _ _ n hn

lemma arpeggioLoop_vel (rng : Nat → ℚ) (cfg : GeneratorConfig)
    (scaleNotes chordTones : List String) (hrng : RngOk rng) :
    ∀ (ds : List ℚ) (cb : ℚ) (pi : Nat) (coo : Int) (k : Nat),
      ∀ n ∈ (arpeggioLoop rng cfg scaleNotes chordTones ds cb pi coo k).1,
        0.3 ≤ n.velocity ∧ n.velocity ≤ 1 := by
  intro ds
  induction ds with
  | nil =>
    intro cb pi coo k n hn
    simp [arpeggioLoop] at hn
  | cons d ds ih =>
    intro cb pi coo k n hn
    simp only [arpeggioLoop] at hn
    split at hn
    · rcases List.mem_cons.mp hn with rfl | hmem
      · refine scaled_passing_vel cfg _ _ _ ?_ ?_
        · exact (hrng _).1
        · exact (hrng _).2
      · rcases List.mem_cons.mp hmem with rfl | hmem2
        · exact applyVelocity_mem _ _ _ _
        · exact ih _ _ _ _ n hmem2
    · rcases List.mem_cons.mp hn with rfl | hmem
      · exact applyVelocity_mem _ _ _ _
      · exact ih _ _ _ _ n hmem

lemma arpeggioGenerate_vel (rng : Nat → ℚ) (cfg : GeneratorConfig) (k : Nat)
    (hrng : RngOk rng) :
    ∀ n ∈ (arpeggioGenerate rng cfg k).1.notes, 0.3 ≤ n.velocity ∧ n.velocity ≤ 1 := by
  intro n hn
  exact arpeggioLoop_vel rng cfg _ _ hrng _ _ _ _ _ n hn

lemma motifInitialLoop_vel (rng : Nat → ℚ) (cfg : GeneratorConfig)
    (scaleNotes : List String) :
    ∀ (ds : List ℚ) (cb : ℚ) (ci : Int) (k : Nat),
      ∀ n ∈ (motifInitialLoop rng cfg scaleNotes ds cb ci k).1,
        0.3 ≤ n.velocity ∧ n.velocity ≤ 1 := by
  intro ds
  induction ds with
  | nil =>
    intro cb ci k n hn
    simp [motifInitialLoop] at hn
  | cons d ds ih =>
    intro cb ci k n hn
    simp only [motifInitialLoop] at hn
    rcases List.mem_cons.mp hn with rfl | hmem
    · exact applyVelocity_mem _ _ _ _
    · exact ih _ _ _ n hmem

lemma motifTransposeAux_vel (scaleNotes : List String) (steps : Int) :
    ∀ (motif : List Note), (∀ m ∈ motif, 0.3 ≤ m.velocity ∧ m.velocity ≤ 1) →
      ∀ (t : ℚ), ∀ n ∈ motifTransposeAux scaleNotes steps motif t,
        0.3 ≤ n.velocity ∧ n.velocity ≤ 1 := by
  intro motif
  induction motif with
  | nil =>
    intro _ t n hn
    simp [motifTransposeAux] at hn
  | cons m ms ih =>
    intro hm t n hn
    simp only [motifTransposeAux] at hn
    rcases List.mem_cons.mp hn with rfl | hmem
    · exact hm m (List.mem_cons_self _ _)
    · exact ih (fun x hx => hm x (List.mem_cons_of_mem _ hx)) _ n hmem

lemma motifInvertAux_vel (scaleNotes : List String) (pivot : Int) :
    ∀ (motif : List Note), (∀ m ∈ motif, 0.3 ≤ m.velocity ∧ m.velocity ≤ 1) →
      ∀ (t : ℚ), ∀ n ∈ motifInvertAux scaleNotes pivot motif t,
        0.3 ≤ n.velocity ∧ n.velocity ≤ 1 := by
  intro motif
  induction motif with
  | nil =>
    intro _ t n hn
    simp [motifInvertAux] at hn
  | cons m ms ih =>
    intro hm t n hn
    simp only [motifInvertAux] at hn
    rcases List.mem_cons.mp hn with rfl | hmem
    · exact hm m (List.mem_cons_self _ _)
    · exact ih (fun x hx => hm x (List.mem_cons_of_mem _ hx)) _ n hmem

lemma motifRetrogradeAux_vel :
    ∀ (motif : List Note), (∀ m ∈ motif, 0.3 ≤ m.velocity ∧ m.velocity ≤ 1) →
      ∀ (t : ℚ), ∀ n ∈ motifRetrogradeAux motif t,
        0.3 ≤ n.velocity ∧ n.velocity ≤ 1 := by
  intro motif
  induction motif with
  | nil =>
    intro _ t n hn
    simp [motifRetrogradeAux] at hn
  | cons m ms ih =>
    intro hm t n hn
    simp only [motifRetrogradeAux] at hn
    rcases List.mem_cons.mp hn with rfl | hmem
    · exact hm m (List.mem_cons_self _ _)
    · exact ih (fun x hx => hm x (List.mem_cons_of_mem _ hx)) _ n hmem

lemma motifAugmentAux_vel :
    ∀ (motif : List Note), (∀ m ∈ motif, 0.3 ≤ m.velocity ∧ m.velocity ≤ 1) →
      ∀ (t : ℚ), ∀ n ∈ motifAugmentAux motif t,
        0.3 ≤ n.velocity ∧ n.velocity ≤ 1 := by
  intro motif
  induction motif with
  | nil =>
    intro _ t n hn
    simp [motifAugmentAux] at hn
  | cons m ms ih =>
    intro hm t n hn
    simp only [motifAugmentAux] at hn
    rcases List.mem_cons.mp hn with rfl | hmem
    · exact hm m (List.mem_cons_self _ _)
    · exact ih (fun x hx => hm x (List.mem_cons_of_mem _ hx)) _ n hmem

lemma motifDiminishAux_vel :
    ∀ (motif : List Note), (∀ m ∈ motif, 0.3 ≤ m.velocity ∧ m.velocity ≤ 1) →
      ∀ (t : ℚ), ∀ n ∈ motifDiminishAux motif t,
        0.3 ≤ n.velocity ∧ n.velocity ≤ 1 := by
  intro motif
  induction motif with
  | nil =>
    intro _ t n hn
    simp [motifDiminishAux] at hn
  | cons m ms ih =>
    intro hm t n hn
    simp only [motifDiminishAux] at hn
    rcases List.mem_cons.mp hn with rfl | hmem
    · exact hm m (List.mem_cons_self _ _)
    · exact ih (fun x hx => hm x (List.mem_cons_of_mem _ hx)) _ n hmem

lemma applyTechnique_vel (cfg : GeneratorConfig) (scaleNotes : List String)
    (motif : List Note) (technique : String) (sb : ℚ)
    (hm : ∀ m ∈ motif, 0.3 ≤ m.velocity ∧ m.velocity ≤ 1) :
    ∀ n ∈ applyTechnique cfg scaleNotes motif technique sb,
      0.3 ≤ n.velocity ∧ n.velocity ≤ 1 := by
  intro n hn
  simp only [applyTechnique] at hn
  split at hn
  · exact motifTransposeAux_vel _ _ motif hm _ n hn
  · split at hn
    · exact motifTransposeAux_vel _ _ motif hm _ n hn
    · split at hn
      · simp only [motifInvert] at hn
        split at hn
        · simp at hn
        · exact motifInvertAux_vel _ _ _ hm _ n hn
      · split at hn
        · simp only [motifRetrograde] at hn
          exact motifRetrogradeAux_vel motif.reverse
            (fun x hx => hm x (List.mem_reverse.mp hx)) _ n hn
        · split at hn
          · exact motifAugmentAux_vel motif hm _ n hn
          · split at hn
            · exact motifDiminishAux_vel motif hm _ n hn
            · exact motifTransposeAux_vel _ _ motif hm _ n hn

lemma motifLoop_vel (cfg : GeneratorConfig) (scaleNotes : List String) (motif : List Note)
    (motifBeats totalBeats : ℚ)
    (hm : ∀ m ∈ motif, 0.3 ≤ m.velocity ∧ m.velocity ≤ 1) :
    ∀ (fuel : Nat) (cb : ℚ) (ti : Nat),
      ∀ n ∈ motifLoop cfg scaleNotes motif motifBeats totalBeats fuel cb ti,
        0.3 ≤ n.velocity ∧ n.velocity ≤ 1 := by
  intro fuel
  induction fuel with
  | zero =>
    intro cb ti n hn
    simp [motifLoop] at hn
  | succ fuel ih =>
    intro cb ti n hn
    simp only [motifLoop] at hn
    split at hn
    · rcases List.mem_append.mp hn with hv | hrest
      · exact applyTechnique_vel cfg scaleNotes motif _ _ hm n hv
      · exact ih _ _ n hrest
    · simp at hn

lemma motifGenerate_vel (rng : Nat → ℚ) (cfg : GeneratorConfig) (k : Nat) :
    ∀ n ∈ (motifGenerate rng cfg k).1.notes, 0.3 ≤ n.velocity ∧ n.velocity ≤ 1 := by
  intro n hn
  simp only [motifGenerate] at hn
  rcases List.mem_append.mp hn with hmo | hlo
  · exact motifInitialLoop_vel rng cfg (scaleNotesOf cfg) _ _ _ _ n hmo
  · refine motifLoop_vel cfg (scaleNotesOf cfg) _ _ _ ?_ _ _ _ n hlo
    intro m hm
    exact motifInitialLoop_vel rng cfg (scaleNotesOf cfg) _ _ _ _ m hm

lemma instantiatePattern_vel (rng : Nat → ℚ) (cfg : GeneratorConfig)
    (scaleNotes : List String) (si : Int) :
    ∀ (ps : List PatternInterval) (cb : ℚ) (k : Nat),
      ∀ n ∈ (instantiatePattern rng cfg scaleNotes si ps cb k).1,
        0.3 ≤ n.velocity ∧ n.velocity ≤ 1 := by
  intro ps
  induction ps with
  | nil =>
    intro cb k n hn
    simp [instantiatePattern] at hn
  | cons p ps ih =>
    intro cb k n hn
    simp only [instantiatePattern] at hn
    rcases List.mem_cons.mp hn with rfl | hmem
    · exact applyVelocity_mem _ _ _ _
    · exact ih _ _ n hmem

lemma seqRepsLoop_vel (rng : Nat → ℚ) (cfg : GeneratorConfig) (scaleNotes : List String)
    (pattern : List PatternInterval) (c : SeqChoice) (pd : ℚ) (si archPeak : Int)
    (reps : Nat) :
    ∀ (remaining rep : Nat) (cb : ℚ) (cd : Int) (k : Nat),
      ∀ n ∈ (seqRepsLoop rng cfg scaleNotes pattern c pd si archPeak reps
        remaining rep cb cd k).1,
        0.3 ≤ n.velocity ∧ n.velocity ≤ 1 := by
  intro remaining
  induction remaining with
  | zero =>
    intro rep cb cd k n hn
    simp [seqRepsLoop] at hn
  | succ remaining ih =>
    intro rep cb cd k n hn
    simp only [seqRepsLoop] at hn
    rcases List.mem_append.mp hn with hrn | hrest
    · exact instantiatePattern_vel rng cfg scaleNotes _ _ _ _ n hrn
    · exact ih _ _ _ _ n hrest

lemma sequenceGenerate_vel (rng : Nat → ℚ) (cfg : GeneratorConfig) (k : Nat) :
    ∀ n ∈ (sequenceGenerate rng cfg k).1.notes, 0.3 ≤ n.velocity ∧ n.velocity ≤ 1 := by
  intro n hn
  exact seqRepsLoop_vel rng cfg _ _ _ _ _ _ _ _ _ _ _ _ n hn

lemma mem_ite_pair_fst {α β : Type} {n : α} {c : Prop} [Decidable c]
    {p q : List α × β} (hn : n ∈ (if c then p else q).1) : n ∈ p.1 ∨ n ∈ q.1 := by
  split at hn
  · exact Or.inl hn
  · exact Or.inr hn

lemma mem_option_match_fst {α β : Type} {n : Note} {o : Option α} {L : List Note}
    {f : α → β} {d : β}
    (hn : n ∈ (match o with
      | some a => (L, f a)
      | none => (L, d)).1) : n ∈ L := by
  cases o with
  | none => exact hn
  | some a => exact hn

lemma approachLoop_vel (cfg : GeneratorConfig) (noteDuration : ℚ) (useSwing : Bool)
    (len : Nat) :
    ∀ (pitches : List String) (i : Nat) (cb : ℚ), i + pitches.length ≤ len →
      ∀ n ∈ approachLoop cfg noteDuration useSwing len pitches i cb,
        0.3 ≤ n.velocity ∧ n.velocity ≤ 1 := by
  intro pitches
  induction pitches with
  | nil =>
    intro i cb _ n hn
    simp [approachLoop] at hn
  | cons p ps ih =>
    intro i cb hlen n hn
    simp only [approachLoop] at hn
    rcases List.mem_cons.mp hn with rfl | hmem
    · have hi : i < len := by
        simp only [List.length_cons] at hlen
        omega
      have hlen0 : 0 < len := by omega
      have hlq : (0 : ℚ) < (len : ℚ) := by exact_mod_cast hlen0
      have hiq : (i : ℚ) < (len : ℚ) := by exact_mod_cast hi
      have hdiv0 : (0 : ℚ) ≤ (i : ℚ) / (len : ℚ) :=
        div_nonneg (by positivity) (le_of_lt hlq)
      have hdiv1 : (i : ℚ) / (len : ℚ) < 1 := (div_lt_one hlq).mpr hiq
      constructor
      · show (0.3 : ℚ) ≤ 0.6 + ((i : ℚ) / (len : ℚ)) * 0.2
        linarith
      · show 0.6 + ((i : ℚ) / (len : ℚ)) * 0.2 ≤ 1
        linarith
    · refine ih (i + 1) _ ?_ n hmem
      simp only [List.length_cons] at hlen
      omega

lemma generateApproach_vel (rng : Nat → ℚ) (cfg : GeneratorConfig)
    (scaleNotes : List String) (targetPitch : String) (sb ab : ℚ) (k : Nat) :
    ∀ n ∈ (generateApproach rng cfg scaleNotes targetPitch sb ab k).1,
      0.3 ≤ n.velocity ∧ n.velocity ≤ 1 := by
  intro n hn
  simp only [generateApproach] at hn
  split at hn
  · simp at hn
  · split at hn
    · simp at hn
    · exact approachLoop_vel cfg _ _ _ _ 0 _ (by omega) n hn

lemma bebopLineLoop_vel (rng : Nat → ℚ) (cfg : GeneratorConfig)
    (scaleNotes : List String) (noteCount : Nat) (sb ab : ℚ) (od : Int) :
    ∀ (remaining i : Nat) (cb : ℚ) (cm : Int) (k : Nat),
      ∀ n ∈ (bebopLineLoop rng cfg scaleNotes noteCount sb ab od remaining i cb cm k).1,
        0.3 ≤ n.velocity ∧ n.velocity ≤ 1 := by
  intro remaining
  induction remaining with
  | zero =>
    intro i cb cm k n hn
    simp [bebopLineLoop] at hn
  | succ remaining ih =>
    intro i cb cm k n hn
    simp only [bebopLineLoop] at hn
    rcases mem_ite_pair_fst hn with h1 | h2
    · rcases List.mem_cons.mp h1 with rfl | hmem
      · exact applyVelocity_mem _ _ _ _
      · simp at hmem
    · rcases List.mem_cons.mp h2 with rfl | hmem
      · exact applyVelocity_mem _ _ _ _
      · exact ih _ _ _ _ n hmem

lemma generateBebopLine_vel (rng : Nat → ℚ) (cfg : GeneratorConfig)
    (scaleNotes : List String) (sp : String) (sb ab : ℚ) (ntp : Option String) (k : Nat) :
    ∀ n ∈ (generateBebopLine rng cfg scaleNotes sp sb ab ntp k).1,
      0.3 ≤ n.velocity ∧ n.velocity ≤ 1 := by
  intro n hn
  simp only [generateBebopLine] at hn
  split at hn
  · simp at hn
  · split at hn
    · simp at hn
    · exact bebopLineLoop_vel rng cfg scaleNotes _ _ _ _ _ _ _ _ _ n hn

lemma bebopMainLoop_vel (rng : Nat → ℚ) (cfg : GeneratorConfig)
    (scaleNotes : List String) (tb : ℚ) :
    ∀ (targets : List (ℚ × String)) (nf : Bool) (cb : ℚ) (k : Nat),
      ∀ n ∈ (bebopMainLoop rng cfg scaleNotes tb targets nf cb k).1,
        0.3 ≤ n.velocity ∧ n.velocity ≤ 1 := by
  intro targets
  induction targets with
  | nil =>
    intro nf cb k n hn
    simp [bebopMainLoop] at hn
  | cons target rest ihT =>
    intro nf cb k n hn
    simp only [bebopMainLoop] at hn
    rcases List.mem_append.mp hn with hap | hrest
    · rcases mem_ite_pair_fst hap with h | h
      · exact generateApproach_vel rng cfg scaleNotes _ _ _ _ n h
      · simp at h
    · rcases List.mem_cons.mp hrest with rfl | hrest2
      · exact applyVelocity_mem _ _ _ _
      · rcases List.mem_append.mp hrest2 with hfl | hr
        · rcases mem_ite_pair_fst hfl with h | h
          · split at h
            · exact generateBebopLine_vel rng cfg scaleNotes _ _ _ _ _ n h
            · exact generateBebopLine_vel rng cfg scaleNotes _ _ _ _ _ n h
          · simp at h
        · exact ihT _ _ _ n hr

lemma bebopGenerate_vel (rng : Nat → ℚ) (cfg : GeneratorConfig) (k : Nat) :
    ∀ n ∈ (bebopGenerate rng cfg k).1.notes, 0.3 ≤ n.velocity ∧ n.velocity ≤ 1 := by
  intro n hn
  exact bebopMainLoop_vel rng cfg _ _ _ _ _ _ n hn

lemma call_note_vel (cfg : GeneratorConfig) (note : Note) (bp r : ℚ)
    (h0 : 0 ≤ r) (h1 : r < 1) :
    0.66 ≤ min 1 ((applyVelocity cfg note bp r).velocity * 1.1) ∧
      min 1 ((applyVelocity cfg note bp r).velocity * 1.1) ≤ 1 := by
  have hav := applyVelocity_rng cfg note bp r h0 h1
  exact ⟨le_min (by norm_num) (by linarith [hav.1]), min_le_left _ _⟩

lemma boosted_note_vel (cfg : GeneratorConfig) (note : Note) (bp r : ℚ) :
    0.3 ≤ min 1 ((applyVelocity cfg note bp r).velocity * 1.2) ∧
      min 1 ((applyVelocity cfg note bp r).velocity * 1.2) ≤ 1 := by
  have h := applyVelocity_mem cfg note bp r
  exact ⟨le_min (by norm_num) (by linarith [h.1]), min_le_left _ _⟩

lemma generateCallLoop_vel (rng : Nat → ℚ) (cfg : GeneratorConfig)
    (scaleNotes : List String) (sb : ℚ) (len : Nat) (hrng : RngOk rng) :
    ∀ (ds : List ℚ) (i : Nat) (cb : ℚ) (pi : Int) (k : Nat),
      ∀ n ∈ (generateCallLoop rng cfg scaleNotes sb len ds i cb pi k).1,
        0.66 ≤ n.velocity ∧ n.velocity ≤ 1 := by
  intro ds
  induction ds with
  | nil =>
    intro i cb pi k n hn
    simp [generateCallLoop] at hn
  | cons d ds ih =>
    intro i cb pi k n hn
    simp only [generateCallLoop] at hn
    rcases List.mem_cons.mp hn with rfl | hmem
    · refine call_note_vel cfg _ _ _ ?_ ?_
      · exact (hrng _).1
      · exact (hrng _).2
    · exact ih _ _ _ _ n hmem

lemma generateCall_vel (rng : Nat → ℚ) (cfg : GeneratorConfig) (scaleNotes : List String)
    (sb lb : ℚ) (k : Nat) (hrng : RngOk rng) :
    ∀ n ∈ (generateCall rng cfg scaleNotes sb lb k).1,
      0.66 ≤ n.velocity ∧ n.velocity ≤ 1 := by
  intro n hn
  exact generateCallLoop_vel rng cfg scaleNotes sb _ hrng _ _ _ _ _ n hn

lemma echoLoop_vel (cfg : GeneratorConfig) (os : Int) (spb : ℚ) :
    ∀ (callNotes : List Note),
      (∀ c ∈ callNotes, 0.66 ≤ c.velocity ∧ c.velocity ≤ 1) →
      ∀ (cb : ℚ), ∀ n ∈ echoLoop cfg os spb callNotes cb,
        0.3 ≤ n.velocity ∧ n.velocity ≤ 1 := by
  intro callNotes
  induction callNotes with
  | nil =>
    intro _ cb n hn
    simp [echoLoop] at hn
  | cons c cs ih =>
    intro hc cb n hn
    simp only [echoLoop] at hn
    rcases List.mem_cons.mp hn with rfl | hmem
    · have h := hc c (List.mem_cons_self _ _)
      constructor
      · show (0.3 : ℚ) ≤ c.velocity * 0.9
        linarith [h.1]
      · show c.velocity * 0.9 ≤ (1 : ℚ)
        linarith [h.2]
    · exact ih (fun x hx => hc x (List.mem_cons_of_mem _ hx)) _ n hmem

lemma answerLoop_vel (rng : Nat → ℚ) (cfg : GeneratorConfig) (scaleNotes : List String)
    (rootNote : String) (sb lb : ℚ) (len : Nat) :
    ∀ (ds : List ℚ) (i : Nat) (cb : ℚ) (ci : Int) (k : Nat),
      ∀ n ∈ (answerLoop rng cfg scaleNotes rootNote sb lb len ds i cb ci k).1,
        0.3 ≤ n.velocity ∧ n.velocity ≤ 1 := by
  intro ds
  induction ds with
  | nil =>
    intro i cb ci k n hn
    simp [answerLoop] at hn
  | cons d ds ih =>
    intro i cb ci k n hn
    simp only [answerLoop] at hn
    split at hn
    · rcases List.mem_cons.mp hn with rfl | hmem
      · split
        · exact boosted_note_vel cfg _ _ _
        · exact applyVelocity_mem _ _ _ _
      · exact ih _ _ _ _ n hmem
    · simp at hn

lemma mirrorLoop_vel (cfg : GeneratorConfig) (scaleNotes : List String) (pivot : Int)
    (spb : ℚ) :
    ∀ (callNotes : List Note),
      (∀ c ∈ callNotes, 0.3 ≤ c.velocity ∧ c.velocity ≤ 1) →
      ∀ (cb : ℚ), ∀ n ∈ mirrorLoop cfg scaleNotes pivot spb callNotes cb,
        0.3 ≤ n.velocity ∧ n.velocity ≤ 1 := by
  intro callNotes
  induction callNotes with
  | nil =>
    intro _ cb n hn
    simp [mirrorLoop] at hn
  | cons c cs ih =>
    intro hc cb n hn
    simp only [mirrorLoop] at hn
    rcases List.mem_cons.mp hn with rfl | hmem
    · exact hc c (List.mem_cons_self _ _)
    · exact ih (fun x hx => hc x (List.mem_cons_of_mem _ hx)) _ n hmem

lemma rhythmicLoop_vel (rng : Nat → ℚ) (cfg : GeneratorConfig) (callNotes : List Note)
    (sb : ℚ) :
    ∀ (ds : List ℚ) (pi : Nat) (cb : ℚ) (k : Nat),
      ∀ n ∈ (rhythmicLoop rng cfg callNotes sb ds pi cb k).1,
        0.3 ≤ n.velocity ∧ n.velocity ≤ 1 := by
  intro ds
  induction ds with
  | nil =>
    intro pi cb k n hn
    simp [rhythmicLoop] at hn
  | cons d ds ih =>
    intro pi cb k n hn
    simp only [rhythmicLoop] at hn
    rcases List.mem_cons.mp hn with rfl | hmem
    · exact applyVelocity_mem _ _ _ _
    · exact ih _ _ _ n hmem

lemma generateResponse_vel (rng : Nat → ℚ) (cfg : GeneratorConfig)
    (scaleNotes : List String) (rootNote : String) (callNotes : List Note)
    (rt : String) (sb lb : ℚ) (k : Nat)
    (hcall : ∀ c ∈ callNotes, 0.66 ≤ c.velocity ∧ c.velocity ≤ 1) :
    ∀ n ∈ (generateResponse rng cfg scaleNotes rootNote callNotes rt sb lb k).1,
      0.3 ≤ n.velocity ∧ n.velocity ≤ 1 := by
  intro n hn
  simp only [generateResponse] at hn
  split at hn
  · exact echoLoop_vel cfg _ _ callNotes hcall _ n hn
  · split at hn
    · exact answerLoop_vel rng cfg scaleNotes rootNote _ _ _ _ _ _ _ _ n hn
    · split at hn
      · simp only [generateMirrorResponse] at hn
        split at hn
        · simp at hn
        · exact mirrorLoop_vel cfg scaleNotes _ _ _
            (fun c hc => ⟨le_trans (by norm_num) (hcall c hc).1, (hcall c hc).2⟩) _ n hn
      · split at hn
        · exact rhythmicLoop_vel rng cfg callNotes _ _ _ _ _ n hn
        · exact answerLoop_vel rng cfg scaleNotes rootNote _ _ _ _ _ _ _ _ n hn

lemma crLoop_vel (rng : Nat → ℚ) (cfg : GeneratorConfig) (scaleNotes : List String)
    (rootNote : String) (tb cbeats : ℚ) (hrng : RngOk rng) :
    ∀ (fuel : Nat) (cb : ℚ) (rti k : Nat),
      ∀ n ∈ (crLoop rng cfg scaleNotes rootNote tb cbeats fuel cb rti k).1,
        0.3 ≤ n.velocity ∧ n.velocity ≤ 1 := by
  intro fuel
  induction fuel with
  | zero =>
    intro cb rti k n hn
    simp [crLoop] at hn
  | succ fuel ih =>
    intro cb rti k n hn
    simp only [crLoop] at hn
    split at hn
    · split at hn
      · have h := generateCall_vel rng cfg scaleNotes _ _ _ hrng n hn
        exact ⟨le_trans (by norm_num) h.1, h.2⟩
      · rcases List.mem_append.mp hn with hcr | hrest
        · rcases List.mem_append.mp hcr with hcn | hrn
          · have h := generateCall_vel rng cfg scaleNotes _ _ _ hrng n hcn
            exact ⟨le_trans (by norm_num) h.1, h.2⟩
          · exact generateResponse_vel rng cfg scaleNotes rootNote _ _ _ _ _
              (generateCall_vel rng cfg scaleNotes _ _ _ hrng) n hrn
        · exact ih _ _ _ n hrest
    · simp at hn

lemma callResponseGenerate_vel (rng : Nat → ℚ) (cfg : GeneratorConfig) (k : Nat)
    (hrng : RngOk rng) :
    ∀ n ∈ (callResponseGenerate rng cfg k).1.notes, 0.3 ≤ n.velocity ∧ n.velocity ≤ 1 := by
  intro n hn
  exact crLoop_vel rng cfg _ _ _ _ hrng _ _ _ _ n hn

lemma createBend_vel (cfg : GeneratorConfig) (tp : String) (sb td : ℚ) :
    ∀ n ∈ createBend cfg tp sb td, 0.3 ≤ n.velocity ∧ n.velocity ≤ 1 := by
  intro n hn
  simp only [createBend] at hn
  rcases List.mem_cons.mp hn with rfl | hn2
  · exact ⟨show (0.3 : ℚ) ≤ 0.6 by norm_num, show (0.6 : ℚ) ≤ 1 by norm_num⟩
  · rcases List.mem_cons.mp hn2 with rfl | hn3
    · exact ⟨show (0.3 : ℚ) ≤ 0.85 by norm_num, show (0.85 : ℚ) ≤ 1 by norm_num⟩
    · simp at hn3

lemma bluesPhraseLoop_vel (rng : Nat → ℚ) (cfg : GeneratorConfig)
    (bluesNotes : List String) (blueNoteSet : List Int) (sb : ℚ) (pt : String)
    (len : Nat) :
    ∀ (ds : List ℚ) (i : Nat) (cb : ℚ) (pi : Int) (k : Nat),
      ∀ n ∈ (bluesPhraseLoop rng cfg bluesNotes blueNoteSet sb pt len ds i cb pi k).1,
        0.3 ≤ n.velocity ∧ n.velocity ≤ 1 := by
  intro ds
  induction ds with
  | nil =>
    intro i cb pi k n hn
    simp [bluesPhraseLoop] at hn
  | cons d ds ih =>
    intro i cb pi k n hn
    simp only [bluesPhraseLoop] at hn
    split at hn
    · exact ih _ _ _ _ n hn
    · rcases mem_ite_pair_fst hn with h | h
      · rcases List.mem_append.mp h with hb | hr
        · exact createBend_vel cfg _ _ _ n hb
        · exact ih _ _ _ _ n hr
      · rcases List.mem_cons.mp h with rfl | hr
        · exact applyBluesVelocity_mem _ _ _ _
        · exact ih _ _ _ _ n hr

lemma generateBluesPhrase_vel (rng : Nat → ℚ) (cfg : GeneratorConfig)
    (choice : BluesChoice) (bluesNotes : List String) (blueNoteSet : List Int)
    (sb lb : ℚ) (pt : String) (k : Nat) :
    ∀ n ∈ (generateBluesPhrase rng cfg choice bluesNotes blueNoteSet sb lb pt k).1,
      0.3 ≤ n.velocity ∧ n.velocity ≤ 1 := by
  intro n hn
  exact bluesPhraseLoop_vel rng cfg bluesNotes blueNoteSet sb pt _ _ _ _ _ _ n hn

lemma turnaroundLoop_vel (cfg : GeneratorConfig) (sf : Bool) (nd : ℚ) (total : Nat) :
    ∀ (midis : List Int) (i : Nat) (cb : ℚ),
      ∀ n ∈ turnaroundLoop cfg sf nd total midis i cb,
        0.3 ≤ n.velocity ∧ n.velocity ≤ 1 := by
  intro midis
  induction midis with
  | nil =>
    intro i cb n hn
    simp [turnaroundLoop] at hn
  | cons m ms ih =>
    intro i cb n hn
    simp only [turnaroundLoop] at hn
    rcases List.mem_cons.mp hn with rfl | hmem
    · constructor
      · show (0.3 : ℚ) ≤ if i < total - 1 then (0.7 : ℚ) else 0.9
        split <;> norm_num
      · show (if i < total - 1 then (0.7 : ℚ) else 0.9) ≤ 1
        split <;> norm_num
    · exact ih _ _ n hmem

lemma generateTurnaround_vel (cfg : GeneratorConfig) (choice : BluesChoice) (sb lb : ℚ) :
    ∀ n ∈ generateTurnaround cfg choice sb lb, 0.3 ≤ n.velocity ∧ n.velocity ≤ 1 := by
  intro n hn
  exact turnaroundLoop_vel cfg _ _ _ _ _ _ n hn

lemma bluesMainLoop_vel (rng : Nat → ℚ) (cfg : GeneratorConfig) (choice : BluesChoice)
    (bluesNotes : List String) (blueNoteSet : List Int) (tb : ℚ) :
    ∀ (fuel : Nat) (cb : ℚ) (pt : String) (k : Nat),
      ∀ n ∈ (bluesMainLoop rng cfg choice bluesNotes blueNoteSet tb fuel cb pt k).1,
        0.3 ≤ n.velocity ∧ n.velocity ≤ 1 := by
  intro fuel
  induction fuel with
  | zero =>
    intro cb pt k n hn
    simp [bluesMainLoop] at hn
  | succ fuel ih =>
    intro cb pt k n hn
    simp only [bluesMainLoop] at hn
    split at hn
    · split at hn
      · exact generateTurnaround_vel cfg choice _ _ n hn
      · rcases List.mem_append.mp hn with hp | hr
        · exact generateBluesPhrase_vel rng cfg choice bluesNotes blueNoteSet _ _ _ _ n hp
        · exact ih _ _ _ n hr
    · simp at hn

lemma bluesGenerate_vel (rng : Nat → ℚ) (cfg : GeneratorConfig) (k : Nat) :
    ∀ n ∈ (bluesGenerate rng cfg k).1.notes, 0.3 ≤ n.velocity ∧ n.velocity ≤ 1 := by
  intro n hn
  exact bluesMainLoop_vel rng cfg _ _ _ _ _ _ _ _ n hn

lemma createGenerator_vel (rng : Nat → ℚ) (alg : String) (cfg : GeneratorConfig)
    (k : Nat) (hrng : RngOk rng) :
    ∀ n ∈ (createGenerator alg cfg rng k).1.notes, 0.3 ≤ n.velocity ∧ n.velocity ≤ 1 := by
  intro n hn
  unfold createGenerator at hn
  split at hn
  · exact scaleRunGenerate_vel rng cfg k n hn
  · split at hn
    · exact arpeggioGenerate_vel rng cfg k hrng n hn
    · split at hn
      · exact motifGenerate_vel rng cfg k n hn
      · split at hn
        · exact bebopGenerate_vel rng cfg k n hn
        · split at hn
          · exact callResponseGenerate_vel rng cfg k hrng n hn
          · split at hn
            · exact sequenceGenerate_vel rng cfg k n hn
            · split at hn
              · exact bluesGenerate_vel rng cfg k n hn
              · exact scaleRunGenerate_vel rng cfg k n hn

/-- Claim C2: when every random draw lies in [0, 1), every note of every
generator variant (through the createGenerator dispatch, for every algorithm
tag and config) has velocity in [0.3, 1]; applyVelocity is exactly the clamp
of base (0.8 for chord tones, 0.65 otherwise) plus 0.1 on integral beat
positions plus the jitter r * 0.1 - 0.05, and that jitter lies in
[-0.05, 0.05]. -/
theorem claim_C2_velocity_bounds (rng : Nat → ℚ) (hrng : RngOk rng) :
    (∀ (alg : String) (cfg : GeneratorConfig) (k : Nat),
      ∀ n ∈ (createGenerator alg cfg rng k).1.notes,
        0.3 ≤ n.velocity ∧ n.velocity ≤ 1) ∧
    (∀ (cfg : GeneratorConfig) (note : Note) (bp r : ℚ),
      applyVelocity cfg note bp r =
        { note with
          velocity :=
            min 1 (max 0.3
              ((if isChordTone note.pitch cfg.key cfg.scale then (0.8 : ℚ) else 0.65) +
                (if bp.isInt then (0.1 : ℚ) else 0) + (r * 0.1 - 0.05))) }) ∧
    (∀ i : Nat, -(0.05 : ℚ) ≤ rng i * 0.1 - 0.05 ∧ rng i * 0.1 - 0.05 ≤ 0.05) := by
  refine ⟨?_, ?_, ?_⟩
  · intro alg cfg k n hn
    exact createGenerator_vel rng alg cfg k hrng n hn
  · intro cfg note bp r
    rfl
  · intro i
    constructor
    · linarith [(hrng i).1]
    · linarith [(hrng i).2]

/-- Witness for claim_C2_velocity_bounds at the constant stream 1/2. -/
theorem claim_C2_velocity_bounds_witness :
    RngOk (fun _ => (1 : ℚ)/2) ∧
    ((∀ (alg : String) (cfg : GeneratorConfig) (k : Nat),
      ∀ n ∈ (createGenerator alg cfg (fun _ => (1 : ℚ)/2) k).1.notes,
        0.3 ≤ n.velocity ∧ n.velocity ≤ 1) ∧
    (∀ (cfg : GeneratorConfig) (note : Note) (bp r : ℚ),
      applyVelocity cfg note bp r =
        { note with
          velocity :=
            min 1 (max 0.3
              ((if isChordTone note.pitch cfg.key cfg.scale then (0.8 : ℚ) else 0.65) +
                (if bp.isInt then (0.1 : ℚ) else 0) + (r * 0.1 - 0.05))) }) ∧
    (∀ i : Nat, -(0.05 : ℚ) ≤ (fun _ => (1 : ℚ)/2) i * 0.1 - 0.05 ∧
      (fun _ => (1 : ℚ)/2) i * 0.1 - 0.05 ≤ 0.05)) :=
  ⟨fun i => ⟨by norm_num, by norm_num⟩,
   claim_C2_velocity_bounds (fun _ => (1 : ℚ)/2) (fun i => ⟨by norm_num, by norm_num⟩)⟩

/-! ## Witnesses for the remaining hypothesis-bearing claim theorems -/

/-- Witness for claim_C10_total_conversion_fallback: the unparseable name "H". -/
theorem claim_C10_total_conversion_fallback_witness :
    tonalMidi "H" = none ∧ noteToMidi "H" = 60 :=
  ⟨by decide, claim_C10_total_conversion_fallback.1 "H" (by decide)⟩

/-- Witness for claim_C4_scale_table: C major on the octave range [4, 4]. -/
theorem claim_C4_scale_table_witness :
    ("C" ∈ KEYS ∧ (lookupScaleIn SCALE_DEFINITIONS "major").isSome = true ∧
      (-1 : Int) ≤ 4 ∧ (4 : Int) ≤ 4 ∧ (4 : Int) ≤ 8) ∧
    (List.Pairwise (· < ·) ((getScaleNotes "C" "major" (4, 4)).map noteToMidi) ∧
      (∀ n ∈ getScaleNotes "C" "major" (4, 4), 0 ≤ noteToMidi n ∧ noteToMidi n ≤ 127) ∧
      getScaleNotes "C" "major" (4, 4) = ["C4", "D4", "E4", "F4", "G4", "A4", "B4"] ∧
      (getScaleNotes "C" "major" (4, 4)).map noteToMidi = [60, 62, 64, 65, 67, 69, 71]) :=
  ⟨⟨by decide, by decide, by decide, by decide, by decide⟩,
   claim_C4_scale_table "C" "major" 4 4 (by decide) (by decide) (by decide) (by decide)
     (by decide)⟩

/-- Witness for claim_C7_scale_degree: E4 is a chord tone of C major. -/
theorem claim_C7_scale_degree_witness :
    lookupScaleIn SCALE_DEFINITIONS "major" =
      some ⟨"Major", [0, 2, 4, 5, 7, 9, 11], [1, 3, 5, 7]⟩ ∧
    (isChordTone "E4" "C" "major" = true ↔
      ∃ deg, getScaleDegree "E4" "C" "major" = some deg ∧
        deg ∈ (⟨"Major", [0, 2, 4, 5, 7, 9, 11], [1, 3, 5, 7]⟩ : ScaleDefinition).chordTones) :=
  ⟨by decide,
   (claim_C7_scale_degree "E4" "C" "major" ⟨"Major", [0, 2, 4, 5, 7, 9, 11], [1, 3, 5, 7]⟩
     (by decide)).2.2⟩

/-- Witness for claim_C8_closest_note: the closest C-major-triad note to MIDI 63. -/
theorem claim_C8_closest_note_witness :
    (["C4", "E4", "G4"] : List String) ≠ [] ∧
    (findClosestScaleNote ["C4", "E4", "G4"] 63 ∈ (["C4", "E4", "G4"] : List String) ∧
      (∀ y ∈ (["C4", "E4", "G4"] : List String),
        cdist 63 (findClosestScaleNote ["C4", "E4", "G4"] 63) ≤ cdist 63 y) ∧
      (∃ pre post, (["C4", "E4", "G4"] : List String) =
          pre ++ findClosestScaleNote ["C4", "E4", "G4"] 63 :: post ∧
        ∀ y ∈ pre, cdist 63 (findClosestScaleNote ["C4", "E4", "G4"] 63) < cdist 63 y)) :=
  ⟨by decide, claim_C8_closest_note.1 ["C4", "E4", "G4"] 63 (by decide)⟩

end ToneFactory
